import Mathlib

/-!
# LiquidCrystalWired: command engine and progress-bar renderer

A shallow embedding of `src/LiquidCrystalWired.cpp`.

* Bytes (`uint8_t`) are natural numbers reduced `% 256` wherever the C++ code
  narrows a value to `uint8_t`.
* The object is the record `LCD`; every method is a function from the object
  to the new object and the list of bus and timing events it performs.
* `float` is IEEE-754 binary32 with round-to-nearest-even, the `float` of the
  Arduino targets; a finite value is `(-1)^neg * m * 2^e`.
* The constants of `LiquidCrystalWired.h` are the fields of `Header`.
-/

namespace LiquidCrystalWired

/-! ## binary32 arithmetic -/

/-- Floor of the binary logarithm with explicit fuel (`0` for `n < 2`). -/
def log2Fuel : Nat → Nat → Nat
  | 0, _ => 0
  | fuel + 1, n => if 2 ≤ n then log2Fuel fuel (n / 2) + 1 else 0

/-- Floor of the binary logarithm of `n` (`0` for `n = 0`). -/
def log2 (n : Nat) : Nat := log2Fuel n n

/-- Floor of the binary logarithm of the positive fraction `num / den`. -/
def floorLog2 (num den : Nat) : Int :=
  let k0 : Int := (log2 num : Int) - (log2 den : Int)
  if den * 2 ^ k0.toNat ≤ num * 2 ^ (-k0).toNat then k0 else k0 - 1

/-- Nearest integer to the fraction `sn / sd`, ties to the even integer. -/
def roundHalfEven (sn sd : Nat) : Nat :=
  let q := sn / sd
  let r := sn % sd
  if 2 * r < sd then q
  else if sd < 2 * r then q + 1
  else if q % 2 = 0 then q else q + 1

/-- A binary32 datum: not-a-number, an infinity, or the finite value
`(-1)^neg * m * 2^e`. -/
inductive Float32 where
  | nan : Float32
  | inf (neg : Bool) : Float32
  | fin (neg : Bool) (m : Nat) (e : Int) : Float32
  deriving DecidableEq, Repr

/-- Round the exact value `(-1)^neg * num / den` to binary32: 24 significant
bits, least exponent `-149`, nearest with ties to even, overflow to infinity. -/
def roundToFloat32 (neg : Bool) (num den : Nat) : Float32 :=
  if num = 0 then .fin neg 0 0
  else
    let e : Int := max (floorLog2 num den - 23) (-149)
    let m := roundHalfEven (num * 2 ^ (-e).toNat) (den * 2 ^ e.toNat)
    if 2 ^ 128 ≤ m * 2 ^ e.toNat then .inf neg else .fin neg m e

namespace Float32

/-- Conversion of an `int` to `float`. -/
def ofInt (n : Int) : Float32 := roundToFloat32 (decide (n < 0)) n.natAbs 1

/-- The signed significand of a finite value. -/
def signed (neg : Bool) (m : Nat) : Int := if neg then -(m : Int) else (m : Int)

/-- The comparison `a < b` on `float` (false when either side is NaN). -/
def lt : Float32 → Float32 → Bool
  | .nan, _ => false
  | _, .nan => false
  | .inf s, .inf t => s && !t
  | .inf s, .fin _ _ _ => s
  | .fin _ _ _, .inf t => !t
  | .fin s m e, .fin t n f =>
      decide (signed s m * 2 ^ (e - f).toNat < signed t n * 2 ^ (f - e).toNat)

/-- The comparison `a <= b` on `float` (false when either side is NaN). -/
def le : Float32 → Float32 → Bool
  | .nan, _ => false
  | _, .nan => false
  | .inf s, .inf t => s || !t
  | .inf s, .fin _ _ _ => s
  | .fin _ _ _, .inf t => !t
  | .fin s m e, .fin t n f =>
      decide (signed s m * 2 ^ (e - f).toNat ≤ signed t n * 2 ^ (f - e).toNat)

/-- The quotient `a / b` on `float`. -/
def div : Float32 → Float32 → Float32
  | .nan, _ => .nan
  | _, .nan => .nan
  | .inf _, .inf _ => .nan
  | .inf s, .fin t _ _ => .inf (xor s t)
  | .fin s _ _, .inf t => .fin (xor s t) 0 0
  | .fin s m e, .fin t n f =>
      if n = 0 then (if m = 0 then .nan else .inf (xor s t))
      else roundToFloat32 (xor s t) (m * 2 ^ (e - f).toNat) (n * 2 ^ (f - e).toNat)

/-- The product `a * b` on `float`. -/
def mul : Float32 → Float32 → Float32
  | .nan, _ => .nan
  | _, .nan => .nan
  | .inf s, .inf t => .inf (xor s t)
  | .inf s, .fin t n _ => if n = 0 then .nan else .inf (xor s t)
  | .fin s m _, .inf t => if m = 0 then .nan else .inf (xor s t)
  | .fin s m e, .fin t n f =>
      roundToFloat32 (xor s t) (m * n * 2 ^ (e + f).toNat) (2 ^ (-(e + f)).toNat)

/-- Conversion of a `float` to `int`: truncation toward zero. The conversion
is undefined (`none`) for NaN, for the infinities and for a value whose
truncation does not fit the 16-bit `int` of the smallest target. -/
def toInt? : Float32 → Option Int
  | .fin s m e =>
      let t : Nat := m * 2 ^ e.toNat / 2 ^ (-e).toNat
      if t < 2 ^ 15 then some (signed s t) else none
  | _ => none

/-- The data that are binary32 values: a finite one has a significand of at
most 24 bits and an exponent from `-149` to `104`. The operations above are
defined on every datum and return values of this kind or their equal
`2^24 * 2^e`. -/
def Representable : Float32 → Prop
  | .fin _ m e => m < 2 ^ 24 ∧ -149 ≤ e ∧ e ≤ 104
  | _ => True

instance (x : Float32) : Decidable x.Representable := by
  cases x <;> unfold Representable <;> infer_instance

end Float32

/-! ## Constants of the header -/

/-- The constants, enumerators and glyph tables that `LiquidCrystalWired.h`
declares and the source file uses. The header is not among the sources, so
they are parameters of the model. -/
structure Header where
  CMD_CLEAR_DISPLAY : Nat
  CMD_RETURN_HOME : Nat
  CMD_ENTRY_MODE_SET : Nat
  CMD_DISPLAY_CONTROL : Nat
  CMD_CURSOR_DISPLAY_SHIFT : Nat
  CMD_FUNCTION_SET : Nat
  CMD_SET_CGRAM_ADDR : Nat
  BIT_ENTRY_MODE_INCREMENT : Nat
  BIT_ENTRY_MODE_AUTOINCREMENT : Nat
  BIT_DISPLAY_CONTROL_DISPLAY : Nat
  BIT_DISPLAY_CONTROL_CURSOR : Nat
  BIT_DISPLAY_CONTROL_CURSOR_BLINKING : Nat
  BIT_CURSOR_DISPLAY_SHIFT_SELECTION : Nat
  BIT_CURSOR_DISPLAY_SHIFT_DIRECTION : Nat
  BIT_FUNCTION_SET_BITMODE : Nat
  BIT_FUNCTION_SET_LINECOUNT : Nat
  BIT_FUNCTION_SET_FONTSIZE : Nat
  CUSTOM_SYMBOL_4 : Nat
  CUSTOM_SYMBOL_5 : Nat
  CUSTOM_SYMBOL_6 : Nat
  CUSTOM_SYMBOL_7 : Nat
  CUSTOM_SYMBOL_8 : Nat
  customCharProgressBar1 : List Nat
  customCharProgressBar2 : List Nat
  customCharProgressBar3 : List Nat
  customCharProgressBar4 : List Nat
  customCharProgressBar5 : List Nat
  deriving Repr

/-- Modelled from the spec: the header `LiquidCrystalWired.h` is missing. The
spec names an HD44780-class controller, whose instruction set fixes the command
codes and flag bit positions; the progress-bar glyphs occupy the custom-glyph
slots 4 to 8 of the slots indexed 0 to 7, and glyph `k` fills the `k` leftmost
of the five pixel columns of a cell. -/
def hd44780 : Header where
  CMD_CLEAR_DISPLAY := 0x01
  CMD_RETURN_HOME := 0x02
  CMD_ENTRY_MODE_SET := 0x04
  CMD_DISPLAY_CONTROL := 0x08
  CMD_CURSOR_DISPLAY_SHIFT := 0x10
  CMD_FUNCTION_SET := 0x20
  CMD_SET_CGRAM_ADDR := 0x40
  BIT_ENTRY_MODE_INCREMENT := 1
  BIT_ENTRY_MODE_AUTOINCREMENT := 0
  BIT_DISPLAY_CONTROL_DISPLAY := 2
  BIT_DISPLAY_CONTROL_CURSOR := 1
  BIT_DISPLAY_CONTROL_CURSOR_BLINKING := 0
  BIT_CURSOR_DISPLAY_SHIFT_SELECTION := 3
  BIT_CURSOR_DISPLAY_SHIFT_DIRECTION := 2
  BIT_FUNCTION_SET_BITMODE := 4
  BIT_FUNCTION_SET_LINECOUNT := 3
  BIT_FUNCTION_SET_FONTSIZE := 2
  CUSTOM_SYMBOL_4 := 3
  CUSTOM_SYMBOL_5 := 4
  CUSTOM_SYMBOL_6 := 5
  CUSTOM_SYMBOL_7 := 6
  CUSTOM_SYMBOL_8 := 7
  customCharProgressBar1 := List.replicate 8 0x10
  customCharProgressBar2 := List.replicate 8 0x18
  customCharProgressBar3 := List.replicate 8 0x1C
  customCharProgressBar4 := List.replicate 8 0x1E
  customCharProgressBar5 := List.replicate 8 0x1F

/-- The enumeration `FontSize`. -/
inductive FontSize where
  | FONT_SIZE_5x8
  | FONT_SIZE_5x10
  deriving DecidableEq, Repr

/-- The enumeration `BitMode`. -/
inductive BitMode where
  | BITMODE_4_BIT
  | BITMODE_8_BIT
  deriving DecidableEq, Repr

/-- The enumeration `TextInsertionMode`. -/
inductive TextInsertionMode where
  | LEFT_TO_RIGHT
  | RIGHT_TO_LEFT
  deriving DecidableEq, Repr

/-! ## The object and its observable events -/

/-- What the object does to the outside world: calls on the two-wire bus and
the two busy-wait primitives. -/
inductive Event where
  | wireBegin (wire : Nat)
  | beginTransmission (wire : Nat) (address : Nat)
  | wireWrite (wire : Nat) (byte : Nat)
  | endTransmission (wire : Nat)
  | delay (ms : Nat)
  | delayMicroseconds (us : Nat)
  deriving DecidableEq, Repr

/-- The data members of a `LiquidCrystalWired` object. The byte-sized members
hold values below 256; `_wire` is the identity of the bus object. -/
structure LCD where
  _rowCount : Nat
  _colCount : Nat
  _fontSize : FontSize
  _bitMode : BitMode
  _deviceAddress : Nat
  _wire : Nat
  _currDisplayControl : Nat
  _currEntryModeSet : Nat
  _progressBarEnabled : Bool
  _progressBarRow : Nat
  deriving DecidableEq, Repr

/-- Every byte-sized member is in the range of `uint8_t`. -/
def LCD.WellFormed (s : LCD) : Prop :=
  s._rowCount < 256 ∧ s._colCount < 256 ∧ s._deviceAddress < 256 ∧
  s._currDisplayControl < 256 ∧ s._currEntryModeSet < 256 ∧ s._progressBarRow < 256

instance (s : LCD) : Decidable s.WellFormed := by
  unfold LCD.WellFormed; infer_instance

/-- The result of a method: the object afterwards and the events performed. -/
structure Step where
  lcd : LCD
  events : List Event
  deriving DecidableEq, Repr

/-- Run `g` on the object that `r` left behind, after the events of `r`. -/
def Step.andThen (r : Step) (g : LCD → Step) : Step :=
  ⟨(g r.lcd).lcd, r.events ++ (g r.lcd).events⟩

/-- Perform `n` times the method `f`, as a counting `for` loop does. -/
def repeatStep (f : LCD → Step) : Nat → LCD → Step
  | 0, s => ⟨s, []⟩
  | n + 1, s => (f s).andThen (repeatStep f n)

/-- The constructor: stores the geometry, the font and the bus width in the
object `s0`, whose other members it leaves as they are. -/
def LCD.construct (s0 : LCD) (rowCount colCount : Nat) (fontSize : FontSize)
    (bitMode : BitMode) : LCD :=
  { s0 with _rowCount := rowCount % 256, _colCount := colCount % 256,
            _fontSize := fontSize, _bitMode := bitMode }

/-- The `x & ~mask` of the source on a `uint8_t` value `x`. -/
def clearMask (x mask : Nat) : Nat := x &&& (255 ^^^ (mask % 256))

/-- The `x | mask` of the source, stored to a `uint8_t`. -/
def setMask (x mask : Nat) : Nat := (x ||| mask) % 256

/-! ## Private methods -/

/-- The events of writing the bytes `data` in one bus transaction. -/
def deviceWriteEvents (wire address : Nat) (data : List Nat) : List Event :=
  [Event.beginTransmission wire address] ++
    data.flatMap (fun b => [Event.wireWrite wire b, Event.delay 5]) ++
    [Event.endTransmission wire]

/-- Method `deviceWrite(data, len)`, `data` being the `len` bytes written. -/
def deviceWrite (s : LCD) (data : List Nat) : Step :=
  ⟨s, deviceWriteEvents s._wire s._deviceAddress data⟩

/-- Method `command(value)`: the control byte `0x80`, the instruction, and the
settle delay of 50 microseconds. -/
def command (s : LCD) (value : Nat) : Step :=
  (deviceWrite s [0x80, value % 256]).andThen fun s1 =>
    ⟨s1, [Event.delayMicroseconds 50]⟩

/-- Method `write(value)`: the control byte `0x40` and a data byte. -/
def write (s : LCD) (value : Nat) : Step :=
  deviceWrite s [0x40, value % 256]

/-! ## Public methods -/

/-- Method `turnOn()`. -/
def turnOn (h : Header) (s : LCD) : Step :=
  let v := setMask s._currDisplayControl (1 <<< h.BIT_DISPLAY_CONTROL_DISPLAY)
  let s1 := { s with _currDisplayControl := v }
  command s1 (h.CMD_DISPLAY_CONTROL ||| s1._currDisplayControl)

/-- Method `turnOff()`. -/
def turnOff (h : Header) (s : LCD) : Step :=
  let v := clearMask s._currDisplayControl (1 <<< h.BIT_DISPLAY_CONTROL_DISPLAY)
  let s1 := { s with _currDisplayControl := v }
  command s1 (h.CMD_DISPLAY_CONTROL ||| s1._currDisplayControl)

/-- Method `clear()`. -/
def clear (h : Header) (s : LCD) : Step :=
  (command s h.CMD_CLEAR_DISPLAY).andThen fun s1 =>
    ⟨s1, [Event.delayMicroseconds 1700]⟩

/-- Method `returnHome()`. -/
def returnHome (h : Header) (s : LCD) : Step :=
  (command s h.CMD_RETURN_HOME).andThen fun s1 =>
    ⟨s1, [Event.delayMicroseconds 1700]⟩

/-- Method `setAutoScrollEnabled(enabled)`. -/
def setAutoScrollEnabled (h : Header) (s : LCD) (enabled : Bool) : Step :=
  let v :=
    if enabled then setMask s._currEntryModeSet (1 <<< h.BIT_ENTRY_MODE_AUTOINCREMENT)
    else clearMask s._currEntryModeSet (1 <<< h.BIT_ENTRY_MODE_AUTOINCREMENT)
  let s1 := { s with _currEntryModeSet := v }
  command s1 (h.CMD_ENTRY_MODE_SET ||| s1._currEntryModeSet)

/-- Method `setCursorBlinkingEnabled(enabled)`. -/
def setCursorBlinkingEnabled (h : Header) (s : LCD) (enabled : Bool) : Step :=
  let v :=
    if enabled then setMask s._currDisplayControl (1 <<< h.BIT_DISPLAY_CONTROL_CURSOR_BLINKING)
    else clearMask s._currDisplayControl (1 <<< h.BIT_DISPLAY_CONTROL_CURSOR_BLINKING)
  let s1 := { s with _currDisplayControl := v }
  command s1 (h.CMD_DISPLAY_CONTROL ||| s1._currDisplayControl)

/-- Method `setCursorVisible(visible)`. -/
def setCursorVisible (h : Header) (s : LCD) (visible : Bool) : Step :=
  let v :=
    if visible then setMask s._currDisplayControl (1 <<< h.BIT_DISPLAY_CONTROL_CURSOR)
    else clearMask s._currDisplayControl (1 <<< h.BIT_DISPLAY_CONTROL_CURSOR)
  let s1 := { s with _currDisplayControl := v }
  command s1 (h.CMD_DISPLAY_CONTROL ||| s1._currDisplayControl)

/-- Method `setCursorPosition(row, col)`: the transaction is written with
`deviceWrite` directly, not with `command`. -/
def setCursorPosition (s : LCD) (row col : Nat) : Step :=
  let col1 := if row % 256 = 0 then (col % 256) ||| 0x80 else (col % 256) ||| 0xc0
  deviceWrite s [0x80, col1]

/-- Method `setTextInsertionMode(mode)`. -/
def setTextInsertionMode (h : Header) (s : LCD) (mode : TextInsertionMode) : Step :=
  let v :=
    if mode = TextInsertionMode.RIGHT_TO_LEFT then
      clearMask s._currEntryModeSet (1 <<< h.BIT_ENTRY_MODE_INCREMENT)
    else setMask s._currEntryModeSet (1 <<< h.BIT_ENTRY_MODE_INCREMENT)
  let s1 := { s with _currEntryModeSet := v }
  command s1 (h.CMD_ENTRY_MODE_SET ||| s1._currEntryModeSet)

/-- Method `moveCursorLeft()`. -/
def moveCursorLeft (h : Header) (s : LCD) : Step :=
  let cmd := h.CMD_CURSOR_DISPLAY_SHIFT % 256
  let cmd := clearMask cmd (1 <<< h.BIT_CURSOR_DISPLAY_SHIFT_DIRECTION)
  command s cmd

/-- Method `moveCursorRight()`. -/
def moveCursorRight (h : Header) (s : LCD) : Step :=
  let cmd := h.CMD_CURSOR_DISPLAY_SHIFT % 256
  let cmd := setMask cmd (1 <<< h.BIT_CURSOR_DISPLAY_SHIFT_DIRECTION)
  command s cmd

/-- Method `scrollDisplayLeft()`. -/
def scrollDisplayLeft (h : Header) (s : LCD) : Step :=
  let cmd := h.CMD_CURSOR_DISPLAY_SHIFT % 256
  let cmd := setMask cmd (1 <<< h.BIT_CURSOR_DISPLAY_SHIFT_SELECTION)
  let cmd := clearMask cmd (1 <<< h.BIT_CURSOR_DISPLAY_SHIFT_DIRECTION)
  command s cmd

/-- Method `scrollDisplayRight()`. -/
def scrollDisplayRight (h : Header) (s : LCD) : Step :=
  let cmd := h.CMD_CURSOR_DISPLAY_SHIFT % 256
  let cmd := setMask cmd (1 <<< h.BIT_CURSOR_DISPLAY_SHIFT_SELECTION)
  let cmd := setMask cmd (1 <<< h.BIT_CURSOR_DISPLAY_SHIFT_DIRECTION)
  command s cmd

/-- Method `setCustomSymbol(customSymbol, charmap)`: `charmap` is read at the
indices 0 to 7 (a missing entry reads as 0 in the model). -/
def setCustomSymbol (h : Header) (s : LCD) (customSymbol : Nat) (charmap : List Nat) : Step :=
  let location := customSymbol % 256
  (command s (h.CMD_SET_CGRAM_ADDR ||| (location <<< 3))).andThen fun s1 =>
    deviceWrite s1 (0x40 :: (List.range 8).map (fun i => charmap.getD i 0 % 256))

/-- Method `printCustomSymbol(customSymbol)`. -/
def printCustomSymbol (s : LCD) (customSymbol : Nat) : Step :=
  write s customSymbol

/-- Call `print(" ")` of the base class `Print`: one `write` of the character. -/
def printSpace (s : LCD) : Step :=
  write s 0x20

/-- Method `initProgressBar(row)`. -/
def initProgressBar (h : Header) (s : LCD) (row : Nat) : Step :=
  let s1 := { s with _progressBarRow := row % 256 }
  (((((((setAutoScrollEnabled h s1 false).andThen
    (returnHome h)).andThen
    (fun s => setTextInsertionMode h s TextInsertionMode.LEFT_TO_RIGHT)).andThen
    (fun s => setCustomSymbol h s h.CUSTOM_SYMBOL_4 h.customCharProgressBar1)).andThen
    (fun s => setCustomSymbol h s h.CUSTOM_SYMBOL_5 h.customCharProgressBar2)).andThen
    (fun s => setCustomSymbol h s h.CUSTOM_SYMBOL_6 h.customCharProgressBar3)).andThen
    (fun s => setCustomSymbol h s h.CUSTOM_SYMBOL_7 h.customCharProgressBar4)).andThen
    (fun s => setCustomSymbol h s h.CUSTOM_SYMBOL_8 h.customCharProgressBar5)

/-- Method `setProgressBarEnabled(enabled)`; `_rowCount - 1` is narrowed to the
`uint8_t` parameter of `initProgressBar`. -/
def setProgressBarEnabled (h : Header) (s : LCD) (enabled : Bool) : Step :=
  let s1 := { s with _progressBarEnabled := enabled }
  if enabled then initProgressBar h s1 ((s1._rowCount + 255) % 256) else ⟨s1, []⟩

/-- Method `setProgressBarRow(row)`. -/
def setProgressBarRow (s : LCD) (row : Nat) : Step :=
  ⟨{ s with _progressBarRow := row % 256 }, []⟩

/-- The clamping of `progress` at the head of `setProgress`. -/
def clampProgress (progress : Float32) : Float32 :=
  if progress.lt (Float32.ofInt 0) then Float32.ofInt 0
  else if (Float32.ofInt 100).lt progress then Float32.ofInt 100
  else progress

/-- The value of `int progressBarCount = barCount * (progress / 100)` in
`setProgress`, after the clamping, for `_colCount = colCount`; `none` where
the conversion to `int` is undefined. -/
def progressBarCount? (colCount : Nat) (progress : Float32) : Option Int :=
  let barCount : Int := (colCount : Int) * 5
  let progress := clampProgress progress
  (Float32.mul (Float32.ofInt barCount) (Float32.div progress (Float32.ofInt 100))).toInt?

/-- The `switch (remainderBarCount)` of `setProgress` with the decrement of
the `uint8_t` counter `blankCount` in each of its four cases: the glyph
printed, if any, and the counter afterwards. -/
def partialGlyph (h : Header) (remainderBarCount : Int) (blankCount : Nat) :
    Option Nat × Nat :=
  if remainderBarCount = 1 then (some h.CUSTOM_SYMBOL_4, (blankCount + 255) % 256)
  else if remainderBarCount = 2 then (some h.CUSTOM_SYMBOL_5, (blankCount + 255) % 256)
  else if remainderBarCount = 3 then (some h.CUSTOM_SYMBOL_6, (blankCount + 255) % 256)
  else if remainderBarCount = 4 then (some h.CUSTOM_SYMBOL_7, (blankCount + 255) % 256)
  else (none, blankCount)

/-- The body of `setProgress` from the computation of `fullBarCount` on, for
the value `progressBarCount` of the conversion to `int`. -/
def drawProgress (h : Header) (s : LCD) (progressBarCount : Int) : Step :=
  let fullBarCount : Int := Int.tdiv progressBarCount 5
  let remainderBarCount : Int := Int.tmod progressBarCount 5
  let blankCount : Nat := (((s._colCount : Int) - fullBarCount) % 256).toNat
  let sw := partialGlyph h remainderBarCount blankCount
  (((setCursorPosition s s._progressBarRow 0).andThen
    (repeatStep (fun s => printCustomSymbol s h.CUSTOM_SYMBOL_8) fullBarCount.toNat)).andThen
    (fun s => match sw.1 with
      | some g => printCustomSymbol s g
      | none => ⟨s, []⟩)).andThen
    (repeatStep printSpace sw.2)

/-- Method `setProgress(progress)`. The result is `none` where the C++ program has
no defined behaviour: the conversion of a NaN to `int`. -/
def setProgress (h : Header) (s : LCD) (progress : Float32) : Option Step :=
  if !s._progressBarEnabled then some ⟨s, []⟩
  else
    match progressBarCount? s._colCount progress with
    | none => none
    | some progressBarCount => some (drawProgress h s progressBarCount)

/-- The local `_functionSet` of `begin`: the bus-width, line-count and font
bits collected from the configuration. -/
def functionSet (h : Header) (s : LCD) : Nat :=
  let fs0 : Nat := 0
  let fs1 := if s._bitMode = BitMode.BITMODE_8_BIT then
    setMask fs0 (1 <<< h.BIT_FUNCTION_SET_BITMODE) else fs0
  let fs2 := if 2 ≤ s._rowCount then
    setMask fs1 (1 <<< h.BIT_FUNCTION_SET_LINECOUNT) else fs1
  if s._fontSize = FontSize.FONT_SIZE_5x10 then
    setMask fs2 (1 <<< h.BIT_FUNCTION_SET_FONTSIZE) else fs2

/-- Method `begin(deviceAddress, wire)`. -/
def begin (h : Header) (s : LCD) (deviceAddress wire : Nat) : Step :=
  let s1 := { s with _deviceAddress := deviceAddress % 256, _wire := wire }
  let _functionSet := functionSet h s1
  ((((((((Step.mk s1 [Event.wireBegin wire, Event.delay 50]).andThen
    (fun s => command s (h.CMD_FUNCTION_SET ||| _functionSet))).andThen
    (fun s => ⟨s, [Event.delay 5]⟩)).andThen
    (fun s => command s (h.CMD_FUNCTION_SET ||| _functionSet))).andThen
    (fun s => ⟨s, [Event.delayMicroseconds 500]⟩)).andThen
    (fun s => command s (h.CMD_FUNCTION_SET ||| _functionSet))).andThen
    (turnOn h)).andThen
    (clear h)).andThen
    (fun s => setTextInsertionMode h s TextInsertionMode.LEFT_TO_RIGHT)

/-! ## Observing the bus -/

/-- The byte sequences of the bus transactions in an event list: the bytes
written between each `beginTransmission` and the next `endTransmission`. -/
def transactionsAux : List Event → Option (List Nat) → List (List Nat)
  | [], _ => []
  | Event.beginTransmission _ _ :: es, _ => transactionsAux es (some [])
  | Event.wireWrite _ b :: es, some cur => transactionsAux es (some (cur ++ [b]))
  | Event.endTransmission _ :: es, some cur => cur :: transactionsAux es none
  | _ :: es, cur => transactionsAux es cur

/-- The byte sequences of the bus transactions in an event list. -/
def transactions (es : List Event) : List (List Nat) := transactionsAux es none

/-- An object of geometry `rows` by `cols` with the bar enabled on `row`. -/
def sampleLCD (rows cols row : Nat) : LCD :=
  { _rowCount := rows, _colCount := cols, _fontSize := FontSize.FONT_SIZE_5x8,
    _bitMode := BitMode.BITMODE_8_BIT, _deviceAddress := 0x3e, _wire := 0,
    _currDisplayControl := 4, _currEntryModeSet := 2, _progressBarEnabled := true,
    _progressBarRow := row }

/-- The two transactions of one `setCustomSymbol(customSymbol, charmap)`: the
glyph-memory address command and the data transaction of the eight rows. -/
def glyphUpload (h : Header) (customSymbol : Nat) (charmap : List Nat) : List (List Nat) :=
  [[0x80, (h.CMD_SET_CGRAM_ADDR ||| ((customSymbol % 256) <<< 3)) % 256],
   0x40 :: (List.range 8).map (fun i => charmap.getD i 0 % 256)]

/-- The transactions of the five glyph uploads of `initProgressBar`. -/
def progressBarUploads (h : Header) : List (List Nat) :=
  glyphUpload h h.CUSTOM_SYMBOL_4 h.customCharProgressBar1 ++
  glyphUpload h h.CUSTOM_SYMBOL_5 h.customCharProgressBar2 ++
  glyphUpload h h.CUSTOM_SYMBOL_6 h.customCharProgressBar3 ++
  glyphUpload h h.CUSTOM_SYMBOL_7 h.customCharProgressBar4 ++
  glyphUpload h h.CUSTOM_SYMBOL_8 h.customCharProgressBar5

/-- The instruction bytes of the command transactions (control byte `0x80`
and one instruction) among the transactions `txs`, in order. -/
def commandBytes (txs : List (List Nat)) : List Nat :=
  txs.filterMap fun t =>
    match t with
    | [0x80, v] => some v
    | _ => none

/-- Whether the instruction byte `v` is an entry-mode command: the code
`CMD_ENTRY_MODE_SET` with any of its two flag bits. -/
def isEntryModeSet (h : Header) (v : Nat) : Bool :=
  clearMask (clearMask v (1 <<< h.BIT_ENTRY_MODE_INCREMENT))
    (1 <<< h.BIT_ENTRY_MODE_AUTOINCREMENT) == h.CMD_ENTRY_MODE_SET % 256

/-- The last entry-mode command among the events `es`, if there is one. -/
def lastEntryModeCommand (h : Header) (es : List Event) : Option Nat :=
  ((commandBytes (transactions es)).filter (isEntryModeSet h)).getLast?

/-- The data transaction of the partial-cell glyph for the remainder `r`:
level `r` for `r` = 1, 2, 3, 4 and none otherwise. -/
def partialCell (h : Header) (r : Nat) : List (List Nat) :=
  if r = 1 then [[0x40, h.CUSTOM_SYMBOL_4 % 256]]
  else if r = 2 then [[0x40, h.CUSTOM_SYMBOL_5 % 256]]
  else if r = 3 then [[0x40, h.CUSTOM_SYMBOL_6 % 256]]
  else if r = 4 then [[0x40, h.CUSTOM_SYMBOL_7 % 256]]
  else []

/-- The command transaction with which `setProgress` positions the cursor at
column 0 of the bar's row. -/
def barCursorTransaction (s : LCD) : List Nat :=
  [0x80, if s._progressBarRow % 256 = 0 then 0x80 else 0xc0]

/-- The layout of the function-set instruction assumed of the header by
the theorems about `begin`: the three flag bits are distinct bit positions of a
byte and the command code contains none of them. -/
def Header.FunctionSetLayout (h : Header) : Prop :=
  h.BIT_FUNCTION_SET_BITMODE < 8 ∧ h.BIT_FUNCTION_SET_LINECOUNT < 8 ∧
  h.BIT_FUNCTION_SET_FONTSIZE < 8 ∧
  h.BIT_FUNCTION_SET_BITMODE ≠ h.BIT_FUNCTION_SET_LINECOUNT ∧
  h.BIT_FUNCTION_SET_BITMODE ≠ h.BIT_FUNCTION_SET_FONTSIZE ∧
  h.BIT_FUNCTION_SET_LINECOUNT ≠ h.BIT_FUNCTION_SET_FONTSIZE ∧
  h.CMD_FUNCTION_SET.testBit h.BIT_FUNCTION_SET_BITMODE = false ∧
  h.CMD_FUNCTION_SET.testBit h.BIT_FUNCTION_SET_LINECOUNT = false ∧
  h.CMD_FUNCTION_SET.testBit h.BIT_FUNCTION_SET_FONTSIZE = false

instance (h : Header) : Decidable h.FunctionSetLayout := by
  unfold Header.FunctionSetLayout; infer_instance

/-- The layout of the entry-mode instruction assumed of the header by
the theorem about enabling the bar: the two flag bits are distinct bit positions
of a byte, the
command code contains neither, and neither the return-home command nor the
glyph-address commands of the five bar glyphs are entry-mode commands. -/
def Header.EntryModeLayout (h : Header) : Prop :=
  h.BIT_ENTRY_MODE_INCREMENT < 8 ∧ h.BIT_ENTRY_MODE_AUTOINCREMENT < 8 ∧
  h.BIT_ENTRY_MODE_INCREMENT ≠ h.BIT_ENTRY_MODE_AUTOINCREMENT ∧
  h.CMD_ENTRY_MODE_SET.testBit h.BIT_ENTRY_MODE_INCREMENT = false ∧
  h.CMD_ENTRY_MODE_SET.testBit h.BIT_ENTRY_MODE_AUTOINCREMENT = false ∧
  isEntryModeSet h (h.CMD_RETURN_HOME % 256) = false ∧
  ∀ sym ∈ [h.CUSTOM_SYMBOL_4, h.CUSTOM_SYMBOL_5, h.CUSTOM_SYMBOL_6, h.CUSTOM_SYMBOL_7,
      h.CUSTOM_SYMBOL_8],
    isEntryModeSet h ((h.CMD_SET_CGRAM_ADDR ||| ((sym % 256) <<< 3)) % 256) = false

instance (h : Header) : Decidable h.EntryModeLayout := by
  unfold Header.EntryModeLayout; infer_instance

/-- The length of a busy-wait event in microseconds (0 for a bus event). -/
def waitMicros : Event → Nat
  | Event.delay ms => ms * 1000
  | Event.delayMicroseconds us => us
  | _ => 0

/-- The bus transactions of an event list, each with the time waited between
its `endTransmission` and the next `beginTransmission` or the end of the list.
`cur` holds the bytes of the open transaction, `pend` the last closed
transaction and the microseconds waited since. -/
def settledAux : List Event → Option (List Nat) → Option (List Nat × Nat) →
    List (List Nat × Nat)
  | [], _, pend => pend.toList
  | Event.beginTransmission _ _ :: es, _, pend => pend.toList ++ settledAux es (some []) none
  | Event.wireWrite _ b :: es, some cur, pend => settledAux es (some (cur ++ [b])) pend
  | Event.endTransmission _ :: es, some cur, pend =>
      pend.toList ++ settledAux es none (some (cur, 0))
  | Event.delay ms :: es, none, some (t, w) => settledAux es none (some (t, w + ms * 1000))
  | Event.delayMicroseconds us :: es, none, some (t, w) => settledAux es none (some (t, w + us))
  | _ :: es, cur, pend => settledAux es cur pend

/-- The bus transactions of an event list with the settle time that follows
each of them, in microseconds. -/
def settledTransactions (es : List Event) : List (List Nat × Nat) := settledAux es none none

/-- The layout of the shift instruction assumed of the header by the theorem
about the cursor and display shifts: the selection and direction bits are
distinct bit positions of a byte and the command code does not contain the
selection bit. -/
def Header.ShiftLayout (h : Header) : Prop :=
  h.BIT_CURSOR_DISPLAY_SHIFT_SELECTION < 8 ∧ h.BIT_CURSOR_DISPLAY_SHIFT_DIRECTION < 8 ∧
  h.BIT_CURSOR_DISPLAY_SHIFT_SELECTION ≠ h.BIT_CURSOR_DISPLAY_SHIFT_DIRECTION ∧
  h.CMD_CURSOR_DISPLAY_SHIFT.testBit h.BIT_CURSOR_DISPLAY_SHIFT_SELECTION = false

instance (h : Header) : Decidable h.ShiftLayout := by
  unfold Header.ShiftLayout; infer_instance

/-- The layout of the glyph-address instruction assumed of the header by
the theorem about `setCustomSymbol`: the command code is a byte and leaves the
bits 3 to 5, which hold the slot index, free. -/
def Header.GlyphAddressLayout (h : Header) : Prop :=
  h.CMD_SET_CGRAM_ADDR < 256 ∧ h.CMD_SET_CGRAM_ADDR.testBit 3 = false ∧
  h.CMD_SET_CGRAM_ADDR.testBit 4 = false ∧ h.CMD_SET_CGRAM_ADDR.testBit 5 = false

instance (h : Header) : Decidable h.GlyphAddressLayout := by
  unfold Header.GlyphAddressLayout; infer_instance

/-- The byte `v` with the bits at the positions `bits` cleared. -/
def stripBits (bits : List Nat) (v : Nat) : Nat :=
  bits.foldl (fun x b => clearMask x (1 <<< b)) v

/-- The flag bit positions of the display-control instruction. -/
def Header.displayControlBits (h : Header) : List Nat :=
  [h.BIT_DISPLAY_CONTROL_DISPLAY, h.BIT_DISPLAY_CONTROL_CURSOR,
    h.BIT_DISPLAY_CONTROL_CURSOR_BLINKING]

/-- The flag bit positions of the entry-mode instruction. -/
def Header.entryModeBits (h : Header) : List Nat :=
  [h.BIT_ENTRY_MODE_INCREMENT, h.BIT_ENTRY_MODE_AUTOINCREMENT]

/-- The flag bit positions of the function-set instruction. -/
def Header.functionSetBits (h : Header) : List Nat :=
  [h.BIT_FUNCTION_SET_BITMODE, h.BIT_FUNCTION_SET_LINECOUNT, h.BIT_FUNCTION_SET_FONTSIZE]

/-- Whether the instruction byte `v` is a display-control command: the code
`CMD_DISPLAY_CONTROL` with any of its three flag bits. -/
def isDisplayControl (h : Header) (v : Nat) : Bool :=
  stripBits h.displayControlBits v == h.CMD_DISPLAY_CONTROL % 256

/-- Whether the instruction byte `v` is a function-set command: the code
`CMD_FUNCTION_SET` with any of its three flag bits. -/
def isFunctionSet (h : Header) (v : Nat) : Bool :=
  stripBits h.functionSetBits v == h.CMD_FUNCTION_SET % 256

/-- The last display-control command among the events `es`, if there is one. -/
def lastDisplayControlCommand (h : Header) (es : List Event) : Option Nat :=
  ((commandBytes (transactions es)).filter (isDisplayControl h)).getLast?

/-- The shadow bitfields are bytes that hold nothing but their flag bits. -/
def LCD.FlagsOnly (h : Header) (s : LCD) : Prop :=
  s._currDisplayControl < 256 ∧ s._currEntryModeSet < 256 ∧
  stripBits h.displayControlBits s._currDisplayControl = 0 ∧
  stripBits h.entryModeBits s._currEntryModeSet = 0

instance (h : Header) (s : LCD) : Decidable (s.FlagsOnly h) := by
  unfold LCD.FlagsOnly; infer_instance

/-- The shadow bitfields equal the flag bits last written to the controller:
the last display-control command on the bus is `CMD_DISPLAY_CONTROL` with the
display-control shadow and the last entry-mode command is `CMD_ENTRY_MODE_SET`
with the entry-mode shadow. -/
def ShadowsWritten (h : Header) (es : List Event) (s : LCD) : Prop :=
  lastDisplayControlCommand h es =
    some ((h.CMD_DISPLAY_CONTROL ||| s._currDisplayControl) % 256) ∧
  lastEntryModeCommand h es = some ((h.CMD_ENTRY_MODE_SET ||| s._currEntryModeSet) % 256)

/-- The event list `es` performs exactly the bus transactions `T`, whatever
events follow it. -/
def Emits (es : List Event) (T : List (List Nat)) : Prop :=
  ∀ rest, transactions (es ++ rest) = T ++ transactions rest

/-- A call of a public method with its arguments. -/
inductive Op where
  | begin (deviceAddress wire : Nat)
  | turnOn
  | turnOff
  | clear
  | returnHome
  | setAutoScrollEnabled (enabled : Bool)
  | setCursorBlinkingEnabled (enabled : Bool)
  | setCursorVisible (visible : Bool)
  | setCursorPosition (row col : Nat)
  | setTextInsertionMode (mode : TextInsertionMode)
  | moveCursorLeft
  | moveCursorRight
  | scrollDisplayLeft
  | scrollDisplayRight
  | setCustomSymbol (customSymbol : Nat) (charmap : List Nat)
  | printCustomSymbol (customSymbol : Nat)
  | setProgressBarEnabled (enabled : Bool)
  | setProgressBarRow (row : Nat)
  | setProgress (progress : Float32)
  | write (value : Nat)

/-- Perform one call on the object; `none` where `setProgress` is undefined. -/
def Op.run (h : Header) : Op → LCD → Option Step
  | Op.begin a w, s => some (LiquidCrystalWired.begin h s a w)
  | Op.turnOn, s => some (LiquidCrystalWired.turnOn h s)
  | Op.turnOff, s => some (LiquidCrystalWired.turnOff h s)
  | Op.clear, s => some (LiquidCrystalWired.clear h s)
  | Op.returnHome, s => some (LiquidCrystalWired.returnHome h s)
  | Op.setAutoScrollEnabled b, s => some (LiquidCrystalWired.setAutoScrollEnabled h s b)
  | Op.setCursorBlinkingEnabled b, s => some (LiquidCrystalWired.setCursorBlinkingEnabled h s b)
  | Op.setCursorVisible b, s => some (LiquidCrystalWired.setCursorVisible h s b)
  | Op.setCursorPosition r c, s => some (LiquidCrystalWired.setCursorPosition s r c)
  | Op.setTextInsertionMode m, s => some (LiquidCrystalWired.setTextInsertionMode h s m)
  | Op.moveCursorLeft, s => some (LiquidCrystalWired.moveCursorLeft h s)
  | Op.moveCursorRight, s => some (LiquidCrystalWired.moveCursorRight h s)
  | Op.scrollDisplayLeft, s => some (LiquidCrystalWired.scrollDisplayLeft h s)
  | Op.scrollDisplayRight, s => some (LiquidCrystalWired.scrollDisplayRight h s)
  | Op.setCustomSymbol c m, s => some (LiquidCrystalWired.setCustomSymbol h s c m)
  | Op.printCustomSymbol c, s => some (LiquidCrystalWired.printCustomSymbol s c)
  | Op.setProgressBarEnabled b, s => some (LiquidCrystalWired.setProgressBarEnabled h s b)
  | Op.setProgressBarRow r, s => some (LiquidCrystalWired.setProgressBarRow s r)
  | Op.setProgress p, s => LiquidCrystalWired.setProgress h s p
  | Op.write v, s => some (LiquidCrystalWired.write s v)

/-- Perform a sequence of calls, one after the other, collecting the events. -/
def runOps (h : Header) : List Op → LCD → Option Step
  | [], s => some ⟨s, []⟩
  | op :: ops, s =>
    match op.run h s with
    | none => none
    | some r =>
      match runOps h ops r.lcd with
      | none => none
      | some r2 => some ⟨r2.lcd, r.events ++ r2.events⟩

/-- Whether the call is `setProgress` with a NaN, the one call without
defined behaviour. -/
def Op.isProgressNaN : Op → Bool
  | Op.setProgress Float32.nan => true
  | _ => false

/-- The instruction bytes of the commands that carry no shadow bitfield:
clear, return-home and the four shifts. -/
def Header.plainCommands (h : Header) : List Nat :=
  [h.CMD_CLEAR_DISPLAY % 256, h.CMD_RETURN_HOME % 256,
   clearMask (h.CMD_CURSOR_DISPLAY_SHIFT % 256) (1 <<< h.BIT_CURSOR_DISPLAY_SHIFT_DIRECTION),
   setMask (h.CMD_CURSOR_DISPLAY_SHIFT % 256) (1 <<< h.BIT_CURSOR_DISPLAY_SHIFT_DIRECTION),
   clearMask (setMask (h.CMD_CURSOR_DISPLAY_SHIFT % 256)
     (1 <<< h.BIT_CURSOR_DISPLAY_SHIFT_SELECTION)) (1 <<< h.BIT_CURSOR_DISPLAY_SHIFT_DIRECTION),
   setMask (setMask (h.CMD_CURSOR_DISPLAY_SHIFT % 256)
     (1 <<< h.BIT_CURSOR_DISPLAY_SHIFT_SELECTION)) (1 <<< h.BIT_CURSOR_DISPLAY_SHIFT_DIRECTION)]

/-- The layout of the instruction set assumed of the header by the theorem
about the shadow bitfields: the flag bits of the display-control and entry-mode
instructions are bit positions of a byte outside their command codes, no byte
is both a display-control and an entry-mode command, and the commands that
carry no shadow bitfield (clear, return-home, the shifts, the cursor addresses
and the glyph addresses) are neither. -/
def Header.CommandLayout (h : Header) : Prop :=
  (∀ b ∈ h.displayControlBits, b < 8 ∧ h.CMD_DISPLAY_CONTROL.testBit b = false) ∧
  (∀ b ∈ h.entryModeBits, b < 8 ∧ h.CMD_ENTRY_MODE_SET.testBit b = false) ∧
  (∀ v < 256, isDisplayControl h v = true → isEntryModeSet h v = false) ∧
  (∀ v ∈ h.plainCommands, isDisplayControl h v = false ∧ isEntryModeSet h v = false) ∧
  (∀ c < 256, isDisplayControl h (c ||| 0x80) = false ∧ isEntryModeSet h (c ||| 0x80) = false ∧
    isDisplayControl h (c ||| 0xc0) = false ∧ isEntryModeSet h (c ||| 0xc0) = false) ∧
  (∀ i < 256, isDisplayControl h ((h.CMD_SET_CGRAM_ADDR ||| (i <<< 3)) % 256) = false ∧
    isEntryModeSet h ((h.CMD_SET_CGRAM_ADDR ||| (i <<< 3)) % 256) = false)

instance (h : Header) : Decidable h.CommandLayout := by
  unfold Header.CommandLayout; infer_instance

/-- The invariant of the command engine after the events `es`: they end
outside a bus transaction, the shadow bitfields hold nothing but flags, and
they equal the flag bits last written to the controller. -/
def Invariant (h : Header) (es : List Event) (s : LCD) : Prop :=
  (∃ T, Emits es T) ∧ s.FlagsOnly h ∧ ShadowsWritten h es s

/-- The layout of the function-set instruction assumed of the header by
the theorem about the trace of `begin`: its flag bits are bit positions of a byte
outside the command code, no function-set command is a display-control or an
entry-mode command, and the clear-display command is not one. -/
def Header.InitLayout (h : Header) : Prop :=
  (∀ b ∈ h.functionSetBits, b < 8 ∧ h.CMD_FUNCTION_SET.testBit b = false) ∧
  (∀ v < 256, isFunctionSet h v = true →
    isDisplayControl h v = false ∧ isEntryModeSet h v = false) ∧
  isFunctionSet h (h.CMD_CLEAR_DISPLAY % 256) = false

instance (h : Header) : Decidable h.InitLayout := by
  unfold Header.InitLayout; infer_instance

/-- The events of `command(value)` on the bus `wire` to the device `address`. -/
def commandEvents (wire address value : Nat) : List Event :=
  deviceWriteEvents wire address [0x80, value] ++ [Event.delayMicroseconds 50]

/-- An object of geometry 2 by 16 as the constructor leaves it when the memory
of its two shadow bitfields, which no code under `src/` assigns, held `0xF3`
and `0xFD`. -/
def staleShadowLCD : LCD :=
  { _rowCount := 2, _colCount := 16, _fontSize := FontSize.FONT_SIZE_5x8,
    _bitMode := BitMode.BITMODE_8_BIT, _deviceAddress := 0x3e, _wire := 0,
    _currDisplayControl := 0xF3, _currEntryModeSet := 0xFD, _progressBarEnabled := true,
    _progressBarRow := 1 }

/-! ## Facts about the binary32 model -/

theorem log2Fuel_spec (fuel : Nat) : ∀ n, n ≤ fuel → n ≠ 0 →
    2 ^ log2Fuel fuel n ≤ n ∧ n < 2 ^ (log2Fuel fuel n + 1) := by
  induction fuel with
  | zero => intro n hn h0; omega
  | succ f ih =>
    intro n hn h0
    unfold log2Fuel
    split
    · rename_i h2
      have hd : n / 2 ≤ f := by omega
      have hd0 : n / 2 ≠ 0 := by omega
      obtain ⟨h1, h3⟩ := ih (n / 2) hd hd0
      constructor
      · rw [pow_succ]; omega
      · rw [pow_succ]; omega
    · simp; omega

theorem log2_spec (n : Nat) (h0 : n ≠ 0) : 2 ^ log2 n ≤ n ∧ n < 2 ^ (log2 n + 1) :=
  log2Fuel_spec n n (le_refl n) h0

theorem two_zpow_split (k : Int) :
    (2 : ℚ) ^ k = ((2 ^ k.toNat : Nat) : ℚ) / ((2 ^ (-k).toNat : Nat) : ℚ) := by
  rcases le_total 0 k with hk | hk
  · obtain ⟨n, rfl⟩ := Int.eq_ofNat_of_zero_le hk
    have : (-(n : Int)).toNat = 0 := by omega
    simp [this]
  · obtain ⟨n, hn⟩ := Int.eq_ofNat_of_zero_le (neg_nonneg.mpr hk)
    have hk' : k = -(n : Int) := by omega
    subst hk'
    have : (-(n : Int)).toNat = 0 := by omega
    simp [this]

/-- The fraction `a * 2^k⁺ / (b * 2^(-k)⁺)` is `a / b * 2^k`. -/
theorem frac_scale (a b : Nat) (k : Int) :
    ((a * 2 ^ k.toNat : Nat) : ℚ) / ((b * 2 ^ (-k).toNat : Nat) : ℚ) = (a : ℚ) / b * 2 ^ k := by
  rw [two_zpow_split k]
  push_cast
  rw [mul_div_mul_comm]

theorem floorLog2_spec (num den : Nat) (hn : num ≠ 0) (hd : den ≠ 0) :
    (2 : ℚ) ^ floorLog2 num den ≤ (num : ℚ) / den ∧
    (num : ℚ) / den < 2 ^ (floorLog2 num den + 1) := by
  obtain ⟨ha1, ha2⟩ := log2_spec num hn
  obtain ⟨hb1, hb2⟩ := log2_spec den hd
  have hdq : (0 : ℚ) < den := by exact_mod_cast Nat.pos_of_ne_zero hd
  have ha1q : (2 : ℚ) ^ (log2 num : Int) ≤ num := by
    rw [zpow_natCast]; exact_mod_cast ha1
  have ha2q : (num : ℚ) < 2 ^ ((log2 num : Int) + 1) := by
    rw [show ((log2 num : Int) + 1) = ((log2 num + 1 : Nat) : Int) by push_cast; rfl, zpow_natCast]
    exact_mod_cast ha2
  have hb1q : (2 : ℚ) ^ (log2 den : Int) ≤ den := by
    rw [zpow_natCast]; exact_mod_cast hb1
  have hb2q : (den : ℚ) < 2 ^ ((log2 den : Int) + 1) := by
    rw [show ((log2 den : Int) + 1) = ((log2 den + 1 : Nat) : Int) by push_cast; rfl, zpow_natCast]
    exact_mod_cast hb2
  have h2 : (0 : ℚ) < 2 := by norm_num
  have h2ne : (2 : ℚ) ≠ 0 := by norm_num
  -- bounds on the quotient from the two bit lengths
  have hlow : (2 : ℚ) ^ ((log2 num : Int) - (log2 den : Int) - 1) < (num : ℚ) / den := by
    rw [lt_div_iff₀ hdq]
    calc (2 : ℚ) ^ ((log2 num : Int) - (log2 den : Int) - 1) * den
        < 2 ^ ((log2 num : Int) - (log2 den : Int) - 1) * 2 ^ ((log2 den : Int) + 1) :=
          mul_lt_mul_of_pos_left hb2q (zpow_pos h2 _)
      _ = 2 ^ (log2 num : Int) := by rw [← zpow_add₀ h2ne]; congr 1; ring
      _ ≤ num := ha1q
  have hhigh : (num : ℚ) / den < 2 ^ ((log2 num : Int) - (log2 den : Int) + 1) := by
    rw [div_lt_iff₀ hdq]
    calc (num : ℚ) < 2 ^ ((log2 num : Int) + 1) := ha2q
      _ = 2 ^ ((log2 num : Int) - (log2 den : Int) + 1) * 2 ^ (log2 den : Int) := by
          rw [← zpow_add₀ h2ne]; congr 1; ring
      _ ≤ 2 ^ ((log2 num : Int) - (log2 den : Int) + 1) * den :=
          mul_le_mul_of_nonneg_left hb1q (le_of_lt (zpow_pos h2 _))
  have htest : (den * 2 ^ ((log2 num : Int) - (log2 den : Int)).toNat ≤
      num * 2 ^ (-((log2 num : Int) - (log2 den : Int))).toNat) ↔
      (2 : ℚ) ^ ((log2 num : Int) - (log2 den : Int)) ≤ (num : ℚ) / den := by
    rw [le_div_iff₀ hdq, two_zpow_split, div_mul_eq_mul_div, div_le_iff₀ (by positivity)]
    constructor
    · intro h
      have : ((den * 2 ^ ((log2 num : Int) - (log2 den : Int)).toNat : Nat) : ℚ) ≤
          ((num * 2 ^ (-((log2 num : Int) - (log2 den : Int))).toNat : Nat) : ℚ) := by
        exact_mod_cast h
      push_cast at this ⊢
      linarith
    · intro h
      have : ((den * 2 ^ ((log2 num : Int) - (log2 den : Int)).toNat : Nat) : ℚ) ≤
          ((num * 2 ^ (-((log2 num : Int) - (log2 den : Int))).toNat : Nat) : ℚ) := by
        push_cast at h ⊢
        linarith
      exact_mod_cast this
  unfold floorLog2
  simp only
  split
  · rename_i ht
    exact ⟨htest.mp ht, hhigh⟩
  · rename_i ht
    refine ⟨le_of_lt hlow, ?_⟩
    have := mt htest.mpr ht
    rw [sub_add_cancel]
    exact lt_of_not_le this

theorem roundHalfEven_le (sn sd K : Nat) (hsd : 0 < sd) (h : sn ≤ K * sd) :
    roundHalfEven sn sd ≤ K := by
  have hq : sn / sd ≤ K := Nat.div_le_of_le_mul (by rw [Nat.mul_comm]; exact h)
  have hdm := Nat.div_add_mod sn sd
  unfold roundHalfEven
  simp only
  rcases Nat.lt_or_ge (sn / sd) K with hlt | hge
  · split
    · omega
    · split
      · omega
      · split <;> omega
  · have hqK : sn / sd = K := le_antisymm hq hge
    have hr : sn % sd = 0 := by
      have : sd * (sn / sd) + sn % sd ≤ K * sd := by rw [hdm]; exact h
      rw [hqK, Nat.mul_comm] at this
      omega
    rw [hr, hqK]
    simp [hsd]

/-- Rounding a value that is at most the integer `N < 2^24` yields a finite
value that is at most `N`. -/
theorem roundToFloat32_le (neg : Bool) (num den N : Nat) (hd : den ≠ 0)
    (hN : N < 2 ^ 24) (h : num ≤ N * den) :
    ∃ m e, roundToFloat32 neg num den = Float32.fin neg m e ∧ e ≤ 0 ∧
      m ≤ N * 2 ^ (-e).toNat := by
  unfold roundToFloat32
  split
  · exact ⟨0, 0, rfl, le_refl _, Nat.zero_le _⟩
  · rename_i hn
    obtain ⟨hlo, hhi⟩ := floorLog2_spec num den hn hd
    have hdq : (0 : ℚ) < den := by exact_mod_cast Nat.pos_of_ne_zero hd
    have h2 : (1 : ℚ) < 2 := by norm_num
    have hq : (num : ℚ) / den ≤ N := by
      rw [div_le_iff₀ hdq]; exact_mod_cast h
    -- the exponent of the significand is not positive
    have hk : floorLog2 num den < 24 := by
      have h1 : (2 : ℚ) ^ floorLog2 num den < 2 ^ (24 : Int) := by
        calc (2 : ℚ) ^ floorLog2 num den ≤ (num : ℚ) / den := hlo
          _ ≤ N := hq
          _ < 2 ^ (24 : Int) := by
            have : ((N : Nat) : ℚ) < ((2 ^ 24 : Nat) : ℚ) := by exact_mod_cast hN
            rw [show ((2 : ℚ) ^ (24 : Int)) = ((2 ^ 24 : Nat) : ℚ) by norm_num]
            exact this
      exact (zpow_lt_zpow_iff_right₀ h2).mp h1
    simp only
    set e : Int := max (floorLog2 num den - 23) (-149) with he
    have he0 : e ≤ 0 := by omega
    have hetn : e.toNat = 0 := by omega
    have hm : roundHalfEven (num * 2 ^ (-e).toNat) (den * 2 ^ e.toNat) ≤ N * 2 ^ (-e).toNat := by
      apply roundHalfEven_le
      · rw [hetn]; simpa using Nat.pos_of_ne_zero hd
      · rw [hetn]
        calc num * 2 ^ (-e).toNat ≤ N * den * 2 ^ (-e).toNat := Nat.mul_le_mul_right _ h
          _ = N * 2 ^ (-e).toNat * (den * 2 ^ 0) := by ring
    -- the significand has at most 25 bits, so there is no overflow
    have hm2 : roundHalfEven (num * 2 ^ (-e).toNat) (den * 2 ^ e.toNat) ≤ 2 ^ 24 := by
      apply roundHalfEven_le
      · rw [hetn]; simpa using Nat.pos_of_ne_zero hd
      · rw [hetn]
        have hs : (num : ℚ) / den * 2 ^ (-e) ≤ 2 ^ (24 : Int) := by
          have hle : -e ≤ 23 - floorLog2 num den := by omega
          calc (num : ℚ) / den * 2 ^ (-e)
              ≤ 2 ^ (floorLog2 num den + 1) * 2 ^ (-e) :=
                mul_le_mul_of_nonneg_right (le_of_lt hhi) (le_of_lt (zpow_pos (by norm_num) _))
            _ = 2 ^ (floorLog2 num den + 1 + -e) := by rw [← zpow_add₀ (by norm_num)]
            _ ≤ 2 ^ (24 : Int) := zpow_le_zpow_right₀ (le_of_lt h2) (by omega)
        have hs2 : ((num * 2 ^ (-e).toNat : Nat) : ℚ) ≤ ((2 ^ 24 * (den * 2 ^ 0) : Nat) : ℚ) := by
          have := frac_scale num den (-e)
          rw [neg_neg, hetn] at this
          have hpos : (0 : ℚ) < ((den * 2 ^ 0 : Nat) : ℚ) := by
            simpa using hdq
          rw [← this, div_le_iff₀ hpos] at hs
          push_cast at hs ⊢
          linarith
        exact_mod_cast hs2
    split
    · rename_i hov
      rw [hetn] at hov hm2
      exfalso
      have : (2 : Nat) ^ 24 < 2 ^ 128 := by norm_num
      omega
    · exact ⟨_, e, rfl, he0, hm⟩

theorem ofInt_zero : Float32.ofInt 0 = Float32.fin false 0 0 := by decide

theorem ofInt_hundred : Float32.ofInt 100 = Float32.fin false 13107200 (-17) := by decide

/-- The clamped percentage is a finite value between 0 and 100. -/
theorem clampProgress_range (p : Float32) (hp : p ≠ Float32.nan) :
    ∃ s m e, clampProgress p = Float32.fin s m e ∧ (s = false ∨ m = 0) ∧
      m * 2 ^ (e - (-17)).toNat ≤ 13107200 * 2 ^ ((-17) - e).toNat := by
  unfold clampProgress
  rw [ofInt_zero, ofInt_hundred]
  split
  · exact ⟨false, 0, 0, rfl, Or.inl rfl, by simp⟩
  · rename_i h0
    split
    · exact ⟨false, 13107200, -17, rfl, Or.inl rfl, by simp⟩
    · rename_i h100
      cases p with
      | nan => exact absurd rfl hp
      | inf s =>
        cases s <;> simp [Float32.lt] at h0 h100
      | fin s m e =>
        have hsm : s = false ∨ m = 0 := by
          cases s
          · exact Or.inl rfl
          · right
            simp only [Float32.lt, Float32.signed, Bool.not_eq_true, decide_eq_false_iff_not,
              not_lt] at h0
            simp at h0
            by_contra hm
            have hpos : (0 : Int) < (m : Int) * 2 ^ e.toNat := by
              have : 0 < m := Nat.pos_of_ne_zero hm
              positivity
            omega
        refine ⟨s, m, e, rfl, hsm, ?_⟩
        rcases hsm with hs | hm
        · subst hs
          simp only [Float32.lt, Float32.signed, Bool.not_eq_true, decide_eq_false_iff_not,
            not_lt] at h100
          simp at h100
          have h4 : (e - (-17)) = e + 17 := by ring
          rw [h4]
          exact_mod_cast h100
        · subst hm
          simp

/-- The scaled bar count is defined for every percentage that is not NaN, and
lies between 0 and `5 * colCount`. -/
theorem progressBarCount?_bounds (colCount : Nat) (hcol : colCount < 256) (p : Float32)
    (hp : p ≠ Float32.nan) :
    ∃ n : Nat, progressBarCount? colCount p = some (n : Int) ∧ n ≤ colCount * 5 := by
  obtain ⟨s, m, e, hc, hsm, hle⟩ := clampProgress_range p hp
  unfold progressBarCount?
  simp only [hc, ofInt_hundred]
  -- the quotient `progress / 100` is at most 1
  have hdiv : ∃ m1 e1, Float32.div (Float32.fin s m e) (Float32.fin false 13107200 (-17)) =
      Float32.fin s m1 e1 ∧ e1 ≤ 0 ∧ m1 ≤ 2 ^ (-e1).toNat ∧ (s = false ∨ m1 = 0) := by
    simp only [Float32.div]
    rw [if_neg (by norm_num)]
    rcases hsm with hs | hm
    · obtain ⟨m1, e1, h1, h2, h3⟩ := roundToFloat32_le (xor s false)
        (m * 2 ^ (e - (-17)).toNat) (13107200 * 2 ^ ((-17) - e).toNat) 1
        (by positivity) (by norm_num) (by simpa using hle)
      refine ⟨m1, e1, ?_, h2, by simpa using h3, Or.inl hs⟩
      rw [h1]; simp
    · subst hm
      refine ⟨0, 0, ?_, le_refl _, Nat.zero_le _, Or.inr rfl⟩
      simp [roundToFloat32]
  obtain ⟨m1, e1, hd1, he1, hm1, hsm1⟩ := hdiv
  rw [hd1]
  -- the conversion of `barCount` is at most `barCount`
  have hN : colCount * 5 < 2 ^ 24 := by norm_num; omega
  obtain ⟨M, E, hM1, hE, hM⟩ := roundToFloat32_le false (colCount * 5) 1 (colCount * 5)
    (by norm_num) hN (by simp)
  have hof : Float32.ofInt ((colCount : Int) * 5) = Float32.fin false M E := by
    unfold Float32.ofInt
    have h1 : decide ((colCount : Int) * 5 < 0) = false := by
      simp
    have h2 : ((colCount : Int) * 5).natAbs = colCount * 5 := by
      rw [Int.natAbs_mul]; simp
    rw [h1, h2, hM1]
  rw [hof]
  -- the product is at most `barCount`
  have hmul : ∃ M2 E2, Float32.mul (Float32.fin false M E) (Float32.fin s m1 e1) =
      Float32.fin s M2 E2 ∧ E2 ≤ 0 ∧ M2 ≤ colCount * 5 * 2 ^ (-E2).toNat ∧
      (s = false ∨ M2 = 0) := by
    simp only [Float32.mul]
    have hE1 : (E + e1).toNat = 0 := by omega
    have hE2 : (-(E + e1)).toNat = (-E).toNat + (-e1).toNat := by omega
    rw [hE1, hE2]
    rcases hsm1 with hs | hm
    · obtain ⟨M2, E2, h1, h2, h3⟩ := roundToFloat32_le (xor false s)
        (M * m1 * 2 ^ 0) (2 ^ ((-E).toNat + (-e1).toNat)) (colCount * 5)
        (by positivity) hN (by
          rw [pow_add, pow_zero, Nat.mul_one]
          calc M * m1 ≤ (colCount * 5 * 2 ^ (-E).toNat) * 2 ^ (-e1).toNat :=
                Nat.mul_le_mul hM hm1
            _ = colCount * 5 * (2 ^ (-E).toNat * 2 ^ (-e1).toNat) := by ring)
      refine ⟨M2, E2, ?_, h2, h3, Or.inl hs⟩
      rw [h1]; simp
    · subst hm
      refine ⟨0, 0, ?_, le_refl _, Nat.zero_le _, Or.inr rfl⟩
      simp [roundToFloat32]
  obtain ⟨M2, E2, hm2, hE2, hM2, hsm2⟩ := hmul
  rw [hm2]
  have hEt : E2.toNat = 0 := by omega
  have ht : M2 * 2 ^ E2.toNat / 2 ^ (-E2).toNat ≤ colCount * 5 := by
    rw [hEt, pow_zero, Nat.mul_one]
    exact Nat.div_le_of_le_mul (by rw [Nat.mul_comm]; exact hM2)
  refine ⟨M2 * 2 ^ E2.toNat / 2 ^ (-E2).toNat, ?_, ht⟩
  simp only [Float32.toInt?]
  rw [if_pos (by norm_num; omega)]
  rcases hsm2 with hs | hm
  · subst hs; simp [Float32.signed]
  · subst hm; simp [Float32.signed]

/-! ## Facts about the event lists -/

@[simp] theorem andThen_lcd (r : Step) (g : LCD → Step) :
    (r.andThen g).lcd = (g r.lcd).lcd := rfl

@[simp] theorem andThen_events (r : Step) (g : LCD → Step) :
    (r.andThen g).events = r.events ++ (g r.lcd).events := rfl

@[simp] theorem deviceWrite_lcd (s : LCD) (data : List Nat) : (deviceWrite s data).lcd = s := rfl

@[simp] theorem write_lcd (s : LCD) (v : Nat) : (write s v).lcd = s := rfl

@[simp] theorem command_lcd (s : LCD) (v : Nat) : (command s v).lcd = s := rfl

@[simp] theorem setCursorPosition_lcd (s : LCD) (row col : Nat) :
    (setCursorPosition s row col).lcd = s := rfl

/-- A loop whose body leaves the object alone leaves the object alone. -/
theorem repeatStep_lcd (f : LCD → Step) (hf : ∀ s, (f s).lcd = s) (n : Nat) (s : LCD) :
    (repeatStep f n s).lcd = s := by
  induction n with
  | zero => rfl
  | succ k ih => simp [repeatStep, hf, ih]

theorem transactionsAux_bytes (w : Nat) (data : List Nat) (rest : List Event) :
    ∀ cur : List Nat,
      transactionsAux (data.flatMap (fun b => [Event.wireWrite w b, Event.delay 5]) ++
        Event.endTransmission w :: rest) (some cur) =
      (cur ++ data) :: transactionsAux rest none := by
  induction data with
  | nil => intro cur; simp [transactionsAux]
  | cons b bs ih =>
    intro cur
    simp only [List.flatMap_cons, List.cons_append, List.nil_append, List.append_assoc,
      transactionsAux]
    have := ih (cur ++ [b])
    simp only [List.append_assoc, List.singleton_append] at this
    simpa using this

/-- One bus transaction contributes its bytes as one entry. -/
theorem transactions_deviceWrite (w a : Nat) (data : List Nat) (rest : List Event) :
    transactions (deviceWriteEvents w a data ++ rest) = data :: transactions rest := by
  unfold transactions deviceWriteEvents
  simp only [List.singleton_append, List.cons_append, List.append_assoc, transactionsAux]
  have := transactionsAux_bytes w data rest []
  simpa using this

theorem transactions_nil : transactions [] = [] := rfl

/-- The transactions of `n` character writes in a row. -/
theorem transactions_repeat_write (v n : Nat) (s : LCD) (rest : List Event) :
    transactions ((repeatStep (fun s => write s v) n s).events ++ rest) =
      List.replicate n [0x40, v % 256] ++ transactions rest := by
  induction n with
  | zero => simp [repeatStep]
  | succ k ih =>
    simp only [repeatStep, andThen_events, write_lcd, List.append_assoc]
    rw [show (write s v).events = deviceWriteEvents s._wire s._deviceAddress [0x40, v % 256] from rfl,
      transactions_deviceWrite, ih, List.replicate_succ, List.cons_append]

theorem partialCell_length (h : Header) (r : Nat) (hr : r < 5) :
    (partialCell h r).length = if r = 0 then 0 else 1 := by
  interval_cases r <;> simp [partialCell]

theorem partialGlyph_fst (h : Header) (r b : Nat) (s : LCD) (rest : List Event) :
    transactions ((match (partialGlyph h (r : Int) b).1 with
      | some g => printCustomSymbol s g
      | none => (⟨s, []⟩ : Step)).events ++ rest) = partialCell h r ++ transactions rest := by
  unfold partialGlyph partialCell
  by_cases h1 : r = 1
  · subst h1
    simp [printCustomSymbol, write, deviceWrite, transactions_deviceWrite]
  by_cases h2 : r = 2
  · subst h2
    simp [printCustomSymbol, write, deviceWrite, transactions_deviceWrite]
  by_cases h3 : r = 3
  · subst h3
    simp [printCustomSymbol, write, deviceWrite, transactions_deviceWrite]
  by_cases h4 : r = 4
  · subst h4
    simp [printCustomSymbol, write, deviceWrite, transactions_deviceWrite]
  have e1 : ¬ ((r : Int) = 1) := by omega
  have e2 : ¬ ((r : Int) = 2) := by omega
  have e3 : ¬ ((r : Int) = 3) := by omega
  have e4 : ¬ ((r : Int) = 4) := by omega
  simp [h1, h2, h3, h4, e1, e2, e3, e4]

theorem partialGlyph_lcd (h : Header) (r : Int) (b : Nat) (s : LCD) :
    (match (partialGlyph h r b).1 with
      | some g => printCustomSymbol s g
      | none => (⟨s, []⟩ : Step)).lcd = s := by
  unfold partialGlyph
  split_ifs <;> rfl

theorem partialGlyph_snd (h : Header) (r b : Nat) (hr : r < 5) (hb : b < 256)
    (hpos : r ≠ 0 → 1 ≤ b) :
    (partialGlyph h (r : Int) b).2 = b - (if r = 0 then 0 else 1) := by
  unfold partialGlyph
  interval_cases r
  · simp
  all_goals
    have := hpos (by norm_num)
    simp
    omega

/-- What `drawProgress` writes for a bar count between 0 and `5 * _colCount`:
one cursor command, then the full cells, the partial cell and the blanks. -/
theorem drawProgress_transactions (h : Header) (s : LCD) (n : Nat)
    (hcol : s._colCount < 256) (hn : n ≤ s._colCount * 5) :
    (drawProgress h s (n : Int)).lcd = s ∧
    transactions (drawProgress h s (n : Int)).events =
      barCursorTransaction s ::
        (List.replicate (n / 5) [0x40, h.CUSTOM_SYMBOL_8 % 256] ++ partialCell h (n % 5) ++
          List.replicate (s._colCount - n / 5 - (if n % 5 = 0 then 0 else 1)) [0x40, 0x20]) := by
  have hfull : Int.tdiv (n : Int) 5 = ((n / 5 : Nat) : Int) := by
    rw [Int.tdiv_eq_ediv (Int.natCast_nonneg n) (by omega)]; norm_cast
  have hrem : Int.tmod (n : Int) 5 = ((n % 5 : Nat) : Int) := by
    rw [Int.tmod_eq_emod (Int.natCast_nonneg n) (by omega)]; norm_cast
  have hblank : (((s._colCount : Int) - ((n / 5 : Nat) : Int)) % 256).toNat =
      s._colCount - n / 5 := by
    omega
  unfold drawProgress
  simp only [hfull, hrem, hblank, Int.toNat_ofNat]
  constructor
  · simp only [andThen_lcd, setCursorPosition_lcd]
    rw [repeatStep_lcd _ (fun _ => rfl), repeatStep_lcd _ (fun _ => rfl)]
    · exact partialGlyph_lcd _ _ _ _
  · simp only [andThen_events, andThen_lcd, setCursorPosition_lcd]
    rw [repeatStep_lcd _ (fun _ => rfl)]
    rw [partialGlyph_lcd]
    rw [List.append_assoc, List.append_assoc]
    rw [show (setCursorPosition s s._progressBarRow 0).events =
      deviceWriteEvents s._wire s._deviceAddress (barCursorTransaction s) by
        simp [setCursorPosition, deviceWrite, barCursorTransaction]]
    rw [transactions_deviceWrite]
    rw [show (fun s => printCustomSymbol s h.CUSTOM_SYMBOL_8) =
      (fun s => write s h.CUSTOM_SYMBOL_8) from rfl, transactions_repeat_write]
    rw [partialGlyph_fst]
    have := transactions_repeat_write 0x20 (partialGlyph h ((n % 5 : Nat) : Int)
      (s._colCount - n / 5)).2 s []
    rw [List.append_nil] at this
    rw [show printSpace = (fun s => write s 0x20) from rfl, this, transactions_nil,
      List.append_nil]
    rw [partialGlyph_snd h (n % 5) (s._colCount - n / 5) (Nat.mod_lt _ (by norm_num))
      (by omega) (by omega)]
    simp

set_option maxRecDepth 1000000 in
theorem progressBarCount?_hundred :
    ∀ colCount < 256, progressBarCount? colCount (Float32.ofInt 100) = some ((colCount : Int) * 5) := by
  decide

set_option maxRecDepth 1000000 in
theorem progressBarCount?_zero :
    ∀ colCount < 256, progressBarCount? colCount (Float32.ofInt 0) = some 0 := by
  decide

theorem le_ne_nan (a p : Float32) (h : Float32.le a p = true) : p ≠ Float32.nan := by
  intro hp
  subst hp
  cases a <;> simp [Float32.le] at h

/-- With the bar enabled and a percentage that is a number, `setProgress`
draws the bar for a bar count between 0 and `5 * _colCount`. -/
theorem setProgress_shape (h : Header) (s : LCD) (p : Float32) (hcol : s._colCount < 256)
    (hen : s._progressBarEnabled = true) (hp : p ≠ Float32.nan) :
    ∃ n : Nat, progressBarCount? s._colCount p = some (n : Int) ∧ n ≤ s._colCount * 5 ∧
      setProgress h s p = some (drawProgress h s (n : Int)) := by
  obtain ⟨n, hn, hle⟩ := progressBarCount?_bounds s._colCount hcol p hp
  refine ⟨n, hn, hle, ?_⟩
  unfold setProgress
  simp [hen, hn]

/-! ## The properties of the specification -/

/-- C1: for every column count below 256, every bar row and every percentage
`p` with `0 ≤ p ≤ 100`, an enabled `setProgress(p)` performs one cursor-position
transaction and then exactly `_colCount` data transactions: the full glyphs,
at most one partial glyph and the spaces add up to `_colCount`, and the
`uint8_t` blank counter equals the unwrapped difference, which is not
negative. -/
theorem setProgress_full_width (h : Header) (s : LCD) (p : Float32)
    (hcol : s._colCount < 256) (hen : s._progressBarEnabled = true)
    (hp : Float32.le (Float32.ofInt 0) p = true ∧ Float32.le p (Float32.ofInt 100) = true) :
    ∃ (n : Nat) (r : Step) (full part blank : Nat),
      progressBarCount? s._colCount p = some (n : Int) ∧
      setProgress h s p = some r ∧
      transactions r.events = barCursorTransaction s ::
        (List.replicate full [0x40, h.CUSTOM_SYMBOL_8 % 256] ++ partialCell h (n % 5) ++
          List.replicate blank [0x40, 0x20]) ∧
      (partialCell h (n % 5)).length = part ∧ part ≤ 1 ∧
      full + part + blank = s._colCount ∧
      (transactions r.events).length = 1 + s._colCount ∧
      0 ≤ (s._colCount : Int) - Int.tdiv (n : Int) 5 ∧
      (((partialGlyph h (Int.tmod (n : Int) 5)
          (((s._colCount : Int) - Int.tdiv (n : Int) 5) % 256).toNat).2 : Nat) : Int) =
        (s._colCount : Int) - Int.tdiv (n : Int) 5 - (part : Int) ∧
      blank = (partialGlyph h (Int.tmod (n : Int) 5)
          (((s._colCount : Int) - Int.tdiv (n : Int) 5) % 256).toNat).2 := by
  obtain ⟨n, hn, hle, hset⟩ := setProgress_shape h s p hcol hen (le_ne_nan _ _ hp.1)
  obtain ⟨_, htx⟩ := drawProgress_transactions h s n hcol hle
  have hlen := partialCell_length h (n % 5) (Nat.mod_lt _ (by norm_num))
  have hfull : Int.tdiv (n : Int) 5 = ((n / 5 : Nat) : Int) := by
    rw [Int.tdiv_eq_ediv (Int.natCast_nonneg n) (by omega)]; norm_cast
  have hrem : Int.tmod (n : Int) 5 = ((n % 5 : Nat) : Int) := by
    rw [Int.tmod_eq_emod (Int.natCast_nonneg n) (by omega)]; norm_cast
  have hblank : (((s._colCount : Int) - ((n / 5 : Nat) : Int)) % 256).toNat =
      s._colCount - n / 5 := by
    omega
  have hsnd := partialGlyph_snd h (n % 5) (s._colCount - n / 5) (Nat.mod_lt _ (by norm_num))
    (by omega) (by omega)
  refine ⟨n, drawProgress h s (n : Int), n / 5, if n % 5 = 0 then 0 else 1,
    s._colCount - n / 5 - (if n % 5 = 0 then 0 else 1), hn, hset, htx, hlen, ?_, ?_, ?_, ?_, ?_, ?_⟩
  · split <;> omega
  · split <;> omega
  · rw [htx]
    simp only [List.length_cons, List.length_append, List.length_replicate, hlen]
    split <;> omega
  · rw [hfull]; omega
  · rw [hfull, hrem, hblank, hsnd]
    split <;> omega
  · rw [hfull, hrem, hblank, hsnd]

theorem setProgress_full_width_witness :
    (sampleLCD 2 16 1)._colCount < 256 ∧ (sampleLCD 2 16 1)._progressBarEnabled = true ∧
    ∃ (n : Nat) (r : Step) (full part blank : Nat),
      progressBarCount? (sampleLCD 2 16 1)._colCount (Float32.ofInt 53) = some (n : Int) ∧
      setProgress hd44780 (sampleLCD 2 16 1) (Float32.ofInt 53) = some r ∧
      transactions r.events = barCursorTransaction (sampleLCD 2 16 1) ::
        (List.replicate full [0x40, hd44780.CUSTOM_SYMBOL_8 % 256] ++ partialCell hd44780 (n % 5) ++
          List.replicate blank [0x40, 0x20]) ∧
      (partialCell hd44780 (n % 5)).length = part ∧ part ≤ 1 ∧
      full + part + blank = (sampleLCD 2 16 1)._colCount ∧
      (transactions r.events).length = 1 + (sampleLCD 2 16 1)._colCount ∧
      0 ≤ ((sampleLCD 2 16 1)._colCount : Int) - Int.tdiv (n : Int) 5 ∧
      (((partialGlyph hd44780 (Int.tmod (n : Int) 5)
          ((((sampleLCD 2 16 1)._colCount : Int) - Int.tdiv (n : Int) 5) % 256).toNat).2 : Nat) : Int) =
        ((sampleLCD 2 16 1)._colCount : Int) - Int.tdiv (n : Int) 5 - (part : Int) ∧
      blank = (partialGlyph hd44780 (Int.tmod (n : Int) 5)
          ((((sampleLCD 2 16 1)._colCount : Int) - Int.tdiv (n : Int) 5) % 256).toNat).2 :=
  ⟨by decide, by decide,
    setProgress_full_width hd44780 (sampleLCD 2 16 1) (Float32.ofInt 53) (by decide) (by decide)
      ⟨by decide, by decide⟩⟩

/-- C2, evaluated: the two examples of the claim come out as it says (16
columns at 50 percent give 40 filled units, at 53 percent 42), but on 20
columns `setProgress(53)` computes 52 filled units where
`floor(20 * 5 * 53 / 100)` is 53, because `53 / 100` is rounded down in binary32
before the multiplication: the bar shows 10 full cells, the level-2 glyph
`CUSTOM_SYMBOL_5` and 9 spaces instead of the level-3 glyph. -/
theorem setProgress_53_percent_20_columns :
    (Float32.ofInt 53).Representable ∧
    progressBarCount? 16 (Float32.ofInt 50) = some 40 ∧
    progressBarCount? 16 (Float32.ofInt 53) = some 42 ∧
    Float32.div (Float32.ofInt 53) (Float32.ofInt 100) = Float32.fin false 8891924 (-24) ∧
    8891924 * 100 < 53 * 2 ^ 24 ∧
    progressBarCount? 20 (Float32.ofInt 53) = some 52 ∧
    20 * 5 * 53 / 100 = 53 ∧
    (setProgress hd44780 (sampleLCD 4 20 3) (Float32.ofInt 53)).map
        (fun r => transactions r.events) =
      some ([0x80, 0xc0] :: (List.replicate 10 [0x40, hd44780.CUSTOM_SYMBOL_8] ++
        [[0x40, hd44780.CUSTOM_SYMBOL_5]] ++ List.replicate 9 [0x40, 0x20])) := by
  decide

/-- C3: for every column count below 256, an enabled `setProgress(100)` writes,
after the cursor command, exactly `_colCount` full-cell glyphs and nothing
else: no partial glyph and no space. -/
theorem setProgress_hundred_all_full (h : Header) (s : LCD) (hcol : s._colCount < 256)
    (hen : s._progressBarEnabled = true) :
    ∃ r : Step, setProgress h s (Float32.ofInt 100) = some r ∧ r.lcd = s ∧
      transactions r.events = barCursorTransaction s ::
        List.replicate s._colCount [0x40, h.CUSTOM_SYMBOL_8 % 256] := by
  have hn := progressBarCount?_hundred s._colCount hcol
  have hcast : ((s._colCount : Int) * 5) = ((s._colCount * 5 : Nat) : Int) := by push_cast; rfl
  rw [hcast] at hn
  obtain ⟨hl, htx⟩ := drawProgress_transactions h s (s._colCount * 5) hcol (le_refl _)
  refine ⟨drawProgress h s ((s._colCount * 5 : Nat) : Int), ?_, hl, ?_⟩
  · unfold setProgress
    simp [hen, hn]
  · rw [htx]
    simp [partialCell]

theorem setProgress_hundred_all_full_witness :
    (sampleLCD 2 16 1)._colCount < 256 ∧ (sampleLCD 2 16 1)._progressBarEnabled = true ∧
    ∃ r : Step, setProgress hd44780 (sampleLCD 2 16 1) (Float32.ofInt 100) = some r ∧
      r.lcd = sampleLCD 2 16 1 ∧
      transactions r.events = barCursorTransaction (sampleLCD 2 16 1) ::
        List.replicate (sampleLCD 2 16 1)._colCount [0x40, hd44780.CUSTOM_SYMBOL_8 % 256] :=
  ⟨by decide, by decide,
    setProgress_hundred_all_full hd44780 (sampleLCD 2 16 1) (by decide) (by decide)⟩

/-- C4: for every column count below 256, an enabled `setProgress(0)` writes,
after the cursor command, `_colCount` characters, every one of them a space:
no full glyph and no partial glyph. -/
theorem setProgress_zero_all_blank (h : Header) (s : LCD) (hcol : s._colCount < 256)
    (hen : s._progressBarEnabled = true) :
    ∃ r : Step, setProgress h s (Float32.ofInt 0) = some r ∧ r.lcd = s ∧
      transactions r.events = barCursorTransaction s ::
        List.replicate s._colCount [0x40, 0x20] := by
  have hn := progressBarCount?_zero s._colCount hcol
  obtain ⟨hl, htx⟩ := drawProgress_transactions h s 0 hcol (Nat.zero_le _)
  refine ⟨drawProgress h s ((0 : Nat) : Int), ?_, hl, ?_⟩
  · unfold setProgress
    simp [hen, hn]
  · rw [htx]
    simp [partialCell]

theorem setProgress_zero_all_blank_witness :
    (sampleLCD 2 16 1)._colCount < 256 ∧ (sampleLCD 2 16 1)._progressBarEnabled = true ∧
    ∃ r : Step, setProgress hd44780 (sampleLCD 2 16 1) (Float32.ofInt 0) = some r ∧
      r.lcd = sampleLCD 2 16 1 ∧
      transactions r.events = barCursorTransaction (sampleLCD 2 16 1) ::
        List.replicate (sampleLCD 2 16 1)._colCount [0x40, 0x20] :=
  ⟨by decide, by decide,
    setProgress_zero_all_blank hd44780 (sampleLCD 2 16 1) (by decide) (by decide)⟩

theorem clampProgress_of_lt_zero (p : Float32) (hp : Float32.lt p (Float32.ofInt 0) = true) :
    clampProgress p = clampProgress (Float32.ofInt 0) := by
  have h0 : clampProgress (Float32.ofInt 0) = Float32.ofInt 0 := by decide
  rw [h0]
  unfold clampProgress
  rw [if_pos hp]

theorem clampProgress_of_gt_hundred (p : Float32)
    (hp : Float32.lt (Float32.ofInt 100) p = true) :
    clampProgress p = clampProgress (Float32.ofInt 100) := by
  have h100 : clampProgress (Float32.ofInt 100) = Float32.ofInt 100 := by decide
  rw [h100]
  unfold clampProgress
  have hnot : ¬ (Float32.lt p (Float32.ofInt 0) = true) := by
    rw [ofInt_zero]
    rw [ofInt_hundred] at hp
    cases p with
    | nan => simp [Float32.lt] at hp
    | inf t => cases t <;> simp [Float32.lt] at hp ⊢
    | fin t m e =>
      simp only [Float32.lt, Float32.signed, decide_eq_true_eq] at hp ⊢
      cases t
      · simp
      · exfalso
        simp at hp
        have h1 : (0 : Int) ≤ 13107200 * 2 ^ (-17 - e).toNat := by positivity
        have h2 : (0 : Int) ≤ (m : Int) * 2 ^ (e + 17).toNat := by positivity
        omega
  rw [if_neg hnot, if_pos hp]

theorem setProgress_congr_clamp (h : Header) (s : LCD) (p q : Float32)
    (hpq : clampProgress p = clampProgress q) : setProgress h s p = setProgress h s q := by
  unfold setProgress progressBarCount?
  simp only [hpq]

theorem lt_ne_nan_left (p a : Float32) (h : Float32.lt p a = true) : p ≠ Float32.nan := by
  intro hp
  subst hp
  simp [Float32.lt] at h

theorem lt_ne_nan_right (a p : Float32) (h : Float32.lt a p = true) : p ≠ Float32.nan := by
  intro hp
  subst hp
  cases a <;> simp [Float32.lt] at h

/-- C5: `setProgress` clamps its argument. In every object state, a call with
`p < 0` (negative infinity included) has the same result as `setProgress(0)`
and a call with `p > 100` (positive infinity included) the same result as
`setProgress(100)`: the same object and the same events. On a column count
below 256 these calls return. -/
theorem setProgress_clamps (h : Header) (s : LCD) (p : Float32) :
    (Float32.lt p (Float32.ofInt 0) = true →
      setProgress h s p = setProgress h s (Float32.ofInt 0) ∧
      (s._colCount < 256 → ∃ r, setProgress h s p = some r)) ∧
    (Float32.lt (Float32.ofInt 100) p = true →
      setProgress h s p = setProgress h s (Float32.ofInt 100) ∧
      (s._colCount < 256 → ∃ r, setProgress h s p = some r)) := by
  have hdef : p ≠ Float32.nan → s._colCount < 256 → ∃ r, setProgress h s p = some r := by
    intro hp hcol
    cases hen : s._progressBarEnabled
    · exact ⟨⟨s, []⟩, by unfold setProgress; simp [hen]⟩
    · obtain ⟨n, _, _, hset⟩ := setProgress_shape h s p hcol hen hp
      exact ⟨_, hset⟩
  constructor
  · intro hp
    exact ⟨setProgress_congr_clamp h s p _ (clampProgress_of_lt_zero p hp),
      hdef (lt_ne_nan_left _ _ hp)⟩
  · intro hp
    exact ⟨setProgress_congr_clamp h s p _ (clampProgress_of_gt_hundred p hp),
      hdef (lt_ne_nan_right _ _ hp)⟩

theorem setProgress_clamps_witness :
    Float32.lt (Float32.ofInt (-7)) (Float32.ofInt 0) = true ∧
    Float32.lt (Float32.ofInt 100) (Float32.inf false) = true ∧
    (sampleLCD 2 16 1)._colCount < 256 ∧
    setProgress hd44780 (sampleLCD 2 16 1) (Float32.ofInt (-7)) =
      setProgress hd44780 (sampleLCD 2 16 1) (Float32.ofInt 0) ∧
    (∃ r, setProgress hd44780 (sampleLCD 2 16 1) (Float32.ofInt (-7)) = some r) ∧
    setProgress hd44780 (sampleLCD 2 16 1) (Float32.inf false) =
      setProgress hd44780 (sampleLCD 2 16 1) (Float32.ofInt 100) ∧
    (∃ r, setProgress hd44780 (sampleLCD 2 16 1) (Float32.inf false) = some r) :=
  ⟨by decide, by decide, by decide,
    ((setProgress_clamps hd44780 (sampleLCD 2 16 1) (Float32.ofInt (-7))).1 (by decide)).1,
    ((setProgress_clamps hd44780 (sampleLCD 2 16 1) (Float32.ofInt (-7))).1 (by decide)).2
      (by decide),
    ((setProgress_clamps hd44780 (sampleLCD 2 16 1) (Float32.inf false)).2 (by decide)).1,
    ((setProgress_clamps hd44780 (sampleLCD 2 16 1) (Float32.inf false)).2 (by decide)).2
      (by decide)⟩

/-- C6: while the bar is not enabled, `setProgress(p)` is a no-op for every
`p`, NaN included: it returns with no event at all (no bus transaction, no
delay) and the object unchanged in every field; and that is the state
`setProgressBarEnabled(false)` leaves behind, from every state. -/
theorem setProgress_disabled_noop (h : Header) (s : LCD) (p : Float32) :
    (s._progressBarEnabled = false → setProgress h s p = some ⟨s, []⟩) ∧
    (setProgressBarEnabled h s false).lcd._progressBarEnabled = false ∧
    setProgress h (setProgressBarEnabled h s false).lcd p =
      some ⟨(setProgressBarEnabled h s false).lcd, []⟩ := by
  refine ⟨?_, rfl, ?_⟩
  · intro hdis
    unfold setProgress
    simp [hdis]
  · unfold setProgress
    simp [setProgressBarEnabled]

theorem setProgress_disabled_noop_witness :
    ({ sampleLCD 2 16 1 with _progressBarEnabled := false } : LCD)._progressBarEnabled = false ∧
    setProgress hd44780 { sampleLCD 2 16 1 with _progressBarEnabled := false } Float32.nan =
      some ⟨{ sampleLCD 2 16 1 with _progressBarEnabled := false }, []⟩ :=
  ⟨rfl, (setProgress_disabled_noop hd44780 { sampleLCD 2 16 1 with _progressBarEnabled := false }
    Float32.nan).1 rfl⟩

/-- C7: for every row and column in the range of `uint8_t`,
`setCursorPosition(row, c)` leaves the object unchanged and performs exactly
one bus transaction, of the two bytes `0x80` and the address byte: `0x80 | c`
for row 0 and `0xC0 | c` for every other row; it is written without the
settle delay of `command`. -/
theorem setCursorPosition_address (s : LCD) (row c : Nat) (hrow : row < 256) (hc : c < 256) :
    (setCursorPosition s row c).lcd = s ∧
    (setCursorPosition s row c).events =
      [Event.beginTransmission s._wire s._deviceAddress,
       Event.wireWrite s._wire 0x80, Event.delay 5,
       Event.wireWrite s._wire (if row = 0 then 0x80 ||| c else 0xC0 ||| c), Event.delay 5,
       Event.endTransmission s._wire] ∧
    transactions (setCursorPosition s row c).events =
      [[0x80, if row = 0 then 0x80 ||| c else 0xC0 ||| c]] := by
  have hr : row % 256 = row := Nat.mod_eq_of_lt hrow
  have hcm : c % 256 = c := Nat.mod_eq_of_lt hc
  have hev : (setCursorPosition s row c).events = deviceWriteEvents s._wire s._deviceAddress
      [0x80, if row = 0 then 0x80 ||| c else 0xC0 ||| c] := by
    simp only [setCursorPosition, deviceWrite, hr, hcm]
    split <;> simp [Nat.lor_comm]
  refine ⟨rfl, ?_, ?_⟩
  · rw [hev]; rfl
  · have := transactions_deviceWrite s._wire s._deviceAddress
      [0x80, if row = 0 then 0x80 ||| c else 0xC0 ||| c] []
    rw [List.append_nil] at this
    rw [hev, this]; rfl

theorem setCursorPosition_address_witness :
    (3 : Nat) < 256 ∧ (5 : Nat) < 256 ∧
    (setCursorPosition (sampleLCD 4 20 3) 3 5).lcd = sampleLCD 4 20 3 ∧
    (setCursorPosition (sampleLCD 4 20 3) 3 5).events =
      [Event.beginTransmission (sampleLCD 4 20 3)._wire (sampleLCD 4 20 3)._deviceAddress,
       Event.wireWrite (sampleLCD 4 20 3)._wire 0x80, Event.delay 5,
       Event.wireWrite (sampleLCD 4 20 3)._wire (if (3 : Nat) = 0 then 0x80 ||| 5 else 0xC0 ||| 5),
       Event.delay 5,
       Event.endTransmission (sampleLCD 4 20 3)._wire] ∧
    transactions (setCursorPosition (sampleLCD 4 20 3) 3 5).events =
      [[0x80, if (3 : Nat) = 0 then 0x80 ||| 5 else 0xC0 ||| 5]] :=
  ⟨by decide, by decide, setCursorPosition_address (sampleLCD 4 20 3) 3 5 (by decide) (by decide)⟩

theorem drawProgress_lcd (h : Header) (s : LCD) (n : Int) : (drawProgress h s n).lcd = s := by
  unfold drawProgress
  simp only [andThen_lcd, setCursorPosition_lcd]
  rw [repeatStep_lcd _ (fun _ => rfl), repeatStep_lcd _ (fun _ => rfl)]
  · exact partialGlyph_lcd _ _ _ _

theorem setProgress_lcd (h : Header) (s : LCD) (p : Float32) (r : Step)
    (hr : setProgress h s p = some r) : r.lcd = s := by
  unfold setProgress at hr
  split at hr
  · cases hr; rfl
  · split at hr
    · cases hr
    · cases hr
      exact drawProgress_lcd _ _ _

/-- C10: `setProgress(p)` changes no field of the object, so a second call
with the same `p` repeats the first one event for event: whenever a call
returns a result, the object is the one before the call and the call made
again on it returns the same events. A call returns for every `p` while the
bar is disabled, and for every `p` that is not NaN on a column count below
256; the conversion of a NaN to `int` has no defined behaviour in C++. -/
theorem setProgress_idempotent (h : Header) (s : LCD) (p : Float32) :
    (∀ r, setProgress h s p = some r →
      r.lcd = s ∧ setProgress h r.lcd p = some ⟨r.lcd, r.events⟩) ∧
    (s._progressBarEnabled = false ∨ (s._colCount < 256 ∧ p ≠ Float32.nan) →
      ∃ r, setProgress h s p = some r) := by
  constructor
  · intro r hr
    have hl := setProgress_lcd h s p r hr
    refine ⟨hl, ?_⟩
    rw [hl, hr]
    cases r
    simp at hl
    subst hl
    rfl
  · intro hd
    rcases hd with hdis | ⟨hcol, hp⟩
    · exact ⟨⟨s, []⟩, by unfold setProgress; simp [hdis]⟩
    · cases hen : s._progressBarEnabled
      · exact ⟨⟨s, []⟩, by unfold setProgress; simp [hen]⟩
      · obtain ⟨n, _, _, hset⟩ := setProgress_shape h s p hcol hen hp
        exact ⟨_, hset⟩

theorem setProgress_idempotent_witness :
    (∃ r, setProgress hd44780 (sampleLCD 2 16 1) (Float32.ofInt 53) = some r ∧
      r.lcd = sampleLCD 2 16 1 ∧
      setProgress hd44780 r.lcd (Float32.ofInt 53) = some ⟨r.lcd, r.events⟩ ∧
      r.events.length = 102) ∧
    ((sampleLCD 2 16 1)._colCount < 256 ∧ Float32.ofInt 53 ≠ Float32.nan) :=
  ⟨⟨drawProgress hd44780 (sampleLCD 2 16 1) 42, by decide,
     ((setProgress_idempotent hd44780 (sampleLCD 2 16 1) (Float32.ofInt 53)).1 _ (by decide)).1,
     ((setProgress_idempotent hd44780 (sampleLCD 2 16 1) (Float32.ofInt 53)).1 _ (by decide)).2,
     by decide⟩,
   by decide, by decide⟩

/-! ## Facts about the flag bytes -/

theorem testBit_setMask (x b j : Nat) (hj : j < 8) :
    (setMask x (1 <<< b)).testBit j = (x.testBit j || decide (b = j)) := by
  unfold setMask
  rw [show (256 : Nat) = 2 ^ 8 from rfl, Nat.testBit_mod_two_pow, Nat.testBit_or,
    Nat.one_shiftLeft, Nat.testBit_two_pow]
  simp [hj]

theorem setMask_lt (x m : Nat) : setMask x m < 256 := Nat.mod_lt _ (by norm_num)

theorem clearMask_lt (x m : Nat) : clearMask x m < 256 := by
  unfold clearMask
  have h1 : 255 ^^^ (m % 256) < 2 ^ 8 :=
    Nat.xor_lt_two_pow (by norm_num) (by have := Nat.mod_lt m (show 0 < 256 by norm_num); omega)
  have h2 : x &&& (255 ^^^ (m % 256)) ≤ 255 ^^^ (m % 256) := Nat.and_le_right
  omega

theorem testBit_of_lt_256 (x j : Nat) (hx : x < 256) (hj : 8 ≤ j) : x.testBit j = false := by
  apply Nat.testBit_lt_two_pow
  calc x < 2 ^ 8 := hx
    _ ≤ 2 ^ j := Nat.pow_le_pow_right (by norm_num) hj

theorem testBit_clearMask (x b j : Nat) (hj : j < 8) :
    (clearMask x (1 <<< b)).testBit j = (x.testBit j && !decide (b = j)) := by
  unfold clearMask
  rw [Nat.testBit_and, Nat.testBit_xor, show (255 : Nat) = 2 ^ 8 - 1 from rfl,
    Nat.testBit_two_pow_sub_one, show (256 : Nat) = 2 ^ 8 from rfl, Nat.testBit_mod_two_pow,
    Nat.one_shiftLeft, Nat.testBit_two_pow]
  simp [hj]

theorem transactions_skip_delay (n : Nat) (rest : List Event) :
    transactions (Event.delay n :: rest) = transactions rest := rfl

theorem transactions_skip_delayMicroseconds (n : Nat) (rest : List Event) :
    transactions (Event.delayMicroseconds n :: rest) = transactions rest := rfl

theorem transactions_skip_wireBegin (w : Nat) (rest : List Event) :
    transactions (Event.wireBegin w :: rest) = transactions rest := rfl

/-- A `command` contributes the transaction of its control byte and its
instruction byte. -/
theorem transactions_command (s : LCD) (v : Nat) (rest : List Event) :
    transactions ((command s v).events ++ rest) = [0x80, v % 256] :: transactions rest := by
  simp only [command, andThen_events, deviceWrite, List.append_assoc, List.singleton_append]
  rw [transactions_deviceWrite, transactions_skip_delayMicroseconds]

theorem functionSet_testBit (h : Header) (s : LCD) (j : Nat) (hj : j < 8) :
    (functionSet h s).testBit j =
      ((decide (s._bitMode = BitMode.BITMODE_8_BIT) && decide (h.BIT_FUNCTION_SET_BITMODE = j)) ||
       (decide (2 ≤ s._rowCount) && decide (h.BIT_FUNCTION_SET_LINECOUNT = j)) ||
       (decide (s._fontSize = FontSize.FONT_SIZE_5x10) &&
         decide (h.BIT_FUNCTION_SET_FONTSIZE = j))) := by
  unfold functionSet
  by_cases hb : s._bitMode = BitMode.BITMODE_8_BIT <;>
  by_cases hr : 2 ≤ s._rowCount <;>
  by_cases hf : s._fontSize = FontSize.FONT_SIZE_5x10 <;>
  simp [hb, hr, hf, testBit_setMask, hj]

/-- The transactions of `begin`: the function-set byte three times, then the
display-control, clear-display and entry-mode commands. -/
theorem begin_transactions (h : Header) (s : LCD) (deviceAddress wire : Nat) :
    transactions (begin h s deviceAddress wire).events =
      [[0x80, (h.CMD_FUNCTION_SET ||| functionSet h s) % 256],
       [0x80, (h.CMD_FUNCTION_SET ||| functionSet h s) % 256],
       [0x80, (h.CMD_FUNCTION_SET ||| functionSet h s) % 256],
       [0x80, (h.CMD_DISPLAY_CONTROL |||
          setMask s._currDisplayControl (1 <<< h.BIT_DISPLAY_CONTROL_DISPLAY)) % 256],
       [0x80, h.CMD_CLEAR_DISPLAY % 256],
       [0x80, (h.CMD_ENTRY_MODE_SET |||
          setMask s._currEntryModeSet (1 <<< h.BIT_ENTRY_MODE_INCREMENT)) % 256]] := by
  unfold begin
  simp only [andThen_events, andThen_lcd, command_lcd, List.append_assoc, List.cons_append,
    List.nil_append, turnOn, clear, setTextInsertionMode]
  rw [transactions_skip_wireBegin, transactions_skip_delay, transactions_command,
    transactions_skip_delay, transactions_command, transactions_skip_delayMicroseconds,
    transactions_command, transactions_command, transactions_command,
    transactions_skip_delayMicroseconds]
  have := transactions_command
    { s with _deviceAddress := deviceAddress % 256, _wire := wire,
             _currDisplayControl := setMask s._currDisplayControl
               (1 <<< h.BIT_DISPLAY_CONTROL_DISPLAY),
             _currEntryModeSet := setMask s._currEntryModeSet
               (1 <<< h.BIT_ENTRY_MODE_INCREMENT) }
    (h.CMD_ENTRY_MODE_SET ||| setMask s._currEntryModeSet (1 <<< h.BIT_ENTRY_MODE_INCREMENT)) []
  rw [List.append_nil] at this
  simp only [reduceCtorEq, if_false]
  rw [this]
  rfl

/-- C8: for every configuration, `begin` sends the function-set byte
`CMD_FUNCTION_SET | _functionSet` in its first three transactions, and in that
byte the line-count bit is set exactly when `_rowCount >= 2`, the bus-width
bit exactly when the bit mode is 8-bit and the font bit exactly when the font
is 5x10, each independently of the other two settings. -/
theorem begin_function_set_byte (h : Header) (s : LCD) (deviceAddress wire : Nat)
    (hl : h.FunctionSetLayout) :
    ∃ F : Nat,
      (transactions (begin h s deviceAddress wire).events).take 3 =
        [[0x80, F], [0x80, F], [0x80, F]] ∧
      F = (h.CMD_FUNCTION_SET ||| functionSet h s) % 256 ∧
      F.testBit h.BIT_FUNCTION_SET_LINECOUNT = decide (2 ≤ s._rowCount) ∧
      F.testBit h.BIT_FUNCTION_SET_BITMODE = decide (s._bitMode = BitMode.BITMODE_8_BIT) ∧
      F.testBit h.BIT_FUNCTION_SET_FONTSIZE = decide (s._fontSize = FontSize.FONT_SIZE_5x10) := by
  obtain ⟨hb, hli, hf, hbl, hbf, hlf, hcb, hcl, hcf⟩ := hl
  refine ⟨(h.CMD_FUNCTION_SET ||| functionSet h s) % 256, ?_, rfl, ?_, ?_, ?_⟩
  · rw [begin_transactions]; rfl
  · rw [show (256 : Nat) = 2 ^ 8 from rfl, Nat.testBit_mod_two_pow, Nat.testBit_or,
      functionSet_testBit h s _ hli, hcl]
    simp [hli, hbl, Ne.symm hlf]
  · rw [show (256 : Nat) = 2 ^ 8 from rfl, Nat.testBit_mod_two_pow, Nat.testBit_or,
      functionSet_testBit h s _ hb, hcb]
    simp [hb, Ne.symm hbl, Ne.symm hbf]
  · rw [show (256 : Nat) = 2 ^ 8 from rfl, Nat.testBit_mod_two_pow, Nat.testBit_or,
      functionSet_testBit h s _ hf, hcf]
    simp [hf, hbf, hlf]

theorem begin_function_set_byte_witness :
    hd44780.FunctionSetLayout ∧
    ∃ F : Nat,
      (transactions (begin hd44780 (sampleLCD 2 16 1) 0x3e 0).events).take 3 =
        [[0x80, F], [0x80, F], [0x80, F]] ∧
      F = (hd44780.CMD_FUNCTION_SET ||| functionSet hd44780 (sampleLCD 2 16 1)) % 256 ∧
      F.testBit hd44780.BIT_FUNCTION_SET_LINECOUNT = decide (2 ≤ (sampleLCD 2 16 1)._rowCount) ∧
      F.testBit hd44780.BIT_FUNCTION_SET_BITMODE =
        decide ((sampleLCD 2 16 1)._bitMode = BitMode.BITMODE_8_BIT) ∧
      F.testBit hd44780.BIT_FUNCTION_SET_FONTSIZE =
        decide ((sampleLCD 2 16 1)._fontSize = FontSize.FONT_SIZE_5x10) :=
  ⟨by decide, begin_function_set_byte hd44780 (sampleLCD 2 16 1) 0x3e 0 (by decide)⟩

@[simp] theorem setCustomSymbol_lcd (h : Header) (s : LCD) (sym : Nat) (m : List Nat) :
    (setCustomSymbol h s sym m).lcd = s := rfl

@[simp] theorem returnHome_lcd (h : Header) (s : LCD) : (returnHome h s).lcd = s := rfl

theorem transactions_setCustomSymbol (h : Header) (s : LCD) (sym : Nat) (m : List Nat)
    (rest : List Event) :
    transactions ((setCustomSymbol h s sym m).events ++ rest) =
      glyphUpload h sym m ++ transactions rest := by
  simp only [setCustomSymbol, andThen_events, command_lcd, List.append_assoc, deviceWrite]
  rw [transactions_command, transactions_deviceWrite]
  rfl

theorem transactions_returnHome (h : Header) (s : LCD) (rest : List Event) :
    transactions ((returnHome h s).events ++ rest) =
      [0x80, h.CMD_RETURN_HOME % 256] :: transactions rest := by
  simp only [returnHome, andThen_events, command_lcd, List.append_assoc, List.singleton_append]
  rw [transactions_command, transactions_skip_delayMicroseconds]

/-- The entry-mode shadow that enabling the bar leaves behind. -/
theorem entryMode_after_enable (h : Header) (s : LCD) :
    (setProgressBarEnabled h s true).lcd._currEntryModeSet =
      setMask (clearMask s._currEntryModeSet (1 <<< h.BIT_ENTRY_MODE_AUTOINCREMENT))
        (1 <<< h.BIT_ENTRY_MODE_INCREMENT) := by
  simp [setProgressBarEnabled, initProgressBar, setAutoScrollEnabled, setTextInsertionMode]

/-- The transactions of enabling the bar. -/
theorem transactions_after_enable (h : Header) (s : LCD) :
    transactions (setProgressBarEnabled h s true).events =
      [0x80, (h.CMD_ENTRY_MODE_SET |||
          clearMask s._currEntryModeSet (1 <<< h.BIT_ENTRY_MODE_AUTOINCREMENT)) % 256] ::
      [0x80, h.CMD_RETURN_HOME % 256] ::
      [0x80, (h.CMD_ENTRY_MODE_SET |||
          (setProgressBarEnabled h s true).lcd._currEntryModeSet) % 256] ::
      progressBarUploads h := by
  rw [entryMode_after_enable]
  simp only [setProgressBarEnabled, initProgressBar, if_true, andThen_events, andThen_lcd,
    setCustomSymbol_lcd, returnHome_lcd, List.append_assoc, setAutoScrollEnabled,
    setTextInsertionMode, command_lcd, reduceCtorEq, if_false, Bool.false_eq_true]
  rw [transactions_command, transactions_returnHome, transactions_command,
    transactions_setCustomSymbol, transactions_setCustomSymbol, transactions_setCustomSymbol,
    transactions_setCustomSymbol]
  have := transactions_setCustomSymbol h
    { s with _progressBarEnabled := true, _progressBarRow := (s._rowCount + 255) % 256 % 256,
             _currEntryModeSet := setMask
               (clearMask s._currEntryModeSet (1 <<< h.BIT_ENTRY_MODE_AUTOINCREMENT))
               (1 <<< h.BIT_ENTRY_MODE_INCREMENT) }
    h.CUSTOM_SYMBOL_8 h.customCharProgressBar5 []
  rw [List.append_nil] at this
  rw [this]
  simp [progressBarUploads, transactions_nil]

theorem commandBytes_cons_command (v : Nat) (txs : List (List Nat)) :
    commandBytes ([0x80, v] :: txs) = v :: commandBytes txs := by
  simp [commandBytes]

theorem commandBytes_cons_data (bs : List Nat) (txs : List (List Nat)) :
    commandBytes ((0x40 :: bs) :: txs) = commandBytes txs := by
  simp [commandBytes]

theorem commandBytes_nil : commandBytes [] = [] := rfl

theorem commandBytes_progressBarUploads (h : Header) :
    commandBytes (progressBarUploads h) =
      [h.CUSTOM_SYMBOL_4, h.CUSTOM_SYMBOL_5, h.CUSTOM_SYMBOL_6, h.CUSTOM_SYMBOL_7,
        h.CUSTOM_SYMBOL_8].map
        (fun sym => (h.CMD_SET_CGRAM_ADDR ||| ((sym % 256) <<< 3)) % 256) := by
  simp only [progressBarUploads, glyphUpload, List.cons_append, List.nil_append,
    commandBytes_cons_command, commandBytes_cons_data, commandBytes_nil, List.map]

theorem isEntryModeSet_of_flags (h : Header) (e : Nat) (hl : h.EntryModeLayout)
    (hflags : ∀ j, j ≠ h.BIT_ENTRY_MODE_INCREMENT → j ≠ h.BIT_ENTRY_MODE_AUTOINCREMENT →
      j < 8 → e.testBit j = false) :
    isEntryModeSet h ((h.CMD_ENTRY_MODE_SET ||| e) % 256) = true := by
  obtain ⟨hi, ha, hne, hci, hca, _, _⟩ := hl
  unfold isEntryModeSet
  rw [beq_iff_eq]
  apply Nat.eq_of_testBit_eq
  intro j
  rcases Nat.lt_or_ge j 8 with hj | hj
  · rw [testBit_clearMask _ _ _ hj, testBit_clearMask _ _ _ hj,
      show (256 : Nat) = 2 ^ 8 from rfl, Nat.testBit_mod_two_pow, Nat.testBit_mod_two_pow,
      Nat.testBit_or]
    by_cases h1 : h.BIT_ENTRY_MODE_INCREMENT = j
    · subst h1; simp [hci]
    · by_cases h2 : h.BIT_ENTRY_MODE_AUTOINCREMENT = j
      · subst h2; simp [hca]
      · rw [hflags j (Ne.symm h1) (Ne.symm h2) hj]
        simp [h1, h2, hj]
  · rw [testBit_of_lt_256 _ j (clearMask_lt _ _) hj,
      testBit_of_lt_256 _ j (Nat.mod_lt _ (by norm_num)) hj]

/-- C9: whatever the two entry-mode flags were before (the shadow holding
nothing but those two flags), after `setProgressBarEnabled(true)` the
entry-mode shadow has the auto-scroll bit clear and the increment
(left-to-right) bit set, and the last entry-mode command on the bus is
`CMD_ENTRY_MODE_SET` with exactly the flags of that shadow: it is the third
transaction, followed only by the glyph uploads. -/
theorem setProgressBarEnabled_entry_mode (h : Header) (s : LCD) (hl : h.EntryModeLayout)
    (hflags : ∀ j, j ≠ h.BIT_ENTRY_MODE_INCREMENT → j ≠ h.BIT_ENTRY_MODE_AUTOINCREMENT →
      s._currEntryModeSet.testBit j = false) :
    (setProgressBarEnabled h s true).lcd._currEntryModeSet.testBit
      h.BIT_ENTRY_MODE_AUTOINCREMENT = false ∧
    (setProgressBarEnabled h s true).lcd._currEntryModeSet.testBit
      h.BIT_ENTRY_MODE_INCREMENT = true ∧
    lastEntryModeCommand h (setProgressBarEnabled h s true).events =
      some ((h.CMD_ENTRY_MODE_SET |||
        (setProgressBarEnabled h s true).lcd._currEntryModeSet) % 256) ∧
    ((h.CMD_ENTRY_MODE_SET ||| (setProgressBarEnabled h s true).lcd._currEntryModeSet) % 256
      ).testBit h.BIT_ENTRY_MODE_AUTOINCREMENT = false ∧
    ((h.CMD_ENTRY_MODE_SET ||| (setProgressBarEnabled h s true).lcd._currEntryModeSet) % 256
      ).testBit h.BIT_ENTRY_MODE_INCREMENT = true ∧
    transactions (setProgressBarEnabled h s true).events =
      [0x80, (h.CMD_ENTRY_MODE_SET |||
          clearMask s._currEntryModeSet (1 <<< h.BIT_ENTRY_MODE_AUTOINCREMENT)) % 256] ::
      [0x80, h.CMD_RETURN_HOME % 256] ::
      [0x80, (h.CMD_ENTRY_MODE_SET |||
          (setProgressBarEnabled h s true).lcd._currEntryModeSet) % 256] ::
      progressBarUploads h := by
  have hl' := hl
  obtain ⟨hi, ha, hne, hci, hca, hrh, hcg⟩ := hl
  have hA : (setProgressBarEnabled h s true).lcd._currEntryModeSet.testBit
      h.BIT_ENTRY_MODE_AUTOINCREMENT = false := by
    rw [entryMode_after_enable, testBit_setMask _ _ _ ha, testBit_clearMask _ _ _ ha]
    simp [hne]
  have hI : (setProgressBarEnabled h s true).lcd._currEntryModeSet.testBit
      h.BIT_ENTRY_MODE_INCREMENT = true := by
    rw [entryMode_after_enable, testBit_setMask _ _ _ hi]
    simp
  have hother : ∀ j, j ≠ h.BIT_ENTRY_MODE_INCREMENT → j ≠ h.BIT_ENTRY_MODE_AUTOINCREMENT →
      j < 8 → (setProgressBarEnabled h s true).lcd._currEntryModeSet.testBit j = false := by
    intro j h1 h2 hj
    rw [entryMode_after_enable, testBit_setMask _ _ _ hj, testBit_clearMask _ _ _ hj,
      hflags j h1 h2]
    simp [Ne.symm h1]
  have h3 := isEntryModeSet_of_flags h _ hl' hother
  refine ⟨hA, hI, ?_, ?_, ?_, transactions_after_enable h s⟩
  · unfold lastEntryModeCommand
    rw [transactions_after_enable, commandBytes_cons_command, commandBytes_cons_command,
      commandBytes_cons_command, commandBytes_progressBarUploads]
    have hups : List.filter (isEntryModeSet h)
        ([h.CUSTOM_SYMBOL_4, h.CUSTOM_SYMBOL_5, h.CUSTOM_SYMBOL_6, h.CUSTOM_SYMBOL_7,
          h.CUSTOM_SYMBOL_8].map
          (fun sym => (h.CMD_SET_CGRAM_ADDR ||| ((sym % 256) <<< 3)) % 256)) = [] := by
      rw [List.filter_eq_nil_iff]
      intro v hv
      rw [List.mem_map] at hv
      obtain ⟨sym, hsym, rfl⟩ := hv
      rw [hcg sym hsym]
      simp
    rw [List.filter_cons, List.filter_cons, hrh, List.filter_cons, h3, hups]
    split <;> simp
  · rw [show (256 : Nat) = 2 ^ 8 from rfl, Nat.testBit_mod_two_pow, Nat.testBit_or, hca, hA]
    simp
  · rw [show (256 : Nat) = 2 ^ 8 from rfl, Nat.testBit_mod_two_pow, Nat.testBit_or, hI]
    simp [hi]

theorem setProgressBarEnabled_entry_mode_witness :
    hd44780.EntryModeLayout ∧
    (∀ j, j ≠ hd44780.BIT_ENTRY_MODE_INCREMENT → j ≠ hd44780.BIT_ENTRY_MODE_AUTOINCREMENT →
      ({ sampleLCD 2 16 1 with _currEntryModeSet := 1 } : LCD)._currEntryModeSet.testBit j
        = false) ∧
    (setProgressBarEnabled hd44780 { sampleLCD 2 16 1 with _currEntryModeSet := 1 }
      true).lcd._currEntryModeSet = 2 ∧
    lastEntryModeCommand hd44780 (setProgressBarEnabled hd44780
      { sampleLCD 2 16 1 with _currEntryModeSet := 1 } true).events = some 6 ∧
    lastEntryModeCommand hd44780 (setProgressBarEnabled hd44780
      { sampleLCD 2 16 1 with _currEntryModeSet := 1 } true).events =
      some ((hd44780.CMD_ENTRY_MODE_SET ||| (setProgressBarEnabled hd44780
        { sampleLCD 2 16 1 with _currEntryModeSet := 1 } true).lcd._currEntryModeSet) % 256) :=
  have hflags : ∀ j, j ≠ hd44780.BIT_ENTRY_MODE_INCREMENT →
      j ≠ hd44780.BIT_ENTRY_MODE_AUTOINCREMENT →
      ({ sampleLCD 2 16 1 with _currEntryModeSet := 1 } : LCD)._currEntryModeSet.testBit j
        = false := by
    intro j h1 h2
    have h1' : j ≠ 1 := h1
    have h2' : j ≠ 0 := h2
    show Nat.testBit 1 j = false
    rcases j with _ | _ | j
    · exact absurd rfl h2'
    · exact absurd rfl h1'
    · simp [Nat.testBit_succ]
  ⟨by decide, hflags, by decide, by decide,
    (setProgressBarEnabled_entry_mode hd44780 { sampleLCD 2 16 1 with _currEntryModeSet := 1 }
      (by decide) hflags).2.2.1⟩

/-- C16: `clear` and `returnHome` each leave the object unchanged (both shadow
bitfields included) and perform exactly one bus transaction, the command
`CMD_CLEAR_DISPLAY`, respectively `CMD_RETURN_HOME`, after which they wait
50 + 1700 microseconds, which is at least 1520, before returning. -/
theorem clear_returnHome_settle (h : Header) (s : LCD) :
    (clear h s).lcd = s ∧ (returnHome h s).lcd = s ∧
    (clear h s).events =
      deviceWriteEvents s._wire s._deviceAddress [0x80, h.CMD_CLEAR_DISPLAY % 256] ++
        [Event.delayMicroseconds 50, Event.delayMicroseconds 1700] ∧
    (returnHome h s).events =
      deviceWriteEvents s._wire s._deviceAddress [0x80, h.CMD_RETURN_HOME % 256] ++
        [Event.delayMicroseconds 50, Event.delayMicroseconds 1700] ∧
    settledTransactions (clear h s).events = [([0x80, h.CMD_CLEAR_DISPLAY % 256], 1750)] ∧
    settledTransactions (returnHome h s).events = [([0x80, h.CMD_RETURN_HOME % 256], 1750)] ∧
    1520 ≤ 1750 :=
  ⟨rfl, rfl, rfl, rfl, rfl, rfl, by norm_num⟩

/-- C12, evaluated: every command transaction that goes through `command` is
followed by a settle delay of 50 microseconds or more (so in `turnOn`,
`turnOff`, the two cursor setters, the two entry-mode setters, the four shift
methods, `setCustomSymbol` and `begin`), but `setCursorPosition` writes its
command transaction with `deviceWrite` directly: its last event is the
`endTransmission`, no delay follows, and in `setProgress` the first character
transaction begins right after it. -/
theorem setCursorPosition_no_settle_delay (h : Header) (s : LCD) (row col v : Nat) :
    settledTransactions (setCursorPosition s row col).events =
      [([0x80, if row % 256 = 0 then (col % 256) ||| 0x80 else (col % 256) ||| 0xc0], 0)] ∧
    (setCursorPosition s row col).events.getLast? = some (Event.endTransmission s._wire) ∧
    settledTransactions (command s v).events = [([0x80, v % 256], 50)] ∧
    (settledTransactions (turnOn h s).events).map Prod.snd = [50] ∧
    (settledTransactions (turnOff h s).events).map Prod.snd = [50] ∧
    (∀ b, (settledTransactions (setCursorVisible h s b).events).map Prod.snd = [50]) ∧
    (∀ b, (settledTransactions (setCursorBlinkingEnabled h s b).events).map Prod.snd = [50]) ∧
    (∀ b, (settledTransactions (setAutoScrollEnabled h s b).events).map Prod.snd = [50]) ∧
    (∀ m, (settledTransactions (setTextInsertionMode h s m).events).map Prod.snd = [50]) ∧
    (settledTransactions (moveCursorLeft h s).events).map Prod.snd = [50] ∧
    (settledTransactions (moveCursorRight h s).events).map Prod.snd = [50] ∧
    (settledTransactions (scrollDisplayLeft h s).events).map Prod.snd = [50] ∧
    (settledTransactions (scrollDisplayRight h s).events).map Prod.snd = [50] ∧
    (∀ sym m, (settledTransactions (setCustomSymbol h s sym m).events).map
      (fun t => (t.1.head?, t.2)) = [(some 0x80, 50), (some 0x40, 0)]) ∧
    (∀ a w, (settledTransactions (begin h s a w).events).map Prod.snd =
      [5050, 550, 50, 50, 1750, 50]) ∧
    (settledTransactions (drawProgress hd44780 (sampleLCD 4 20 3) 0).events).take 2 =
      [([0x80, 0xc0], 0), ([0x40, 0x20], 0)] := by
  refine ⟨?_, ?_, rfl, rfl, rfl, fun _ => rfl, fun _ => rfl, fun _ => rfl, fun _ => rfl,
    rfl, rfl, rfl, rfl, fun _ _ => rfl, fun _ _ => rfl, by decide⟩
  · unfold setCursorPosition
    split <;> rfl
  · unfold setCursorPosition
    split <;> rfl

theorem testBit_mod_256 (x j : Nat) (hj : j < 8) : (x % 256).testBit j = x.testBit j := by
  rw [show (256 : Nat) = 2 ^ 8 from rfl, Nat.testBit_mod_two_pow]
  simp [hj]

theorem transactions_command_alone (s : LCD) (v : Nat) :
    transactions (command s v).events = [[0x80, v % 256]] := by
  have := transactions_command s v []
  rw [List.append_nil] at this
  rw [this]; rfl

/-- C17: `setCursorPosition` and the four shift methods leave the object as it
is, both shadow bitfields and every other field, for every state and argument.
Each shift method sends one command whose byte is built from the header's
constants alone, not from the object: the cursor moves have the selection bit
clear and the display scrolls have it set, the moves to the left have the
direction bit clear and the moves to the right have it set. -/
theorem shift_methods_stateless (h : Header) (s : LCD) (row col : Nat) (hl : h.ShiftLayout) :
    (setCursorPosition s row col).lcd = s ∧ (moveCursorLeft h s).lcd = s ∧
    (moveCursorRight h s).lcd = s ∧ (scrollDisplayLeft h s).lcd = s ∧
    (scrollDisplayRight h s).lcd = s ∧
    ∃ ml mr sl sr : Nat,
      ml = clearMask (h.CMD_CURSOR_DISPLAY_SHIFT % 256)
        (1 <<< h.BIT_CURSOR_DISPLAY_SHIFT_DIRECTION) ∧
      mr = setMask (h.CMD_CURSOR_DISPLAY_SHIFT % 256)
        (1 <<< h.BIT_CURSOR_DISPLAY_SHIFT_DIRECTION) ∧
      sl = clearMask (setMask (h.CMD_CURSOR_DISPLAY_SHIFT % 256)
          (1 <<< h.BIT_CURSOR_DISPLAY_SHIFT_SELECTION))
        (1 <<< h.BIT_CURSOR_DISPLAY_SHIFT_DIRECTION) ∧
      sr = setMask (setMask (h.CMD_CURSOR_DISPLAY_SHIFT % 256)
          (1 <<< h.BIT_CURSOR_DISPLAY_SHIFT_SELECTION))
        (1 <<< h.BIT_CURSOR_DISPLAY_SHIFT_DIRECTION) ∧
      (∀ s' : LCD, transactions (moveCursorLeft h s').events = [[0x80, ml]]) ∧
      (∀ s' : LCD, transactions (moveCursorRight h s').events = [[0x80, mr]]) ∧
      (∀ s' : LCD, transactions (scrollDisplayLeft h s').events = [[0x80, sl]]) ∧
      (∀ s' : LCD, transactions (scrollDisplayRight h s').events = [[0x80, sr]]) ∧
      ml.testBit h.BIT_CURSOR_DISPLAY_SHIFT_SELECTION = false ∧
      ml.testBit h.BIT_CURSOR_DISPLAY_SHIFT_DIRECTION = false ∧
      mr.testBit h.BIT_CURSOR_DISPLAY_SHIFT_SELECTION = false ∧
      mr.testBit h.BIT_CURSOR_DISPLAY_SHIFT_DIRECTION = true ∧
      sl.testBit h.BIT_CURSOR_DISPLAY_SHIFT_SELECTION = true ∧
      sl.testBit h.BIT_CURSOR_DISPLAY_SHIFT_DIRECTION = false ∧
      sr.testBit h.BIT_CURSOR_DISPLAY_SHIFT_SELECTION = true ∧
      sr.testBit h.BIT_CURSOR_DISPLAY_SHIFT_DIRECTION = true := by
  obtain ⟨hs, hd, hne, hc⟩ := hl
  have hc' : (h.CMD_CURSOR_DISPLAY_SHIFT % 256).testBit h.BIT_CURSOR_DISPLAY_SHIFT_SELECTION
      = false := by rw [testBit_mod_256 _ _ hs, hc]
  refine ⟨rfl, rfl, rfl, rfl, rfl, _, _, _, _, rfl, rfl, rfl, rfl, ?_, ?_, ?_, ?_,
    ?_, ?_, ?_, ?_, ?_, ?_, ?_, ?_⟩
  · intro s'
    rw [show moveCursorLeft h s' = command s' (clearMask (h.CMD_CURSOR_DISPLAY_SHIFT % 256)
      (1 <<< h.BIT_CURSOR_DISPLAY_SHIFT_DIRECTION)) from rfl, transactions_command_alone,
      Nat.mod_eq_of_lt (clearMask_lt _ _)]
  · intro s'
    rw [show moveCursorRight h s' = command s' (setMask (h.CMD_CURSOR_DISPLAY_SHIFT % 256)
      (1 <<< h.BIT_CURSOR_DISPLAY_SHIFT_DIRECTION)) from rfl, transactions_command_alone,
      Nat.mod_eq_of_lt (setMask_lt _ _)]
  · intro s'
    rw [show scrollDisplayLeft h s' = command s' (clearMask (setMask
      (h.CMD_CURSOR_DISPLAY_SHIFT % 256) (1 <<< h.BIT_CURSOR_DISPLAY_SHIFT_SELECTION))
      (1 <<< h.BIT_CURSOR_DISPLAY_SHIFT_DIRECTION)) from rfl, transactions_command_alone,
      Nat.mod_eq_of_lt (clearMask_lt _ _)]
  · intro s'
    rw [show scrollDisplayRight h s' = command s' (setMask (setMask
      (h.CMD_CURSOR_DISPLAY_SHIFT % 256) (1 <<< h.BIT_CURSOR_DISPLAY_SHIFT_SELECTION))
      (1 <<< h.BIT_CURSOR_DISPLAY_SHIFT_DIRECTION)) from rfl, transactions_command_alone,
      Nat.mod_eq_of_lt (setMask_lt _ _)]
  · rw [testBit_clearMask _ _ _ hs, hc']; rfl
  · rw [testBit_clearMask _ _ _ hd]; simp
  · rw [testBit_setMask _ _ _ hs, hc']; simp [Ne.symm hne]
  · rw [testBit_setMask _ _ _ hd]; simp
  · rw [testBit_clearMask _ _ _ hs, testBit_setMask _ _ _ hs]; simp [Ne.symm hne]
  · rw [testBit_clearMask _ _ _ hd]; simp
  · rw [testBit_setMask _ _ _ hs, testBit_setMask _ _ _ hs]; simp
  · rw [testBit_setMask _ _ _ hd]; simp

theorem shift_methods_stateless_witness :
    hd44780.ShiftLayout ∧
    transactions (moveCursorLeft hd44780 (sampleLCD 2 16 1)).events = [[0x80, 0x10]] ∧
    transactions (moveCursorRight hd44780 (sampleLCD 2 16 1)).events = [[0x80, 0x14]] ∧
    transactions (scrollDisplayLeft hd44780 (sampleLCD 2 16 1)).events = [[0x80, 0x18]] ∧
    transactions (scrollDisplayRight hd44780 (sampleLCD 2 16 1)).events = [[0x80, 0x1c]] ∧
    (setCursorPosition (sampleLCD 2 16 1) 1 3).lcd = sampleLCD 2 16 1 :=
  ⟨by decide, by decide, by decide, by decide, by decide,
    (shift_methods_stateless hd44780 (sampleLCD 2 16 1) 1 3 (by decide)).1⟩

theorem range8_map_getD (b : List Nat) (hlen : b.length = 8) (hb : ∀ x ∈ b, x < 256) :
    (List.range 8).map (fun k => b.getD k 0 % 256) = b := by
  rcases b with _ | ⟨b0, _ | ⟨b1, _ | ⟨b2, _ | ⟨b3, _ | ⟨b4, _ | ⟨b5, _ | ⟨b6, _ | ⟨b7, _ | ⟨b8, t⟩⟩⟩⟩⟩⟩⟩⟩⟩ <;>
    simp at hlen
  simp only [List.mem_cons, forall_eq_or_imp] at hb
  obtain ⟨h0, h1, h2, h3, h4, h5, h6, h7, _⟩ := hb
  simp [List.range, List.range.loop, Nat.mod_eq_of_lt, h0, h1, h2, h3, h4, h5, h6, h7]

theorem glyph_address_testBit (h : Header) (i k : Nat) (hl : h.GlyphAddressLayout)
    (hk : k < 3) :
    (h.CMD_SET_CGRAM_ADDR ||| (i <<< 3)).testBit (3 + k) = i.testBit k := by
  obtain ⟨_, h3, h4, h5⟩ := hl
  rw [Nat.testBit_or, Nat.testBit_shiftLeft]
  have hc : h.CMD_SET_CGRAM_ADDR.testBit (3 + k) = false := by
    interval_cases k
    · exact h3
    · exact h4
    · exact h5
  rw [hc]
  simp

/-- C14: for every slot index `i` from 0 to 7 and every bitmap `b` of eight
bytes, `setCustomSymbol(i, b)` leaves the object as it is (both shadow
bitfields included) and performs exactly two bus transactions: the command
`CMD_SET_CGRAM_ADDR | (i << 3)`, then the data transaction of the nine bytes
`0x40, b[0], ..., b[7]`. The index occupies the bits 3 to 5 only
(`i << 3 < 64`), and distinct indices give distinct command bytes. -/
theorem setCustomSymbol_transactions (h : Header) (s : LCD) (i : Nat) (b : List Nat)
    (hl : h.GlyphAddressLayout) (hi : i < 8) (hlen : b.length = 8)
    (hb : ∀ x ∈ b, x < 256) :
    (setCustomSymbol h s i b).lcd = s ∧
    transactions (setCustomSymbol h s i b).events =
      [[0x80, h.CMD_SET_CGRAM_ADDR ||| (i <<< 3)], 0x40 :: b] ∧
    (0x40 :: b).length = 9 ∧
    i <<< 3 < 64 ∧
    h.CMD_SET_CGRAM_ADDR ||| (i <<< 3) < 256 ∧
    ∀ j, j < 8 → j ≠ i →
      h.CMD_SET_CGRAM_ADDR ||| (j <<< 3) ≠ h.CMD_SET_CGRAM_ADDR ||| (i <<< 3) := by
  have hshift : i <<< 3 < 64 := by
    rw [Nat.shiftLeft_eq]; omega
  have hbyte : h.CMD_SET_CGRAM_ADDR ||| (i <<< 3) < 256 :=
    Nat.or_lt_two_pow (n := 8) hl.1 (by omega)
  refine ⟨rfl, ?_, by simp [hlen], hshift, hbyte, ?_⟩
  · have := transactions_setCustomSymbol h s i b []
    rw [List.append_nil] at this
    rw [this, transactions_nil, List.append_nil, glyphUpload, range8_map_getD b hlen hb,
      Nat.mod_eq_of_lt (show i < 256 by omega), Nat.mod_eq_of_lt hbyte]
  · intro j hj hne heq
    apply hne
    have hbits : ∀ k, k < 3 → j.testBit k = i.testBit k := by
      intro k hk
      rw [← glyph_address_testBit h j k hl hk, ← glyph_address_testBit h i k hl hk, heq]
    have h0 := hbits 0 (by norm_num)
    have h1 := hbits 1 (by norm_num)
    have h2 := hbits 2 (by norm_num)
    interval_cases j <;> interval_cases i <;> first | rfl | (exfalso; revert h0 h1 h2; decide)

theorem setCustomSymbol_transactions_witness :
    hd44780.GlyphAddressLayout ∧ (3 : Nat) < 8 ∧ hd44780.customCharProgressBar1.length = 8 ∧
    (∀ x ∈ hd44780.customCharProgressBar1, x < 256) ∧
    transactions (setCustomSymbol hd44780 (sampleLCD 2 16 1) 3
      hd44780.customCharProgressBar1).events =
      [[0x80, 0x58], [0x40, 0x10, 0x10, 0x10, 0x10, 0x10, 0x10, 0x10, 0x10]] ∧
    transactions (setCustomSymbol hd44780 (sampleLCD 2 16 1) 3
      hd44780.customCharProgressBar1).events =
      [[0x80, hd44780.CMD_SET_CGRAM_ADDR ||| (3 <<< 3)], 0x40 :: hd44780.customCharProgressBar1] :=
  ⟨by decide, by decide, by decide, by decide, by decide,
    (setCustomSymbol_transactions hd44780 (sampleLCD 2 16 1) 3 hd44780.customCharProgressBar1
      (by decide) (by decide) (by decide) (by decide)).2.1⟩

theorem row_after_enable (h : Header) (s : LCD) :
    (setProgressBarEnabled h s true).lcd._progressBarRow = (s._rowCount + 255) % 256 := by
  simp [setProgressBarEnabled, initProgressBar, setAutoScrollEnabled, setTextInsertionMode]

theorem enabled_after_enable (h : Header) (s : LCD) :
    (setProgressBarEnabled h s true).lcd._progressBarEnabled = true := by
  simp [setProgressBarEnabled, initProgressBar, setAutoScrollEnabled, setTextInsertionMode]

theorem colCount_after_enable (h : Header) (s : LCD) :
    (setProgressBarEnabled h s true).lcd._colCount = s._colCount := by
  simp [setProgressBarEnabled, initProgressBar, setAutoScrollEnabled, setTextInsertionMode]

/-- C19: `setProgressBarEnabled(true)` sets the bar's row to `_rowCount - 1`
narrowed to a byte (255 when `_rowCount` is 0), whatever row an earlier
`setProgressBarRow` gave. After enabling, `setProgressBarRow(r)` makes `r` the
row of the bar: a following `setProgress(p)` with a percentage that is a number
returns and starts with the events of `setCursorPosition(r, 0)`.
`setProgressBarEnabled(false)` performs no event and changes the enabled flag
only: the row and both shadow bitfields stay as they are. -/
theorem progressBar_row (h : Header) (s : LCD) (r0 r : Nat) (p : Float32) :
    (setProgressBarEnabled h (setProgressBarRow s r0).lcd true).lcd._progressBarRow =
      (s._rowCount + 255) % 256 ∧
    (s._rowCount = 0 →
      (setProgressBarEnabled h (setProgressBarRow s r0).lcd true).lcd._progressBarRow = 255) ∧
    (0 < s._rowCount → s._rowCount < 256 →
      (setProgressBarEnabled h (setProgressBarRow s r0).lcd true).lcd._progressBarRow =
        s._rowCount - 1) ∧
    (s._colCount < 256 → p ≠ Float32.nan → r < 256 →
      ∃ res : Step,
        setProgress h (setProgressBarRow (setProgressBarEnabled h s true).lcd r).lcd p =
          some res ∧
        res.lcd._progressBarRow = r ∧
        (setCursorPosition res.lcd r 0).events <+: res.events ∧
        (transactions res.events).head? = some [0x80, if r = 0 then 0x80 else 0xc0]) ∧
    (setProgressBarEnabled h s false).events = [] ∧
    (setProgressBarEnabled h s false).lcd = { s with _progressBarEnabled := false } := by
  refine ⟨?_, ?_, ?_, ?_, rfl, rfl⟩
  · rw [row_after_enable]; rfl
  · intro h0
    rw [row_after_enable]
    show (s._rowCount + 255) % 256 = 255
    rw [h0]
  · intro h0 h1
    rw [row_after_enable]
    show (s._rowCount + 255) % 256 = s._rowCount - 1
    omega
  · intro hcol hp hr
    have hen : (setProgressBarRow (setProgressBarEnabled h s true).lcd r).lcd._progressBarEnabled
        = true := enabled_after_enable h s
    have hc : (setProgressBarRow (setProgressBarEnabled h s true).lcd r).lcd._colCount
        = s._colCount := colCount_after_enable h s
    have hrow : (setProgressBarRow (setProgressBarEnabled h s true).lcd r).lcd._progressBarRow
        = r := Nat.mod_eq_of_lt hr
    obtain ⟨n, _, hn, hset⟩ := setProgress_shape h _ p (by rw [hc]; exact hcol) hen hp
    obtain ⟨hl, htx⟩ := drawProgress_transactions h _ n (by rw [hc]; exact hcol) hn
    refine ⟨_, hset, ?_, ?_, ?_⟩
    · rw [hl]; exact hrow
    · rw [hl]
      simp only [drawProgress, andThen_events, List.append_assoc]
      rw [hrow]
      exact List.prefix_append _ _
    · rw [htx, barCursorTransaction, hrow, Nat.mod_eq_of_lt hr]
      rfl

theorem progressBar_row_witness :
    (sampleLCD 0 16 7)._rowCount = 0 ∧
    (setProgressBarEnabled hd44780 (setProgressBarRow (sampleLCD 0 16 7) 2).lcd
      true).lcd._progressBarRow = 255 ∧
    (0 < (sampleLCD 4 20 0)._rowCount ∧ (sampleLCD 4 20 0)._rowCount < 256) ∧
    (setProgressBarEnabled hd44780 (setProgressBarRow (sampleLCD 4 20 0) 1).lcd
      true).lcd._progressBarRow = 3 ∧
    ((sampleLCD 4 20 0)._colCount < 256 ∧ Float32.ofInt 50 ≠ Float32.nan ∧ (1 : Nat) < 256) ∧
    ∃ res : Step,
      setProgress hd44780 (setProgressBarRow
        (setProgressBarEnabled hd44780 (sampleLCD 4 20 0) true).lcd 1).lcd (Float32.ofInt 50) =
        some res ∧
      res.lcd._progressBarRow = 1 ∧
      (setCursorPosition res.lcd 1 0).events <+: res.events ∧
      (transactions res.events).head? = some [0x80, if (1 : Nat) = 0 then 0x80 else 0xc0] :=
  ⟨rfl, (progressBar_row hd44780 (sampleLCD 0 16 7) 2 0 Float32.nan).2.1 rfl,
    by decide,
    (progressBar_row hd44780 (sampleLCD 4 20 0) 1 0 Float32.nan).2.2.1 (by decide) (by decide),
    by decide,
    (progressBar_row hd44780 (sampleLCD 4 20 0) 0 1 (Float32.ofInt 50)).2.2.2.1
      (by decide) (by decide) (by decide)⟩

theorem setMask_other (x b j : Nat) (hx : x < 256) (hj : j ≠ b) :
    (setMask x (1 <<< b)).testBit j = x.testBit j := by
  rcases Nat.lt_or_ge j 8 with h8 | h8
  · rw [testBit_setMask _ _ _ h8]; simp [Ne.symm hj]
  · rw [testBit_of_lt_256 _ j (setMask_lt _ _) h8, testBit_of_lt_256 _ j hx h8]

theorem clearMask_other (x b j : Nat) (hx : x < 256) (hj : j ≠ b) :
    (clearMask x (1 <<< b)).testBit j = x.testBit j := by
  rcases Nat.lt_or_ge j 8 with h8 | h8
  · rw [testBit_clearMask _ _ _ h8]; simp [Ne.symm hj]
  · rw [testBit_of_lt_256 _ j (clearMask_lt _ _) h8, testBit_of_lt_256 _ j hx h8]

theorem byte_ext (x y : Nat) (hx : x < 256) (hy : y < 256)
    (hbits : ∀ j, j < 8 → x.testBit j = y.testBit j) : x = y := by
  apply Nat.eq_of_testBit_eq
  intro j
  rcases Nat.lt_or_ge j 8 with h8 | h8
  · exact hbits j h8
  · rw [testBit_of_lt_256 _ j hx h8, testBit_of_lt_256 _ j hy h8]

theorem setMask_setMask (x b : Nat) : setMask (setMask x (1 <<< b)) (1 <<< b) =
    setMask x (1 <<< b) := by
  apply byte_ext _ _ (setMask_lt _ _) (setMask_lt _ _)
  intro j hj
  simp [testBit_setMask, hj]

theorem setMask_clearMask (x b : Nat) : setMask (clearMask x (1 <<< b)) (1 <<< b) =
    setMask x (1 <<< b) := by
  apply byte_ext _ _ (setMask_lt _ _) (setMask_lt _ _)
  intro j hj
  simp only [testBit_setMask, testBit_clearMask, hj]
  by_cases hb : b = j <;> simp [hb]

theorem clearMask_setMask (x b : Nat) : clearMask (setMask x (1 <<< b)) (1 <<< b) =
    clearMask x (1 <<< b) := by
  apply byte_ext _ _ (clearMask_lt _ _) (clearMask_lt _ _)
  intro j hj
  simp only [testBit_setMask, testBit_clearMask, hj]
  by_cases hb : b = j <;> simp [hb]

theorem clearMask_clearMask (x b : Nat) : clearMask (clearMask x (1 <<< b)) (1 <<< b) =
    clearMask x (1 <<< b) := by
  apply byte_ext _ _ (clearMask_lt _ _) (clearMask_lt _ _)
  intro j hj
  simp [testBit_clearMask, hj]

/-- C18: on an object whose shadow bitfields are bytes, each flag setter
changes no field but its own shadow bitfield, and in it no bit but its own:
`turnOn` and `turnOff` the display bit, `setCursorVisible` the cursor bit,
`setCursorBlinkingEnabled` the blink bit of the display-control shadow,
`setAutoScrollEnabled` the auto-scroll bit and `setTextInsertionMode` the
direction bit of the entry-mode shadow. A setter called twice leaves the
object the second call alone would leave, whatever the two arguments, so each
setter is idempotent on the object. -/
theorem flag_setters_frame (h : Header) (s : LCD) (a b : Bool) (m n : TextInsertionMode)
    (hdc : s._currDisplayControl < 256) (hem : s._currEntryModeSet < 256) :
    ((turnOn h s).lcd = { s with _currDisplayControl := (turnOn h s).lcd._currDisplayControl } ∧
      ∀ j, j ≠ h.BIT_DISPLAY_CONTROL_DISPLAY →
        (turnOn h s).lcd._currDisplayControl.testBit j = s._currDisplayControl.testBit j) ∧
    ((turnOff h s).lcd = { s with _currDisplayControl := (turnOff h s).lcd._currDisplayControl } ∧
      ∀ j, j ≠ h.BIT_DISPLAY_CONTROL_DISPLAY →
        (turnOff h s).lcd._currDisplayControl.testBit j = s._currDisplayControl.testBit j) ∧
    ((setCursorVisible h s a).lcd =
        { s with _currDisplayControl := (setCursorVisible h s a).lcd._currDisplayControl } ∧
      ∀ j, j ≠ h.BIT_DISPLAY_CONTROL_CURSOR →
        (setCursorVisible h s a).lcd._currDisplayControl.testBit j =
          s._currDisplayControl.testBit j) ∧
    ((setCursorBlinkingEnabled h s a).lcd =
        { s with _currDisplayControl :=
          (setCursorBlinkingEnabled h s a).lcd._currDisplayControl } ∧
      ∀ j, j ≠ h.BIT_DISPLAY_CONTROL_CURSOR_BLINKING →
        (setCursorBlinkingEnabled h s a).lcd._currDisplayControl.testBit j =
          s._currDisplayControl.testBit j) ∧
    ((setAutoScrollEnabled h s a).lcd =
        { s with _currEntryModeSet := (setAutoScrollEnabled h s a).lcd._currEntryModeSet } ∧
      ∀ j, j ≠ h.BIT_ENTRY_MODE_AUTOINCREMENT →
        (setAutoScrollEnabled h s a).lcd._currEntryModeSet.testBit j =
          s._currEntryModeSet.testBit j) ∧
    ((setTextInsertionMode h s m).lcd =
        { s with _currEntryModeSet := (setTextInsertionMode h s m).lcd._currEntryModeSet } ∧
      ∀ j, j ≠ h.BIT_ENTRY_MODE_INCREMENT →
        (setTextInsertionMode h s m).lcd._currEntryModeSet.testBit j =
          s._currEntryModeSet.testBit j) ∧
    (turnOn h (turnOn h s).lcd).lcd = (turnOn h s).lcd ∧
    (turnOn h (turnOff h s).lcd).lcd = (turnOn h s).lcd ∧
    (turnOff h (turnOn h s).lcd).lcd = (turnOff h s).lcd ∧
    (turnOff h (turnOff h s).lcd).lcd = (turnOff h s).lcd ∧
    (setCursorVisible h (setCursorVisible h s a).lcd b).lcd = (setCursorVisible h s b).lcd ∧
    (setCursorBlinkingEnabled h (setCursorBlinkingEnabled h s a).lcd b).lcd =
      (setCursorBlinkingEnabled h s b).lcd ∧
    (setAutoScrollEnabled h (setAutoScrollEnabled h s a).lcd b).lcd =
      (setAutoScrollEnabled h s b).lcd ∧
    (setTextInsertionMode h (setTextInsertionMode h s m).lcd n).lcd =
      (setTextInsertionMode h s n).lcd := by
  refine ⟨⟨rfl, fun j hj => setMask_other _ _ _ hdc hj⟩,
    ⟨rfl, fun j hj => clearMask_other _ _ _ hdc hj⟩, ⟨rfl, ?_⟩, ⟨rfl, ?_⟩, ⟨rfl, ?_⟩, ⟨rfl, ?_⟩,
    ?_, ?_, ?_, ?_, ?_, ?_, ?_, ?_⟩
  · intro j hj
    cases a
    · exact clearMask_other _ _ _ hdc hj
    · exact setMask_other _ _ _ hdc hj
  · intro j hj
    cases a
    · exact clearMask_other _ _ _ hdc hj
    · exact setMask_other _ _ _ hdc hj
  · intro j hj
    cases a
    · exact clearMask_other _ _ _ hem hj
    · exact setMask_other _ _ _ hem hj
  · intro j hj
    cases m
    · exact setMask_other _ _ _ hem hj
    · exact clearMask_other _ _ _ hem hj
  · simp [turnOn, setMask_setMask]
  · simp [turnOn, turnOff, setMask_clearMask]
  · simp [turnOn, turnOff, clearMask_setMask]
  · simp [turnOff, clearMask_clearMask]
  · cases a <;> cases b <;>
      simp [setCursorVisible, setMask_setMask, setMask_clearMask, clearMask_setMask,
        clearMask_clearMask]
  · cases a <;> cases b <;>
      simp [setCursorBlinkingEnabled, setMask_setMask, setMask_clearMask, clearMask_setMask,
        clearMask_clearMask]
  · cases a <;> cases b <;>
      simp [setAutoScrollEnabled, setMask_setMask, setMask_clearMask, clearMask_setMask,
        clearMask_clearMask]
  · cases m <;> cases n <;>
      simp [setTextInsertionMode, setMask_setMask, setMask_clearMask, clearMask_setMask,
        clearMask_clearMask]

theorem flag_setters_frame_witness :
    (sampleLCD 2 16 1)._currDisplayControl < 256 ∧ (sampleLCD 2 16 1)._currEntryModeSet < 256 ∧
    (setCursorVisible hd44780 (sampleLCD 2 16 1) true).lcd._currDisplayControl = 6 ∧
    (setCursorVisible hd44780 (setCursorVisible hd44780 (sampleLCD 2 16 1) true).lcd false).lcd =
      (setCursorVisible hd44780 (sampleLCD 2 16 1) false).lcd :=
  ⟨by decide, by decide, by decide,
    (flag_setters_frame hd44780 (sampleLCD 2 16 1) true false TextInsertionMode.LEFT_TO_RIGHT
      TextInsertionMode.LEFT_TO_RIGHT (by decide) (by decide)).2.2.2.2.2.2.2.2.2.2.1⟩

theorem displayControl_after_begin (h : Header) (s : LCD) (a w : Nat) :
    (begin h s a w).lcd._currDisplayControl =
      setMask s._currDisplayControl (1 <<< h.BIT_DISPLAY_CONTROL_DISPLAY) := by
  simp [begin, turnOn, clear, setTextInsertionMode]

theorem entryMode_after_begin (h : Header) (s : LCD) (a w : Nat) :
    (begin h s a w).lcd._currEntryModeSet =
      setMask s._currEntryModeSet (1 <<< h.BIT_ENTRY_MODE_INCREMENT) := by
  simp [begin, turnOn, clear, setTextInsertionMode]

/-- C13, as stated, fails: two objects of one configuration, one with the
cursor and auto-scroll flags in its shadows and one without, have different
shadow bitfields after `begin`. -/
theorem begin_keeps_prior_flags :
    (sampleLCD 2 16 1)._rowCount =
      ({ sampleLCD 2 16 1 with _currDisplayControl := 2, _currEntryModeSet := 1 } : LCD)._rowCount ∧
    (sampleLCD 2 16 1)._colCount =
      ({ sampleLCD 2 16 1 with _currDisplayControl := 2, _currEntryModeSet := 1 } : LCD)._colCount ∧
    (sampleLCD 2 16 1)._fontSize =
      ({ sampleLCD 2 16 1 with _currDisplayControl := 2, _currEntryModeSet := 1 } : LCD)._fontSize ∧
    (sampleLCD 2 16 1)._bitMode =
      ({ sampleLCD 2 16 1 with _currDisplayControl := 2, _currEntryModeSet := 1 } : LCD)._bitMode ∧
    (begin hd44780 { sampleLCD 2 16 1 with _currDisplayControl := 0, _currEntryModeSet := 0 }
      0x3e 0).lcd._currDisplayControl = 4 ∧
    (begin hd44780 { sampleLCD 2 16 1 with _currDisplayControl := 2, _currEntryModeSet := 1 }
      0x3e 0).lcd._currDisplayControl = 6 ∧
    (begin hd44780 { sampleLCD 2 16 1 with _currDisplayControl := 0, _currEntryModeSet := 0 }
      0x3e 0).lcd._currEntryModeSet = 2 ∧
    (begin hd44780 { sampleLCD 2 16 1 with _currDisplayControl := 2, _currEntryModeSet := 1 }
      0x3e 0).lcd._currEntryModeSet = 3 ∧
    ¬ (∀ (s1 s2 : LCD), s1._rowCount = s2._rowCount → s1._colCount = s2._colCount →
        s1._fontSize = s2._fontSize → s1._bitMode = s2._bitMode →
        (begin hd44780 s1 0x3e 0).lcd._currDisplayControl =
          (begin hd44780 s2 0x3e 0).lcd._currDisplayControl ∧
        (begin hd44780 s1 0x3e 0).lcd._currEntryModeSet =
          (begin hd44780 s2 0x3e 0).lcd._currEntryModeSet) := by
  refine ⟨rfl, rfl, rfl, rfl, by decide, by decide, by decide, by decide, ?_⟩
  intro hall
  have := (hall { sampleLCD 2 16 1 with _currDisplayControl := 0, _currEntryModeSet := 0 }
    { sampleLCD 2 16 1 with _currDisplayControl := 2, _currEntryModeSet := 1 } rfl rfl rfl rfl).1
  revert this
  decide

/-- C13, amended: `begin` sets the display-on bit of the display-control
shadow and the left-to-right bit of the entry-mode shadow and leaves every
other bit of the two shadows as it was before the call. So two objects whose
shadow bitfields were equal before the call have equal shadow bitfields after
`begin`, with the display-on bit and the left-to-right bit set. -/
theorem begin_shadow_state (h : Header) (s s2 : LCD) (a w a2 w2 : Nat)
    (hD : h.BIT_DISPLAY_CONTROL_DISPLAY < 8) (hI : h.BIT_ENTRY_MODE_INCREMENT < 8)
    (hdc : s._currDisplayControl < 256) (hem : s._currEntryModeSet < 256) :
    (begin h s a w).lcd._currDisplayControl.testBit h.BIT_DISPLAY_CONTROL_DISPLAY = true ∧
    (begin h s a w).lcd._currEntryModeSet.testBit h.BIT_ENTRY_MODE_INCREMENT = true ∧
    (∀ j, j ≠ h.BIT_DISPLAY_CONTROL_DISPLAY →
      (begin h s a w).lcd._currDisplayControl.testBit j = s._currDisplayControl.testBit j) ∧
    (∀ j, j ≠ h.BIT_ENTRY_MODE_INCREMENT →
      (begin h s a w).lcd._currEntryModeSet.testBit j = s._currEntryModeSet.testBit j) ∧
    (s2._currDisplayControl = s._currDisplayControl →
      s2._currEntryModeSet = s._currEntryModeSet →
      (begin h s2 a2 w2).lcd._currDisplayControl = (begin h s a w).lcd._currDisplayControl ∧
      (begin h s2 a2 w2).lcd._currEntryModeSet = (begin h s a w).lcd._currEntryModeSet) := by
  simp only [displayControl_after_begin, entryMode_after_begin]
  refine ⟨?_, ?_, fun j hj => setMask_other _ _ _ hdc hj, fun j hj => setMask_other _ _ _ hem hj,
    ?_⟩
  · rw [testBit_setMask _ _ _ hD]; simp
  · rw [testBit_setMask _ _ _ hI]; simp
  · intro h1 h2
    rw [h1, h2]
    exact ⟨rfl, rfl⟩

theorem begin_shadow_state_witness :
    hd44780.BIT_DISPLAY_CONTROL_DISPLAY < 8 ∧ hd44780.BIT_ENTRY_MODE_INCREMENT < 8 ∧
    (sampleLCD 2 16 1)._currDisplayControl < 256 ∧ (sampleLCD 2 16 1)._currEntryModeSet < 256 ∧
    (begin hd44780 (sampleLCD 2 16 1) 0x3e 0).lcd._currDisplayControl.testBit
      hd44780.BIT_DISPLAY_CONTROL_DISPLAY = true ∧
    (begin hd44780 (sampleLCD 2 16 1) 0x3e 0).lcd._currEntryModeSet.testBit
      hd44780.BIT_ENTRY_MODE_INCREMENT = true ∧
    (begin hd44780 (sampleLCD 4 20 3) 0x27 1).lcd._currDisplayControl =
      (begin hd44780 (sampleLCD 2 16 1) 0x3e 0).lcd._currDisplayControl :=
  ⟨by decide, by decide, by decide, by decide,
    (begin_shadow_state hd44780 (sampleLCD 2 16 1) (sampleLCD 4 20 3) 0x3e 0 0x27 1
      (by decide) (by decide) (by decide) (by decide)).1,
    (begin_shadow_state hd44780 (sampleLCD 2 16 1) (sampleLCD 4 20 3) 0x3e 0 0x27 1
      (by decide) (by decide) (by decide) (by decide)).2.1,
    ((begin_shadow_state hd44780 (sampleLCD 2 16 1) (sampleLCD 4 20 3) 0x3e 0 0x27 1
      (by decide) (by decide) (by decide) (by decide)).2.2.2.2 rfl rfl).1⟩

/-! ## Facts about instruction decoding -/

theorem stripBits_cons (b : Nat) (bs : List Nat) (v : Nat) :
    stripBits (b :: bs) v = stripBits bs (clearMask v (1 <<< b)) := rfl

theorem testBit_stripBits (bits : List Nat) : ∀ (v j : Nat), j < 8 →
    (stripBits bits v).testBit j = (v.testBit j && !decide (j ∈ bits)) := by
  induction bits with
  | nil => intro v j _; simp [stripBits]
  | cons b bs ih =>
    intro v j hj
    rw [stripBits_cons, ih _ _ hj, testBit_clearMask _ _ _ hj]
    by_cases hb : b = j
    · subst hb; simp
    · have : ¬ j = b := fun h => hb h.symm
      simp [hb, this]

theorem stripBits_lt (bits : List Nat) : ∀ v, v < 256 → stripBits bits v < 256 := by
  induction bits with
  | nil => intro v hv; exact hv
  | cons b bs ih => intro v _; rw [stripBits_cons]; exact ih _ (clearMask_lt _ _)

theorem testBit_zero_nat (j : Nat) : (0 : Nat).testBit j = false := by simp

/-- A byte holds nothing but the flags `bits` exactly when every other bit of
it is clear. -/
theorem stripBits_eq_zero_iff (bits : List Nat) (v : Nat) (hv : v < 256) :
    stripBits bits v = 0 ↔ ∀ j, j < 8 → j ∉ bits → v.testBit j = false := by
  constructor
  · intro h0 j hj hn
    have := testBit_stripBits bits v j hj
    rw [h0, testBit_zero_nat] at this
    simpa [hn] using this.symm
  · intro hall
    apply byte_ext _ _ (stripBits_lt bits v hv) (by norm_num)
    intro j hj
    rw [testBit_stripBits bits v j hj, testBit_zero_nat]
    by_cases hm : j ∈ bits
    · simp [hm]
    · simp [hall j hj hm]

/-- A command code combined with nothing but its flags decodes as that code. -/
theorem stripBits_code_or (bits : List Nat) (code x : Nat)
    (hcode : ∀ b ∈ bits, b < 8 ∧ code.testBit b = false) (hx : x < 256)
    (h0 : stripBits bits x = 0) :
    stripBits bits ((code ||| x) % 256) = code % 256 := by
  have hall := (stripBits_eq_zero_iff bits x hx).mp h0
  apply byte_ext _ _ (stripBits_lt bits _ (Nat.mod_lt _ (by norm_num))) (Nat.mod_lt _ (by norm_num))
  intro j hj
  rw [testBit_stripBits bits _ j hj, testBit_mod_256 _ _ hj, testBit_mod_256 _ _ hj,
    Nat.testBit_or]
  by_cases hm : j ∈ bits
  · simp [hm, (hcode j hm).2]
  · simp [hm, hall j hj hm]

theorem stripBits_setMask (bits : List Nat) (x b : Nat) (hb : b ∈ bits) (hx : x < 256)
    (h0 : stripBits bits x = 0) : stripBits bits (setMask x (1 <<< b)) = 0 := by
  have hall := (stripBits_eq_zero_iff bits x hx).mp h0
  rw [stripBits_eq_zero_iff bits _ (setMask_lt _ _)]
  intro j hj hn
  rw [testBit_setMask _ _ _ hj, hall j hj hn]
  have : b ≠ j := fun h => hn (h ▸ hb)
  simp [this]

theorem stripBits_clearMask (bits : List Nat) (x b : Nat) (hx : x < 256)
    (h0 : stripBits bits x = 0) : stripBits bits (clearMask x (1 <<< b)) = 0 := by
  have hall := (stripBits_eq_zero_iff bits x hx).mp h0
  rw [stripBits_eq_zero_iff bits _ (clearMask_lt _ _)]
  intro j hj hn
  rw [testBit_clearMask _ _ _ hj, hall j hj hn]
  simp

/-! ## Facts about sequences of calls -/

theorem emits_transactions {es : List Event} {T : List (List Nat)} (he : Emits es T) :
    transactions es = T := by
  have := he []
  rwa [List.append_nil, transactions_nil, List.append_nil] at this

theorem emits_nil : Emits [] [] := fun _ => rfl

theorem emits_append {a b : List Event} {Ta Tb : List (List Nat)} (ha : Emits a Ta)
    (hb : Emits b Tb) : Emits (a ++ b) (Ta ++ Tb) := by
  intro rest
  rw [List.append_assoc, ha, hb, List.append_assoc]

theorem emits_deviceWrite (w a : Nat) (data : List Nat) :
    Emits (deviceWriteEvents w a data) [data] :=
  fun rest => transactions_deviceWrite w a data rest

theorem emits_command (s : LCD) (v : Nat) : Emits (command s v).events [[0x80, v % 256]] :=
  fun rest => transactions_command s v rest

theorem emits_write (s : LCD) (v : Nat) : Emits (write s v).events [[0x40, v % 256]] :=
  fun rest => transactions_deviceWrite _ _ _ rest

theorem emits_delay (n : Nat) : Emits [Event.delay n] [] := fun _ => rfl

theorem emits_delayMicroseconds (n : Nat) : Emits [Event.delayMicroseconds n] [] := fun _ => rfl

theorem emits_wireBegin (w : Nat) : Emits [Event.wireBegin w] [] := fun _ => rfl

theorem emits_repeat_write (v n : Nat) (s : LCD) :
    Emits (repeatStep (fun s => write s v) n s).events (List.replicate n [0x40, v % 256]) :=
  fun rest => transactions_repeat_write v n s rest

theorem commandBytes_append (a b : List (List Nat)) :
    commandBytes (a ++ b) = commandBytes a ++ commandBytes b := by
  simp [commandBytes]

theorem commandBytes_replicate_data (n v : Nat) :
    commandBytes (List.replicate n [0x40, v]) = [] := by
  induction n with
  | zero => rfl
  | succ k ih => rw [List.replicate_succ, commandBytes_cons_data, ih]

/-- The last command of a kind after more events: the last one among the new
events if there is one, else the last one before. -/
theorem lastCommand_append (p : Nat → Bool) {pre es : List Event} {Tpre T : List (List Nat)}
    (hpre : Emits pre Tpre) (hes : Emits es T) :
    ((commandBytes (transactions (pre ++ es))).filter p).getLast? =
      (((commandBytes T).filter p).getLast?).or
        (((commandBytes (transactions pre)).filter p).getLast?) := by
  rw [hpre es, emits_transactions hes, emits_transactions hpre, commandBytes_append,
    List.filter_append, List.getLast?_append]

theorem isEntryModeSet_eq (h : Header) (v : Nat) :
    isEntryModeSet h v = (stripBits h.entryModeBits v == h.CMD_ENTRY_MODE_SET % 256) := rfl

theorem flagsOnly_congr (h : Header) (s r : LCD)
    (hdc : r._currDisplayControl = s._currDisplayControl)
    (hem : r._currEntryModeSet = s._currEntryModeSet) (hs : s.FlagsOnly h) : r.FlagsOnly h := by
  unfold LCD.FlagsOnly at hs ⊢
  rw [hdc, hem]; exact hs

theorem filter_eq_nil_of_forall (p : Nat → Bool) (l : List Nat) (hl : ∀ v ∈ l, p v = false) :
    l.filter p = [] := by
  rw [List.filter_eq_nil_iff]
  intro v hv
  rw [hl v hv]; simp

/-- A call that writes no display-control and no entry-mode command and
leaves the shadows alone keeps the invariant. -/
theorem step_neutral (h : Header) {pre : List Event} {s : LCD} {r : Step}
    {T : List (List Nat)} (hinv : Invariant h pre s)
    (hdc : r.lcd._currDisplayControl = s._currDisplayControl)
    (hem : r.lcd._currEntryModeSet = s._currEntryModeSet) (hT : Emits r.events T)
    (hnone : ∀ v ∈ commandBytes T, isDisplayControl h v = false ∧ isEntryModeSet h v = false) :
    Invariant h (pre ++ r.events) r.lcd := by
  obtain ⟨⟨Tpre, hpre⟩, hflags, hd, he⟩ := hinv
  refine ⟨⟨_, emits_append hpre hT⟩, flagsOnly_congr h s r.lcd hdc hem hflags, ?_, ?_⟩
  · unfold lastDisplayControlCommand at hd ⊢
    rw [lastCommand_append _ hpre hT,
      filter_eq_nil_of_forall _ _ (fun v hv => (hnone v hv).1), hd, hdc]
    rfl
  · unfold lastEntryModeCommand at he ⊢
    rw [lastCommand_append _ hpre hT,
      filter_eq_nil_of_forall _ _ (fun v hv => (hnone v hv).2), he, hem]
    rfl

theorem isDisplayControl_shadow (h : Header) (hl : h.CommandLayout) (x : Nat) (hx : x < 256)
    (h0 : stripBits h.displayControlBits x = 0) :
    isDisplayControl h ((h.CMD_DISPLAY_CONTROL ||| x) % 256) = true ∧
    isEntryModeSet h ((h.CMD_DISPLAY_CONTROL ||| x) % 256) = false := by
  have h1 : isDisplayControl h ((h.CMD_DISPLAY_CONTROL ||| x) % 256) = true := by
    unfold isDisplayControl
    rw [stripBits_code_or _ _ _ hl.1 hx h0]
    simp
  exact ⟨h1, hl.2.2.1 _ (Nat.mod_lt _ (by norm_num)) h1⟩

theorem isEntryModeSet_shadow (h : Header) (hl : h.CommandLayout) (x : Nat) (hx : x < 256)
    (h0 : stripBits h.entryModeBits x = 0) :
    isEntryModeSet h ((h.CMD_ENTRY_MODE_SET ||| x) % 256) = true ∧
    isDisplayControl h ((h.CMD_ENTRY_MODE_SET ||| x) % 256) = false := by
  have h1 : isEntryModeSet h ((h.CMD_ENTRY_MODE_SET ||| x) % 256) = true := by
    rw [isEntryModeSet_eq, stripBits_code_or _ _ _ hl.2.1 hx h0]
    simp
  refine ⟨h1, ?_⟩
  cases hd : isDisplayControl h ((h.CMD_ENTRY_MODE_SET ||| x) % 256)
  · rfl
  · have := hl.2.2.1 _ (Nat.mod_lt _ (by norm_num)) hd
    rw [h1] at this
    cases this

/-- A call that sets the display-control shadow to flags and writes it keeps
the invariant. -/
theorem step_displayControl (h : Header) (hl : h.CommandLayout) {pre : List Event} {s : LCD}
    {r : Step} (hinv : Invariant h pre s)
    (hem : r.lcd._currEntryModeSet = s._currEntryModeSet)
    (hx : r.lcd._currDisplayControl < 256)
    (h0 : stripBits h.displayControlBits r.lcd._currDisplayControl = 0)
    (hT : Emits r.events [[0x80, (h.CMD_DISPLAY_CONTROL ||| r.lcd._currDisplayControl) % 256]]) :
    Invariant h (pre ++ r.events) r.lcd := by
  obtain ⟨⟨Tpre, hpre⟩, hflags, hd, he⟩ := hinv
  obtain ⟨h1, h2⟩ := isDisplayControl_shadow h hl _ hx h0
  refine ⟨⟨_, emits_append hpre hT⟩, ⟨hx, by rw [hem]; exact hflags.2.1, h0,
    by rw [hem]; exact hflags.2.2.2⟩, ?_, ?_⟩
  · unfold lastDisplayControlCommand
    rw [lastCommand_append _ hpre hT, commandBytes_cons_command, commandBytes_nil]
    simp [h1]
  · unfold lastEntryModeCommand at he ⊢
    rw [lastCommand_append _ hpre hT, commandBytes_cons_command, commandBytes_nil, he, hem]
    simp [h2]

/-- A call that sets the entry-mode shadow to flags and writes it keeps the
invariant. -/
theorem step_entryMode (h : Header) (hl : h.CommandLayout) {pre : List Event} {s : LCD}
    {r : Step} (hinv : Invariant h pre s)
    (hdc : r.lcd._currDisplayControl = s._currDisplayControl)
    (hx : r.lcd._currEntryModeSet < 256)
    (h0 : stripBits h.entryModeBits r.lcd._currEntryModeSet = 0)
    (hT : Emits r.events [[0x80, (h.CMD_ENTRY_MODE_SET ||| r.lcd._currEntryModeSet) % 256]]) :
    Invariant h (pre ++ r.events) r.lcd := by
  obtain ⟨⟨Tpre, hpre⟩, hflags, hd, he⟩ := hinv
  obtain ⟨h1, h2⟩ := isEntryModeSet_shadow h hl _ hx h0
  refine ⟨⟨_, emits_append hpre hT⟩, ⟨by rw [hdc]; exact hflags.1, hx,
    by rw [hdc]; exact hflags.2.2.1, h0⟩, ?_, ?_⟩
  · unfold lastDisplayControlCommand at hd ⊢
    rw [lastCommand_append _ hpre hT, commandBytes_cons_command, commandBytes_nil, hd, hdc]
    simp [h2]
  · unfold lastEntryModeCommand
    rw [lastCommand_append _ hpre hT, commandBytes_cons_command, commandBytes_nil]
    simp [h1]

theorem emits_begin (h : Header) (s : LCD) (a w : Nat) :
    Emits (begin h s a w).events
      [[0x80, (h.CMD_FUNCTION_SET ||| functionSet h s) % 256],
       [0x80, (h.CMD_FUNCTION_SET ||| functionSet h s) % 256],
       [0x80, (h.CMD_FUNCTION_SET ||| functionSet h s) % 256],
       [0x80, (h.CMD_DISPLAY_CONTROL ||| (begin h s a w).lcd._currDisplayControl) % 256],
       [0x80, h.CMD_CLEAR_DISPLAY % 256],
       [0x80, (h.CMD_ENTRY_MODE_SET ||| (begin h s a w).lcd._currEntryModeSet) % 256]] := by
  intro rest
  rw [displayControl_after_begin, entryMode_after_begin]
  unfold begin
  simp only [andThen_events, andThen_lcd, command_lcd, List.append_assoc, List.cons_append,
    List.nil_append, turnOn, clear, setTextInsertionMode, reduceCtorEq, if_false]
  rw [transactions_skip_wireBegin, transactions_skip_delay, transactions_command,
    transactions_skip_delay, transactions_command, transactions_skip_delayMicroseconds,
    transactions_command, transactions_command, transactions_command,
    transactions_skip_delayMicroseconds, transactions_command]
  rfl

theorem emits_enable (h : Header) (s : LCD) :
    Emits (setProgressBarEnabled h s true).events
      ([0x80, (h.CMD_ENTRY_MODE_SET |||
          clearMask s._currEntryModeSet (1 <<< h.BIT_ENTRY_MODE_AUTOINCREMENT)) % 256] ::
      [0x80, h.CMD_RETURN_HOME % 256] ::
      [0x80, (h.CMD_ENTRY_MODE_SET |||
          (setProgressBarEnabled h s true).lcd._currEntryModeSet) % 256] ::
      progressBarUploads h) := by
  intro rest
  rw [entryMode_after_enable]
  simp only [setProgressBarEnabled, initProgressBar, if_true, andThen_events, andThen_lcd,
    setCustomSymbol_lcd, returnHome_lcd, List.append_assoc, setAutoScrollEnabled,
    setTextInsertionMode, command_lcd, reduceCtorEq, if_false, Bool.false_eq_true]
  rw [transactions_command, transactions_returnHome, transactions_command,
    transactions_setCustomSymbol, transactions_setCustomSymbol, transactions_setCustomSymbol,
    transactions_setCustomSymbol, transactions_setCustomSymbol]
  simp [progressBarUploads]

theorem emits_partialGlyph (h : Header) (r : Int) (b : Nat) (s : LCD) :
    ∃ D, Emits (match (partialGlyph h r b).1 with
      | some g => printCustomSymbol s g
      | none => (⟨s, []⟩ : Step)).events D ∧ commandBytes D = [] := by
  unfold partialGlyph
  split_ifs
  · exact ⟨_, emits_write s _, by rw [commandBytes_cons_data]; rfl⟩
  · exact ⟨_, emits_write s _, by rw [commandBytes_cons_data]; rfl⟩
  · exact ⟨_, emits_write s _, by rw [commandBytes_cons_data]; rfl⟩
  · exact ⟨_, emits_write s _, by rw [commandBytes_cons_data]; rfl⟩
  · exact ⟨[], emits_nil, rfl⟩

/-- The transactions of `drawProgress` for any bar count: the cursor command
and then data transactions only. -/
theorem emits_drawProgress (h : Header) (s : LCD) (n : Int) :
    ∃ D, Emits (drawProgress h s n).events (barCursorTransaction s :: D) ∧
      commandBytes D = [] := by
  obtain ⟨P, hP, hPc⟩ := emits_partialGlyph h (Int.tmod n 5)
    ((((s._colCount : Int) - Int.tdiv n 5) % 256).toNat) s
  refine ⟨List.replicate (Int.tdiv n 5).toNat [0x40, h.CUSTOM_SYMBOL_8 % 256] ++ (P ++
    List.replicate (partialGlyph h (Int.tmod n 5)
      ((((s._colCount : Int) - Int.tdiv n 5) % 256).toNat)).2 [0x40, 0x20 % 256]), ?_, ?_⟩
  · unfold drawProgress
    simp only [andThen_events, andThen_lcd, setCursorPosition_lcd]
    rw [repeatStep_lcd _ (fun _ => rfl), partialGlyph_lcd, List.append_assoc, List.append_assoc]
    have hc : Emits (setCursorPosition s s._progressBarRow 0).events [barCursorTransaction s] := by
      rw [show (setCursorPosition s s._progressBarRow 0).events =
        deviceWriteEvents s._wire s._deviceAddress (barCursorTransaction s) by
          simp [setCursorPosition, deviceWrite, barCursorTransaction]]
      exact emits_deviceWrite _ _ _
    exact emits_append hc (emits_append (emits_repeat_write _ _ s)
      (emits_append hP (emits_repeat_write 0x20 _ s)))
  · rw [commandBytes_append, commandBytes_append, commandBytes_replicate_data, hPc,
      commandBytes_replicate_data]
    rfl

theorem mem_displayControlBits (h : Header) :
    h.BIT_DISPLAY_CONTROL_DISPLAY ∈ h.displayControlBits ∧
    h.BIT_DISPLAY_CONTROL_CURSOR ∈ h.displayControlBits ∧
    h.BIT_DISPLAY_CONTROL_CURSOR_BLINKING ∈ h.displayControlBits := by
  simp [Header.displayControlBits]

theorem mem_entryModeBits (h : Header) :
    h.BIT_ENTRY_MODE_INCREMENT ∈ h.entryModeBits ∧
    h.BIT_ENTRY_MODE_AUTOINCREMENT ∈ h.entryModeBits := by
  simp [Header.entryModeBits]

theorem getLast_filter_fourth (p : Nat → Bool) (F D C E : Nat) (hD : p D = true)
    (hC : p C = false) (hE : p E = false) :
    (List.filter p [F, F, F, D, C, E]).getLast? = some D := by
  cases hF : p F <;> simp [List.filter, hF, hD, hC, hE]

theorem getLast_filter_sixth (p : Nat → Bool) (F D C E : Nat) (hE : p E = true) :
    (List.filter p [F, F, F, D, C, E]).getLast? = some E := by
  cases hF : p F <;> cases hD : p D <;> cases hC : p C <;> simp [List.filter, hF, hD, hC, hE]

theorem step_begin (h : Header) (hl : h.CommandLayout) {pre : List Event} {s : LCD}
    (a w : Nat) (hpre : ∃ T, Emits pre T) (hflags : s.FlagsOnly h) :
    Invariant h (pre ++ (begin h s a w).events) (begin h s a w).lcd := by
  obtain ⟨Tpre, hpre⟩ := hpre
  have hT := emits_begin h s a w
  have hdcx : (begin h s a w).lcd._currDisplayControl < 256 := by
    rw [displayControl_after_begin]; exact setMask_lt _ _
  have hemx : (begin h s a w).lcd._currEntryModeSet < 256 := by
    rw [entryMode_after_begin]; exact setMask_lt _ _
  have hdc0 : stripBits h.displayControlBits (begin h s a w).lcd._currDisplayControl = 0 := by
    rw [displayControl_after_begin]
    exact stripBits_setMask _ _ _ (mem_displayControlBits h).1 hflags.1 hflags.2.2.1
  have hem0 : stripBits h.entryModeBits (begin h s a w).lcd._currEntryModeSet = 0 := by
    rw [entryMode_after_begin]
    exact stripBits_setMask _ _ _ (mem_entryModeBits h).1 hflags.2.1 hflags.2.2.2
  obtain ⟨hd1, hd2⟩ := isDisplayControl_shadow h hl _ hdcx hdc0
  obtain ⟨he1, he2⟩ := isEntryModeSet_shadow h hl _ hemx hem0
  have hcl := hl.2.2.2.1 (h.CMD_CLEAR_DISPLAY % 256) (by simp [Header.plainCommands])
  refine ⟨⟨_, emits_append hpre hT⟩, ⟨hdcx, hemx, hdc0, hem0⟩, ?_, ?_⟩
  · unfold lastDisplayControlCommand
    rw [lastCommand_append _ hpre hT]
    simp only [commandBytes_cons_command, commandBytes_nil]
    rw [getLast_filter_fourth _ _ _ _ _ hd1 hcl.1 he2]
    rfl
  · unfold lastEntryModeCommand
    rw [lastCommand_append _ hpre hT]
    simp only [commandBytes_cons_command, commandBytes_nil]
    rw [getLast_filter_sixth _ _ _ _ _ he1]
    rfl

theorem step_enable (h : Header) (hl : h.CommandLayout) {pre : List Event} {s : LCD}
    (hinv : Invariant h pre s) :
    Invariant h (pre ++ (setProgressBarEnabled h s true).events)
      (setProgressBarEnabled h s true).lcd := by
  obtain ⟨⟨Tpre, hpre⟩, hflags, hd, he⟩ := hinv
  have hT := emits_enable h s
  have hdc : (setProgressBarEnabled h s true).lcd._currDisplayControl = s._currDisplayControl := by
    simp [setProgressBarEnabled, initProgressBar, setAutoScrollEnabled, setTextInsertionMode]
  have h1x : clearMask s._currEntryModeSet (1 <<< h.BIT_ENTRY_MODE_AUTOINCREMENT) < 256 :=
    clearMask_lt _ _
  have h10 : stripBits h.entryModeBits
      (clearMask s._currEntryModeSet (1 <<< h.BIT_ENTRY_MODE_AUTOINCREMENT)) = 0 :=
    stripBits_clearMask _ _ _ hflags.2.1 hflags.2.2.2
  have hemx : (setProgressBarEnabled h s true).lcd._currEntryModeSet < 256 := by
    rw [entryMode_after_enable]; exact setMask_lt _ _
  have hem0 : stripBits h.entryModeBits (setProgressBarEnabled h s true).lcd._currEntryModeSet
      = 0 := by
    rw [entryMode_after_enable]
    exact stripBits_setMask _ _ _ (mem_entryModeBits h).1 h1x h10
  obtain ⟨ha1, ha2⟩ := isEntryModeSet_shadow h hl _ h1x h10
  obtain ⟨he1, he2⟩ := isEntryModeSet_shadow h hl _ hemx hem0
  have hrh := hl.2.2.2.1 (h.CMD_RETURN_HOME % 256) (by simp [Header.plainCommands])
  have hup : ∀ v ∈ commandBytes (progressBarUploads h),
      isDisplayControl h v = false ∧ isEntryModeSet h v = false := by
    intro v hv
    rw [commandBytes_progressBarUploads, List.mem_map] at hv
    obtain ⟨sym, _, rfl⟩ := hv
    exact hl.2.2.2.2.2 (sym % 256) (Nat.mod_lt _ (by norm_num))
  refine ⟨⟨_, emits_append hpre hT⟩, ⟨by rw [hdc]; exact hflags.1, hemx,
    by rw [hdc]; exact hflags.2.2.1, hem0⟩, ?_, ?_⟩
  · unfold lastDisplayControlCommand at hd ⊢
    rw [lastCommand_append _ hpre hT, hd, hdc]
    simp only [commandBytes_cons_command]
    rw [List.filter_cons_of_neg (by rw [ha2]; simp),
      List.filter_cons_of_neg (by rw [hrh.1]; simp),
      List.filter_cons_of_neg (by rw [he2]; simp),
      filter_eq_nil_of_forall _ _ (fun v hv => (hup v hv).1)]
    rfl
  · unfold lastEntryModeCommand
    rw [lastCommand_append _ hpre hT]
    simp only [commandBytes_cons_command]
    rw [List.filter_cons_of_pos ha1, List.filter_cons_of_neg (by rw [hrh.2]; simp),
      List.filter_cons_of_pos he1, filter_eq_nil_of_forall _ _ (fun v hv => (hup v hv).2)]
    rfl

theorem plain_not_flag (h : Header) (hl : h.CommandLayout) (v : Nat)
    (hv : v ∈ h.plainCommands) :
    ∀ x ∈ commandBytes [[0x80, v]], isDisplayControl h x = false ∧ isEntryModeSet h x = false := by
  intro x hx
  rw [commandBytes_cons_command, commandBytes_nil, List.mem_singleton] at hx
  subst hx
  exact hl.2.2.2.1 _ hv

theorem no_commands (h : Header) (T : List (List Nat)) (hT : commandBytes T = []) :
    ∀ x ∈ commandBytes T, isDisplayControl h x = false ∧ isEntryModeSet h x = false := by
  intro x hx
  rw [hT] at hx
  cases hx

/-- Every call keeps the invariant. -/
theorem step_op (h : Header) (hl : h.CommandLayout) (op : Op) {pre : List Event} {s : LCD}
    {r : Step} (hinv : Invariant h pre s) (hrun : op.run h s = some r) :
    Invariant h (pre ++ r.events) r.lcd := by
  have hflags := hinv.2.1
  cases op with
  | begin a w =>
    cases hrun
    exact step_begin h hl a w hinv.1 hflags
  | turnOn =>
    cases hrun
    exact step_displayControl h hl hinv rfl (setMask_lt _ _)
      (stripBits_setMask _ _ _ (mem_displayControlBits h).1 hflags.1 hflags.2.2.1)
      (emits_command _ _)
  | turnOff =>
    cases hrun
    exact step_displayControl h hl hinv rfl (clearMask_lt _ _)
      (stripBits_clearMask _ _ _ hflags.1 hflags.2.2.1) (emits_command _ _)
  | clear =>
    cases hrun
    refine step_neutral h hinv rfl rfl
      (emits_append (emits_command _ _) (emits_delayMicroseconds 1700)) ?_
    rw [List.append_nil]
    exact plain_not_flag h hl _ (by simp [Header.plainCommands])
  | returnHome =>
    cases hrun
    refine step_neutral h hinv rfl rfl
      (emits_append (emits_command _ _) (emits_delayMicroseconds 1700)) ?_
    rw [List.append_nil]
    exact plain_not_flag h hl _ (by simp [Header.plainCommands])
  | setAutoScrollEnabled b =>
    cases hrun
    cases b
    · exact step_entryMode h hl hinv rfl (clearMask_lt _ _)
        (stripBits_clearMask _ _ _ hflags.2.1 hflags.2.2.2) (emits_command _ _)
    · exact step_entryMode h hl hinv rfl (setMask_lt _ _)
        (stripBits_setMask _ _ _ (mem_entryModeBits h).2 hflags.2.1 hflags.2.2.2)
        (emits_command _ _)
  | setCursorBlinkingEnabled b =>
    cases hrun
    cases b
    · exact step_displayControl h hl hinv rfl (clearMask_lt _ _)
        (stripBits_clearMask _ _ _ hflags.1 hflags.2.2.1) (emits_command _ _)
    · exact step_displayControl h hl hinv rfl (setMask_lt _ _)
        (stripBits_setMask _ _ _ (mem_displayControlBits h).2.2 hflags.1 hflags.2.2.1)
        (emits_command _ _)
  | setCursorVisible b =>
    cases hrun
    cases b
    · exact step_displayControl h hl hinv rfl (clearMask_lt _ _)
        (stripBits_clearMask _ _ _ hflags.1 hflags.2.2.1) (emits_command _ _)
    · exact step_displayControl h hl hinv rfl (setMask_lt _ _)
        (stripBits_setMask _ _ _ (mem_displayControlBits h).2.1 hflags.1 hflags.2.2.1)
        (emits_command _ _)
  | setCursorPosition row col =>
    cases hrun
    refine step_neutral h hinv rfl rfl (emits_deviceWrite _ _ _) ?_
    intro x hx
    rw [commandBytes_cons_command, commandBytes_nil, List.mem_singleton] at hx
    subst hx
    have := hl.2.2.2.2.1 (col % 256) (Nat.mod_lt _ (by norm_num))
    split
    · exact ⟨this.1, this.2.1⟩
    · exact ⟨this.2.2.1, this.2.2.2⟩
  | setTextInsertionMode m =>
    cases hrun
    cases m
    · exact step_entryMode h hl hinv rfl (setMask_lt _ _)
        (stripBits_setMask _ _ _ (mem_entryModeBits h).1 hflags.2.1 hflags.2.2.2)
        (emits_command _ _)
    · exact step_entryMode h hl hinv rfl (clearMask_lt _ _)
        (stripBits_clearMask _ _ _ hflags.2.1 hflags.2.2.2) (emits_command _ _)
  | moveCursorLeft =>
    cases hrun
    refine step_neutral h hinv rfl rfl (emits_command _ _) ?_
    rw [Nat.mod_eq_of_lt (clearMask_lt _ _)]
    exact plain_not_flag h hl _ (by simp [Header.plainCommands])
  | moveCursorRight =>
    cases hrun
    refine step_neutral h hinv rfl rfl (emits_command _ _) ?_
    rw [Nat.mod_eq_of_lt (setMask_lt _ _)]
    exact plain_not_flag h hl _ (by simp [Header.plainCommands])
  | scrollDisplayLeft =>
    cases hrun
    refine step_neutral h hinv rfl rfl (emits_command _ _) ?_
    rw [Nat.mod_eq_of_lt (clearMask_lt _ _)]
    exact plain_not_flag h hl _ (by simp [Header.plainCommands])
  | scrollDisplayRight =>
    cases hrun
    refine step_neutral h hinv rfl rfl (emits_command _ _) ?_
    rw [Nat.mod_eq_of_lt (setMask_lt _ _)]
    exact plain_not_flag h hl _ (by simp [Header.plainCommands])
  | setCustomSymbol c m =>
    cases hrun
    refine step_neutral h hinv rfl rfl
      (fun rest => transactions_setCustomSymbol h s c m rest) ?_
    intro x hx
    rw [glyphUpload, commandBytes_cons_command, commandBytes_cons_data, commandBytes_nil,
      List.mem_singleton] at hx
    subst hx
    exact hl.2.2.2.2.2 (c % 256) (Nat.mod_lt _ (by norm_num))
  | printCustomSymbol c =>
    cases hrun
    exact step_neutral h hinv rfl rfl (emits_write s c)
      (no_commands h _ (by rw [commandBytes_cons_data]; rfl))
  | setProgressBarEnabled b =>
    cases hrun
    cases b
    · exact step_neutral h (r := setProgressBarEnabled h s false) hinv rfl rfl emits_nil
        (no_commands h _ rfl)
    · exact step_enable h hl hinv
  | setProgressBarRow row =>
    cases hrun
    exact step_neutral h (r := setProgressBarRow s row) hinv rfl rfl emits_nil
      (no_commands h _ rfl)
  | setProgress p =>
    have hlcd := setProgress_lcd h s p r hrun
    simp only [Op.run, setProgress] at hrun
    split at hrun
    · cases hrun
      exact step_neutral h (r := ⟨s, []⟩) hinv rfl rfl emits_nil (no_commands h _ rfl)
    · split at hrun
      · cases hrun
      · cases hrun
        rename_i n _
        obtain ⟨D, hD, hDc⟩ := emits_drawProgress h s n
        refine step_neutral h hinv (by rw [hlcd]) (by rw [hlcd]) hD ?_
        intro x hx
        rw [barCursorTransaction, commandBytes_cons_command, hDc, List.mem_singleton] at hx
        subst hx
        have := hl.2.2.2.2.1 0 (by norm_num)
        split
        · exact ⟨this.1, this.2.1⟩
        · exact ⟨this.2.2.1, this.2.2.2⟩
  | write v =>
    cases hrun
    exact step_neutral h hinv rfl rfl (emits_write s v)
      (no_commands h _ (by rw [commandBytes_cons_data]; rfl))

/-- Every sequence of calls keeps the invariant. -/
theorem runOps_invariant (h : Header) (hl : h.CommandLayout) (ops : List Op) :
    ∀ (pre : List Event) (s : LCD) (r : Step), Invariant h pre s → runOps h ops s = some r →
      Invariant h (pre ++ r.events) r.lcd := by
  induction ops with
  | nil =>
    intro pre s r hinv hrun
    simp only [runOps, Option.some.injEq] at hrun
    subst hrun
    simpa using hinv
  | cons op ops ih =>
    intro pre s r hinv hrun
    simp only [runOps] at hrun
    split at hrun
    · cases hrun
    · rename_i r1 h1
      split at hrun
      · cases hrun
      · rename_i r2 h2
        cases hrun
        have := ih (pre ++ r1.events) r1.lcd r2 (step_op h hl op hinv h1) h2
        simpa [List.append_assoc] using this

theorem op_colCount (h : Header) (op : Op) (s : LCD) (r : Step) (hrun : op.run h s = some r) :
    r.lcd._colCount = s._colCount := by
  cases op with
  | setProgress p => rw [setProgress_lcd h s p r hrun]
  | setProgressBarEnabled b =>
    cases hrun
    cases b
    · rfl
    · exact colCount_after_enable h s
  | begin a w =>
    cases hrun
    simp [begin, turnOn, clear, setTextInsertionMode]
  | _ => cases hrun; rfl

theorem op_defined (h : Header) (op : Op) (s : LCD) (hop : op.isProgressNaN = false)
    (hcol : s._colCount < 256) : ∃ r, op.run h s = some r := by
  cases op with
  | setProgress p =>
    have hp : p ≠ Float32.nan := by
      intro hp; subst hp; simp [Op.isProgressNaN] at hop
    cases hen : s._progressBarEnabled
    · exact ⟨⟨s, []⟩, by simp [Op.run, setProgress, hen]⟩
    · obtain ⟨n, _, _, hset⟩ := setProgress_shape h s p hcol hen hp
      exact ⟨_, hset⟩
  | _ => exact ⟨_, rfl⟩

/-- A sequence of calls without a `setProgress(NaN)` returns. -/
theorem runOps_defined (h : Header) (ops : List Op) :
    ∀ s : LCD, (∀ op ∈ ops, op.isProgressNaN = false) → s._colCount < 256 →
      ∃ r, runOps h ops s = some r := by
  induction ops with
  | nil => intro s _ _; exact ⟨_, rfl⟩
  | cons op ops ih =>
    intro s hops hcol
    obtain ⟨r1, h1⟩ := op_defined h op s (hops op (List.mem_cons_self _ _)) hcol
    obtain ⟨r2, h2⟩ := ih r1.lcd (fun o ho => hops o (List.mem_cons_of_mem _ ho))
      (by rw [op_colCount h op s r1 h1]; exact hcol)
    exact ⟨⟨r2.lcd, r1.events ++ r2.events⟩, by simp [runOps, h1, h2]⟩

theorem stripBits_zero (bits : List Nat) : stripBits bits 0 = 0 := by
  rw [stripBits_eq_zero_iff bits 0 (by norm_num)]
  intro j _ _
  exact testBit_zero_nat j

theorem mem_functionSetBits (h : Header) :
    h.BIT_FUNCTION_SET_BITMODE ∈ h.functionSetBits ∧
    h.BIT_FUNCTION_SET_LINECOUNT ∈ h.functionSetBits ∧
    h.BIT_FUNCTION_SET_FONTSIZE ∈ h.functionSetBits := by
  simp [Header.functionSetBits]

theorem functionSet_flagsOnly (h : Header) (s : LCD) :
    functionSet h s < 256 ∧ stripBits h.functionSetBits (functionSet h s) = 0 := by
  have key : ∀ (c : Prop) [Decidable c] (x b : Nat), b ∈ h.functionSetBits →
      (x < 256 ∧ stripBits h.functionSetBits x = 0) →
      ((if c then setMask x (1 <<< b) else x) < 256 ∧
        stripBits h.functionSetBits (if c then setMask x (1 <<< b) else x) = 0) := by
    intro c _ x b hb hx
    split
    · exact ⟨setMask_lt _ _, stripBits_setMask _ _ _ hb hx.1 hx.2⟩
    · exact hx
  unfold functionSet
  exact key _ _ _ (mem_functionSetBits h).2.2
    (key _ _ _ (mem_functionSetBits h).2.1
      (key _ _ _ (mem_functionSetBits h).1 ⟨by norm_num, stripBits_zero _⟩))

/-- C15: the events of `begin`, after the bus is bound, are exactly: a wait of
50 ms, the function-set command, a wait of 5 ms, the same command, a wait of
500 microseconds, the same command a third time, the display-control command
with the shadow in which the display-on bit was set, the clear-display command
and the entry-mode command with the shadow in which the left-to-right bit was
set. Each command is the transaction of `0x80` and its byte followed by 50
microseconds, and the clear by 1700 more. The function-set byte is the same
in its three issues, and with distinguishable command codes and shadows that
hold nothing but flags it is issued exactly three times. -/
theorem begin_event_trace (h : Header) (s : LCD) (a w : Nat) :
    (begin h s a w).events =
      [Event.wireBegin w, Event.delay 50] ++
      commandEvents w (a % 256) ((h.CMD_FUNCTION_SET ||| functionSet h s) % 256) ++
      [Event.delay 5] ++
      commandEvents w (a % 256) ((h.CMD_FUNCTION_SET ||| functionSet h s) % 256) ++
      [Event.delayMicroseconds 500] ++
      commandEvents w (a % 256) ((h.CMD_FUNCTION_SET ||| functionSet h s) % 256) ++
      commandEvents w (a % 256)
        ((h.CMD_DISPLAY_CONTROL ||| (begin h s a w).lcd._currDisplayControl) % 256) ++
      commandEvents w (a % 256) (h.CMD_CLEAR_DISPLAY % 256) ++
      [Event.delayMicroseconds 1700] ++
      commandEvents w (a % 256)
        ((h.CMD_ENTRY_MODE_SET ||| (begin h s a w).lcd._currEntryModeSet) % 256) ∧
    settledTransactions (begin h s a w).events =
      [([0x80, (h.CMD_FUNCTION_SET ||| functionSet h s) % 256], 5050),
       ([0x80, (h.CMD_FUNCTION_SET ||| functionSet h s) % 256], 550),
       ([0x80, (h.CMD_FUNCTION_SET ||| functionSet h s) % 256], 50),
       ([0x80, (h.CMD_DISPLAY_CONTROL ||| (begin h s a w).lcd._currDisplayControl) % 256], 50),
       ([0x80, h.CMD_CLEAR_DISPLAY % 256], 1750),
       ([0x80, (h.CMD_ENTRY_MODE_SET ||| (begin h s a w).lcd._currEntryModeSet) % 256], 50)] ∧
    (h.BIT_DISPLAY_CONTROL_DISPLAY < 8 →
      ((h.CMD_DISPLAY_CONTROL ||| (begin h s a w).lcd._currDisplayControl) % 256).testBit
        h.BIT_DISPLAY_CONTROL_DISPLAY = true) ∧
    (h.BIT_ENTRY_MODE_INCREMENT < 8 →
      ((h.CMD_ENTRY_MODE_SET ||| (begin h s a w).lcd._currEntryModeSet) % 256).testBit
        h.BIT_ENTRY_MODE_INCREMENT = true) ∧
    (h.CommandLayout → h.InitLayout → s.FlagsOnly h →
      (commandBytes (transactions (begin h s a w).events)).filter (isFunctionSet h) =
        List.replicate 3 ((h.CMD_FUNCTION_SET ||| functionSet h s) % 256)) := by
  refine ⟨rfl, rfl, ?_, ?_, ?_⟩
  · intro hD
    rw [testBit_mod_256 _ _ hD, Nat.testBit_or, displayControl_after_begin,
      testBit_setMask _ _ _ hD]
    simp
  · intro hI
    rw [testBit_mod_256 _ _ hI, Nat.testBit_or, entryMode_after_begin,
      testBit_setMask _ _ _ hI]
    simp
  · intro hl hi hflags
    have hinv : Invariant h ([] ++ (begin h s a w).events) (begin h s a w).lcd :=
      step_begin h hl a w ⟨[], emits_nil⟩ hflags
    have hfl := hinv.2.1
    obtain ⟨hd1, _⟩ := isDisplayControl_shadow h hl _ hfl.1 hfl.2.2.1
    obtain ⟨he1, _⟩ := isEntryModeSet_shadow h hl _ hfl.2.1 hfl.2.2.2
    obtain ⟨hf1, hf2⟩ := functionSet_flagsOnly h s
    have hF : isFunctionSet h ((h.CMD_FUNCTION_SET ||| functionSet h s) % 256) = true := by
      unfold isFunctionSet
      rw [stripBits_code_or _ _ _ hi.1 hf1 hf2]
      simp
    have hnd : isFunctionSet h
        ((h.CMD_DISPLAY_CONTROL ||| (begin h s a w).lcd._currDisplayControl) % 256) = false := by
      cases hc : isFunctionSet h
        ((h.CMD_DISPLAY_CONTROL ||| (begin h s a w).lcd._currDisplayControl) % 256)
      · rfl
      · have := (hi.2.1 _ (Nat.mod_lt _ (by norm_num)) hc).1
        rw [hd1] at this
        cases this
    have hne : isFunctionSet h
        ((h.CMD_ENTRY_MODE_SET ||| (begin h s a w).lcd._currEntryModeSet) % 256) = false := by
      cases hc : isFunctionSet h
        ((h.CMD_ENTRY_MODE_SET ||| (begin h s a w).lcd._currEntryModeSet) % 256)
      · rfl
      · have := (hi.2.1 _ (Nat.mod_lt _ (by norm_num)) hc).2
        rw [he1] at this
        cases this
    rw [emits_transactions (emits_begin h s a w)]
    simp only [commandBytes_cons_command, commandBytes_nil]
    simp [List.filter, hF, hnd, hne, hi.2.2]

set_option maxRecDepth 100000 in
theorem begin_event_trace_witness :
    hd44780.BIT_DISPLAY_CONTROL_DISPLAY < 8 ∧ hd44780.BIT_ENTRY_MODE_INCREMENT < 8 ∧
    hd44780.CommandLayout ∧ hd44780.InitLayout ∧ (sampleLCD 2 16 1).FlagsOnly hd44780 ∧
    transactions (begin hd44780 (sampleLCD 2 16 1) 0x3e 0).events =
      [[0x80, 0x38], [0x80, 0x38], [0x80, 0x38], [0x80, 0x0c], [0x80, 0x01], [0x80, 0x06]] ∧
    ((hd44780.CMD_DISPLAY_CONTROL |||
      (begin hd44780 (sampleLCD 2 16 1) 0x3e 0).lcd._currDisplayControl) % 256).testBit
        hd44780.BIT_DISPLAY_CONTROL_DISPLAY = true ∧
    ((hd44780.CMD_ENTRY_MODE_SET |||
      (begin hd44780 (sampleLCD 2 16 1) 0x3e 0).lcd._currEntryModeSet) % 256).testBit
        hd44780.BIT_ENTRY_MODE_INCREMENT = true ∧
    (commandBytes (transactions (begin hd44780 (sampleLCD 2 16 1) 0x3e 0).events)).filter
        (isFunctionSet hd44780) =
      List.replicate 3 ((hd44780.CMD_FUNCTION_SET |||
        functionSet hd44780 (sampleLCD 2 16 1)) % 256) :=
  ⟨by decide, by decide, by decide, by decide, by decide, by decide,
    (begin_event_trace hd44780 (sampleLCD 2 16 1) 0x3e 0).2.2.1 (by decide),
    (begin_event_trace hd44780 (sampleLCD 2 16 1) 0x3e 0).2.2.2.1 (by decide),
    (begin_event_trace hd44780 (sampleLCD 2 16 1) 0x3e 0).2.2.2.2 (by decide) (by decide)
      (by decide)⟩

/-! ## Monotonicity of the binary32 model -/

/-- The nearest-even rounding is within one half of the fraction, and lands on
an even integer when the fraction is half-way between two integers. -/
theorem roundHalfEven_spec (sn sd : Nat) (hsd : 0 < sd) :
    2 * (sd * roundHalfEven sn sd) ≤ 2 * sn + sd ∧
    2 * sn ≤ 2 * (sd * roundHalfEven sn sd) + sd ∧
    (2 * (sd * roundHalfEven sn sd) = 2 * sn + sd → roundHalfEven sn sd % 2 = 0) ∧
    (2 * sn = 2 * (sd * roundHalfEven sn sd) + sd → roundHalfEven sn sd % 2 = 0) := by
  have hdm := Nat.div_add_mod sn sd
  have hr := Nat.mod_lt sn hsd
  have hmul : sd * (sn / sd + 1) = sd * (sn / sd) + sd := Nat.mul_succ _ _
  unfold roundHalfEven
  simp only
  split
  · refine ⟨by omega, by omega, by omega, by omega⟩
  · split
    · rw [hmul]
      refine ⟨by omega, by omega, by omega, by omega⟩
    · split
      · refine ⟨by omega, by omega, by omega, by omega⟩
      · rw [hmul]
        refine ⟨by omega, by omega, by omega, by omega⟩

theorem roundHalfEven_rat (sn sd : Nat) (hsd : 0 < sd) :
    (roundHalfEven sn sd : ℚ) ≤ (sn : ℚ) / sd + 1 / 2 ∧
    (sn : ℚ) / sd ≤ (roundHalfEven sn sd : ℚ) + 1 / 2 ∧
    ((roundHalfEven sn sd : ℚ) = (sn : ℚ) / sd + 1 / 2 → roundHalfEven sn sd % 2 = 0) ∧
    ((sn : ℚ) / sd = (roundHalfEven sn sd : ℚ) + 1 / 2 → roundHalfEven sn sd % 2 = 0) := by
  obtain ⟨h1, h2, h3, h4⟩ := roundHalfEven_spec sn sd hsd
  have hq : (0 : ℚ) < sd := by exact_mod_cast hsd
  have h1q : (2 : ℚ) * (sd * roundHalfEven sn sd) ≤ 2 * sn + sd := by exact_mod_cast h1
  have h2q : (2 : ℚ) * sn ≤ 2 * (sd * roundHalfEven sn sd) + sd := by exact_mod_cast h2
  refine ⟨?_, ?_, ?_, ?_⟩
  · rw [← sub_le_iff_le_add, le_div_iff₀ hq]
    nlinarith
  · rw [div_le_iff₀ hq]
    nlinarith
  · intro he
    apply h3
    have : (2 : ℚ) * (sd * roundHalfEven sn sd) = 2 * sn + sd := by
      rw [he]; field_simp; ring
    exact_mod_cast this
  · intro he
    apply h4
    have : (2 : ℚ) * sn = 2 * (sd * roundHalfEven sn sd) + sd := by
      have h5 : (sn : ℚ) = ((roundHalfEven sn sd : ℚ) + 1 / 2) * sd := by
        rw [← he]; field_simp
      rw [h5]; ring
    exact_mod_cast this

/-- The nearest-even rounding is monotone in the value of the fraction. -/
theorem roundHalfEven_mono (sn1 sd1 sn2 sd2 : Nat) (h1 : 0 < sd1) (h2 : 0 < sd2)
    (hle : (sn1 : ℚ) / sd1 ≤ (sn2 : ℚ) / sd2) :
    roundHalfEven sn1 sd1 ≤ roundHalfEven sn2 sd2 := by
  obtain ⟨a1, _, a3, _⟩ := roundHalfEven_rat sn1 sd1 h1
  obtain ⟨_, b2, _, b4⟩ := roundHalfEven_rat sn2 sd2 h2
  by_contra hlt
  have hlt' : roundHalfEven sn2 sd2 + 1 ≤ roundHalfEven sn1 sd1 := by omega
  have hq : (roundHalfEven sn2 sd2 : ℚ) + 1 ≤ (roundHalfEven sn1 sd1 : ℚ) := by
    exact_mod_cast hlt'
  have e1 : (roundHalfEven sn1 sd1 : ℚ) = (sn1 : ℚ) / sd1 + 1 / 2 := by linarith
  have e2 : (sn2 : ℚ) / sd2 = (roundHalfEven sn2 sd2 : ℚ) + 1 / 2 := by linarith
  have e3 : (roundHalfEven sn1 sd1 : ℚ) = (roundHalfEven sn2 sd2 : ℚ) + 1 := by linarith
  have e3' : roundHalfEven sn1 sd1 = roundHalfEven sn2 sd2 + 1 := by exact_mod_cast e3
  have p1 := a3 e1
  have p2 := b4 e2
  omega

theorem roundHalfEven_ge (sn sd K : Nat) (hsd : 0 < sd) (h : K * sd ≤ sn) :
    K ≤ roundHalfEven sn sd := by
  have hq : K ≤ sn / sd := (Nat.le_div_iff_mul_le hsd).mpr h
  unfold roundHalfEven
  simp only
  split
  · exact hq
  · split
    · omega
    · split <;> omega

theorem roundToFloat32_fin_inv (neg neg' : Bool) (num den m : Nat) (e : Int) (hn : num ≠ 0)
    (h : roundToFloat32 neg num den = Float32.fin neg' m e) :
    e = max (floorLog2 num den - 23) (-149) ∧
    m = roundHalfEven (num * 2 ^ (-e).toNat) (den * 2 ^ e.toNat) := by
  unfold roundToFloat32 at h
  rw [if_neg hn] at h
  simp only at h
  split at h
  · cases h
  · cases h
    exact ⟨rfl, rfl⟩

/-- The fraction that `roundToFloat32` rounds to an integer significand. -/
theorem scaled_fraction (num den : Nat) (e : Int) :
    ((num * 2 ^ (-e).toNat : Nat) : ℚ) / ((den * 2 ^ e.toNat : Nat) : ℚ) =
      (num : ℚ) / den * 2 ^ (-e) := by
  have := frac_scale num den (-e)
  rw [neg_neg] at this
  exact this

theorem floorLog2_mono (num1 den1 num2 den2 : Nat) (hn1 : num1 ≠ 0) (hd1 : den1 ≠ 0)
    (hn2 : num2 ≠ 0) (hd2 : den2 ≠ 0) (hle : (num1 : ℚ) / den1 ≤ (num2 : ℚ) / den2) :
    floorLog2 num1 den1 ≤ floorLog2 num2 den2 := by
  obtain ⟨hlo, _⟩ := floorLog2_spec num1 den1 hn1 hd1
  obtain ⟨_, hhi⟩ := floorLog2_spec num2 den2 hn2 hd2
  have : (2 : ℚ) ^ floorLog2 num1 den1 < 2 ^ (floorLog2 num2 den2 + 1) :=
    lt_of_le_of_lt (le_trans hlo hle) hhi
  have := (zpow_lt_zpow_iff_right₀ (by norm_num : (1 : ℚ) < 2)).mp this
  omega

/-- Rounding to binary32 is monotone: a larger exact value never rounds to a
smaller magnitude. -/
theorem roundToFloat32_mono (n1 n1' n2 n2' : Bool) (num1 den1 num2 den2 m1 m2 : Nat)
    (e1 e2 : Int) (hd1 : den1 ≠ 0) (hd2 : den2 ≠ 0)
    (hle : (num1 : ℚ) / den1 ≤ (num2 : ℚ) / den2)
    (h1 : roundToFloat32 n1 num1 den1 = Float32.fin n1' m1 e1)
    (h2 : roundToFloat32 n2 num2 den2 = Float32.fin n2' m2 e2) :
    (m1 : ℚ) * 2 ^ e1 ≤ (m2 : ℚ) * 2 ^ e2 := by
  have h2pos : (0 : ℚ) < 2 := by norm_num
  have hd1q : (0 : ℚ) < den1 := by exact_mod_cast Nat.pos_of_ne_zero hd1
  have hd2q : (0 : ℚ) < den2 := by exact_mod_cast Nat.pos_of_ne_zero hd2
  by_cases hn1 : num1 = 0
  · subst hn1
    have : m1 = 0 := by
      unfold roundToFloat32 at h1
      rw [if_pos rfl] at h1
      cases h1; rfl
    subst this
    simp only [Nat.cast_zero, zero_mul]
    positivity
  · have hn2 : num2 ≠ 0 := by
      intro h0
      subst h0
      have hpos : (0 : ℚ) < (num1 : ℚ) / den1 := by
        have : (0 : ℚ) < num1 := by exact_mod_cast Nat.pos_of_ne_zero hn1
        positivity
      simp at hle
      linarith
    obtain ⟨he1, hm1⟩ := roundToFloat32_fin_inv _ _ _ _ _ _ hn1 h1
    obtain ⟨he2, hm2⟩ := roundToFloat32_fin_inv _ _ _ _ _ _ hn2 h2
    have hk := floorLog2_mono num1 den1 num2 den2 hn1 hd1 hn2 hd2 hle
    obtain ⟨hlo1, hhi1⟩ := floorLog2_spec num1 den1 hn1 hd1
    obtain ⟨hlo2, hhi2⟩ := floorLog2_spec num2 den2 hn2 hd2
    have hsd1 : 0 < den1 * 2 ^ e1.toNat := by positivity
    have hsd2 : 0 < den2 * 2 ^ e2.toNat := by positivity
    have hee : e1 ≤ e2 := by omega
    rcases eq_or_lt_of_le hee with heq | hlt
    · -- same exponent: the significands are ordered
      have hs : ((num1 * 2 ^ (-e1).toNat : Nat) : ℚ) / ((den1 * 2 ^ e1.toNat : Nat) : ℚ) ≤
          ((num2 * 2 ^ (-e2).toNat : Nat) : ℚ) / ((den2 * 2 ^ e2.toNat : Nat) : ℚ) := by
        rw [scaled_fraction, scaled_fraction, ← heq]
        exact mul_le_mul_of_nonneg_right hle (le_of_lt (zpow_pos h2pos _))
      have hm := roundHalfEven_mono _ _ _ _ hsd1 hsd2 hs
      rw [← hm1, ← hm2] at hm
      rw [← heq]
      have : (m1 : ℚ) ≤ m2 := by exact_mod_cast hm
      exact mul_le_mul_of_nonneg_right this (le_of_lt (zpow_pos h2pos _))
    · -- smaller exponent: at most 2^24 units against at least 2^23 larger ones
      have hm1le : m1 ≤ 2 ^ 24 := by
        rw [hm1]
        apply roundHalfEven_le _ _ _ hsd1
        have hs : ((num1 * 2 ^ (-e1).toNat : Nat) : ℚ) / ((den1 * 2 ^ e1.toNat : Nat) : ℚ) ≤
            ((2 ^ 24 : Nat) : ℚ) := by
          rw [scaled_fraction]
          calc (num1 : ℚ) / den1 * 2 ^ (-e1)
              ≤ 2 ^ (floorLog2 num1 den1 + 1) * 2 ^ (-e1) :=
                mul_le_mul_of_nonneg_right (le_of_lt hhi1) (le_of_lt (zpow_pos h2pos _))
            _ = 2 ^ (floorLog2 num1 den1 + 1 + -e1) := by rw [← zpow_add₀ (by norm_num)]
            _ ≤ 2 ^ (24 : Int) := zpow_le_zpow_right₀ (by norm_num) (by omega)
            _ = ((2 ^ 24 : Nat) : ℚ) := by norm_num
        have hpos : (0 : ℚ) < ((den1 * 2 ^ e1.toNat : Nat) : ℚ) := by exact_mod_cast hsd1
        rw [div_le_iff₀ hpos] at hs
        exact_mod_cast hs
      have hm2ge : 2 ^ 23 ≤ m2 := by
        rw [hm2]
        apply roundHalfEven_ge _ _ _ hsd2
        have he2' : e2 = floorLog2 num2 den2 - 23 := by omega
        have hs : ((2 ^ 23 : Nat) : ℚ) ≤
            ((num2 * 2 ^ (-e2).toNat : Nat) : ℚ) / ((den2 * 2 ^ e2.toNat : Nat) : ℚ) := by
          rw [scaled_fraction]
          calc ((2 ^ 23 : Nat) : ℚ) = 2 ^ (23 : Int) := by norm_num
            _ = 2 ^ (floorLog2 num2 den2 + -e2) := by congr 1; omega
            _ = 2 ^ floorLog2 num2 den2 * 2 ^ (-e2) := by rw [zpow_add₀ (by norm_num)]
            _ ≤ (num2 : ℚ) / den2 * 2 ^ (-e2) :=
                mul_le_mul_of_nonneg_right hlo2 (le_of_lt (zpow_pos h2pos _))
        have hpos : (0 : ℚ) < ((den2 * 2 ^ e2.toNat : Nat) : ℚ) := by exact_mod_cast hsd2
        rw [le_div_iff₀ hpos] at hs
        exact_mod_cast hs
      have hm1q : (m1 : ℚ) ≤ 2 ^ (24 : Int) := by
        have : (m1 : ℚ) ≤ ((2 ^ 24 : Nat) : ℚ) := by exact_mod_cast hm1le
        rw [show ((2 : ℚ) ^ (24 : Int)) = ((2 ^ 24 : Nat) : ℚ) by norm_num]
        exact this
      have hm2q : (2 : ℚ) ^ (23 : Int) ≤ m2 := by
        have : ((2 ^ 23 : Nat) : ℚ) ≤ (m2 : ℚ) := by exact_mod_cast hm2ge
        rw [show ((2 : ℚ) ^ (23 : Int)) = ((2 ^ 23 : Nat) : ℚ) by norm_num]
        exact this
      calc (m1 : ℚ) * 2 ^ e1 ≤ 2 ^ (24 : Int) * 2 ^ e1 :=
            mul_le_mul_of_nonneg_right hm1q (le_of_lt (zpow_pos h2pos _))
        _ = 2 ^ (24 + e1) := by rw [← zpow_add₀ (by norm_num)]
        _ ≤ 2 ^ (23 + e2) := zpow_le_zpow_right₀ (by norm_num) (by omega)
        _ = 2 ^ (23 : Int) * 2 ^ e2 := by rw [zpow_add₀ (by norm_num)]
        _ ≤ (m2 : ℚ) * 2 ^ e2 :=
            mul_le_mul_of_nonneg_right hm2q (le_of_lt (zpow_pos h2pos _))

theorem scaled_le_iff (A B : Int) (e f : Int) :
    A * 2 ^ (e - f).toNat ≤ B * 2 ^ (f - e).toNat ↔ (A : ℚ) * 2 ^ e ≤ (B : ℚ) * 2 ^ f := by
  have hsplit := two_zpow_split (e - f)
  have hfe : (-(e - f)).toNat = (f - e).toNat := by congr 1; ring
  rw [hfe] at hsplit
  have hp1 : (0 : ℚ) < ((2 ^ (f - e).toNat : Nat) : ℚ) := by positivity
  have hp2 : (0 : ℚ) < (2 : ℚ) ^ f := zpow_pos (by norm_num) _
  have he : (2 : ℚ) ^ e = 2 ^ (e - f) * 2 ^ f := by
    rw [← zpow_add₀ (by norm_num)]; congr 1; ring
  have hcast : (A * 2 ^ (e - f).toNat ≤ B * 2 ^ (f - e).toNat) ↔
      (A : ℚ) * ((2 ^ (e - f).toNat : Nat) : ℚ) ≤ (B : ℚ) * ((2 ^ (f - e).toNat : Nat) : ℚ) := by
    rw [← Int.cast_le (R := ℚ)]
    push_cast
    rfl
  rw [hcast, he, hsplit, ← mul_assoc, mul_le_mul_right hp2, mul_div_assoc', div_le_iff₀ hp1]

theorem scaled_lt_iff (A B : Int) (e f : Int) :
    A * 2 ^ (e - f).toNat < B * 2 ^ (f - e).toNat ↔ (A : ℚ) * 2 ^ e < (B : ℚ) * 2 ^ f := by
  have h := scaled_le_iff B A f e
  constructor
  · intro hlt
    by_contra hn
    exact absurd (h.mpr (not_lt.mp hn)) (not_le.mpr hlt)
  · intro hlt
    by_contra hn
    exact absurd (h.mp (not_lt.mp hn)) (not_le.mpr hlt)

theorem magnitude_of_nonneg (s : Bool) (m : Nat) (e : Int)
    (h0 : (0 : ℚ) ≤ (Float32.signed s m : ℚ) * 2 ^ e) :
    (m : ℚ) * 2 ^ e = (Float32.signed s m : ℚ) * 2 ^ e := by
  cases s
  · simp [Float32.signed]
  · simp only [Float32.signed, if_true, Int.cast_neg, Int.cast_natCast, neg_mul] at h0 ⊢
    have : (0 : ℚ) ≤ (m : ℚ) * 2 ^ e := by positivity
    linarith

/-- The clamped percentage is at most 100. -/
theorem clampProgress_le_hundred (p : Float32) (hp : p ≠ Float32.nan) (s : Bool) (m : Nat)
    (e : Int) (hc : clampProgress p = Float32.fin s m e) : (m : ℚ) * 2 ^ e ≤ 100 := by
  obtain ⟨s', m', e', hc', _, hle⟩ := clampProgress_range p hp
  rw [hc] at hc'
  cases hc'
  have h1 := (scaled_le_iff (m : Int) 13107200 e (-17)).mp (by exact_mod_cast hle)
  have h2 : (13107200 : ℚ) * 2 ^ (-17 : Int) = 100 := by norm_num
  push_cast at h1
  rw [h2] at h1
  exact h1

/-- The clamped value of a finite percentage: 0 below 0, 100 above 100, the
percentage itself in between. -/
theorem clampProgress_fin (sp : Bool) (mp : Nat) (ep : Int) (s : Bool) (m : Nat) (e : Int)
    (hc : clampProgress (Float32.fin sp mp ep) = Float32.fin s m e) :
    ((Float32.signed sp mp : ℚ) * 2 ^ ep < 0 ∧ (m : ℚ) * 2 ^ e = 0) ∨
    ((100 : ℚ) < (Float32.signed sp mp : ℚ) * 2 ^ ep ∧ (m : ℚ) * 2 ^ e = 100) ∨
    ((0 : ℚ) ≤ (Float32.signed sp mp : ℚ) * 2 ^ ep ∧
      (Float32.signed sp mp : ℚ) * 2 ^ ep ≤ 100 ∧
      (m : ℚ) * 2 ^ e = (Float32.signed sp mp : ℚ) * 2 ^ ep) := by
  have h100 : (13107200 : ℚ) * 2 ^ (-17 : Int) = 100 := by norm_num
  have hlt0 : Float32.lt (Float32.fin sp mp ep) (Float32.fin false 0 0) = true ↔
      (Float32.signed sp mp : ℚ) * 2 ^ ep < 0 := by
    simp only [Float32.lt, decide_eq_true_eq]
    rw [scaled_lt_iff]
    simp [Float32.signed]
  have hgt : Float32.lt (Float32.fin false 13107200 (-17)) (Float32.fin sp mp ep) = true ↔
      (100 : ℚ) < (Float32.signed sp mp : ℚ) * 2 ^ ep := by
    simp only [Float32.lt, decide_eq_true_eq]
    rw [scaled_lt_iff]
    have : ((Float32.signed false 13107200 : Int) : ℚ) = 13107200 := by simp [Float32.signed]
    rw [this, h100]
  unfold clampProgress at hc
  rw [ofInt_zero, ofInt_hundred] at hc
  split at hc
  · rename_i h0
    cases hc
    left
    exact ⟨hlt0.mp h0, by simp⟩
  · rename_i h0
    split at hc
    · rename_i h1
      cases hc
      right; left
      refine ⟨hgt.mp h1, ?_⟩
      push_cast
      exact h100
    · rename_i h1
      cases hc
      right; right
      have hn0 : (0 : ℚ) ≤ (Float32.signed sp mp : ℚ) * 2 ^ ep :=
        not_lt.mp (fun h => h0 (hlt0.mpr h))
      exact ⟨hn0, not_lt.mp (fun h => h1 (hgt.mpr h)), magnitude_of_nonneg _ _ _ hn0⟩

/-- The clamping is monotone. -/
theorem clampProgress_mono (p q : Float32) (hpq : Float32.le p q = true) (s t : Bool)
    (m n : Nat) (e f : Int) (hcp : clampProgress p = Float32.fin s m e)
    (hcq : clampProgress q = Float32.fin t n f) : (m : ℚ) * 2 ^ e ≤ (n : ℚ) * 2 ^ f := by
  have hqn : q ≠ Float32.nan := le_ne_nan p q hpq
  have hnonneg : (0 : ℚ) ≤ (n : ℚ) * 2 ^ f := by positivity
  cases p with
  | nan => simp [Float32.le] at hpq
  | inf sp =>
    cases sp
    · -- positive infinity is below positive infinity only
      cases q with
      | nan => simp [Float32.le] at hpq
      | inf tq =>
        cases tq
        · rw [hcp] at hcq
          cases hcq
          exact le_refl _
        · simp [Float32.le] at hpq
      | fin tq mq eq => simp [Float32.le] at hpq
    · have h0 : clampProgress (Float32.inf true) = Float32.fin false 0 0 := by decide
      rw [h0] at hcp
      cases hcp
      simpa using hnonneg
  | fin sp mp ep =>
    cases q with
    | nan => simp [Float32.le] at hpq
    | inf tq =>
      exact le_trans (clampProgress_le_hundred _ (by simp) s m e hcp) (by
        cases tq
        · have h1 : clampProgress (Float32.inf false) = Float32.fin false 13107200 (-17) := by
            decide
          rw [h1] at hcq
          cases hcq
          norm_num
        · simp [Float32.le] at hpq)
    | fin tq mq eq =>
      have hv : (Float32.signed sp mp : ℚ) * 2 ^ ep ≤ (Float32.signed tq mq : ℚ) * 2 ^ eq := by
        simp only [Float32.le, decide_eq_true_eq] at hpq
        exact (scaled_le_iff _ _ _ _).mp hpq
      rcases clampProgress_fin sp mp ep s m e hcp with ⟨a1, a2⟩ | ⟨a1, a2⟩ | ⟨a1, a2, a3⟩ <;>
      rcases clampProgress_fin tq mq eq t n f hcq with ⟨b1, b2⟩ | ⟨b1, b2⟩ | ⟨b1, b2, b3⟩ <;>
      linarith

/-- The stages of the computation of `progressBarCount`: the clamped
percentage, its quotient by 100, the converted bar count, their product and
the truncation of the product. -/
theorem progressBarCount?_stages (colCount : Nat) (hcol : colCount < 256) (p : Float32)
    (hp : p ≠ Float32.nan) :
    ∃ (s : Bool) (m : Nat) (e : Int) (m1 : Nat) (e1 : Int) (M : Nat) (E : Int) (M2 : Nat)
      (E2 : Int),
      clampProgress p = Float32.fin s m e ∧
      roundToFloat32 s (m * 2 ^ (e - (-17)).toNat) (13107200 * 2 ^ ((-17) - e).toNat) =
        Float32.fin s m1 e1 ∧
      roundToFloat32 false (colCount * 5) 1 = Float32.fin false M E ∧
      roundToFloat32 s (M * m1 * 2 ^ (E + e1).toNat) (2 ^ (-(E + e1)).toNat) =
        Float32.fin s M2 E2 ∧
      progressBarCount? colCount p =
        some ((M2 * 2 ^ E2.toNat / 2 ^ (-E2).toNat : Nat) : Int) := by
  obtain ⟨s, m, e, hc, hsm, hle⟩ := clampProgress_range p hp
  obtain ⟨m1, e1, h1, he1, hm1⟩ := roundToFloat32_le s
    (m * 2 ^ (e - (-17)).toNat) (13107200 * 2 ^ ((-17) - e).toNat) 1
    (by positivity) (by norm_num) (by simpa using hle)
  have hN : colCount * 5 < 2 ^ 24 := by norm_num; omega
  obtain ⟨M, E, hM1, hE, hM⟩ := roundToFloat32_le false (colCount * 5) 1 (colCount * 5)
    (by norm_num) hN (by simp)
  have hE1 : (E + e1).toNat = 0 := by omega
  have hE2 : (-(E + e1)).toNat = (-E).toNat + (-e1).toNat := by omega
  obtain ⟨M2, E2, h2, hE2', hM2⟩ := roundToFloat32_le s
    (M * m1 * 2 ^ (E + e1).toNat) (2 ^ (-(E + e1)).toNat) (colCount * 5)
    (by positivity) hN (by
      rw [hE1, hE2, pow_add, pow_zero, Nat.mul_one]
      calc M * m1 ≤ (colCount * 5 * 2 ^ (-E).toNat) * (1 * 2 ^ (-e1).toNat) :=
            Nat.mul_le_mul hM hm1
        _ = colCount * 5 * (2 ^ (-E).toNat * 2 ^ (-e1).toNat) := by ring)
  refine ⟨s, m, e, m1, e1, M, E, M2, E2, hc, h1, hM1, h2, ?_⟩
  have hof : Float32.ofInt ((colCount : Int) * 5) = Float32.fin false M E := by
    unfold Float32.ofInt
    have h1 : decide ((colCount : Int) * 5 < 0) = false := by simp
    have h2 : ((colCount : Int) * 5).natAbs = colCount * 5 := by
      rw [Int.natAbs_mul]; simp
    rw [h1, h2, hM1]
  have hEt : E2.toNat = 0 := by omega
  have ht : M2 * 2 ^ E2.toNat / 2 ^ (-E2).toNat ≤ colCount * 5 := by
    rw [hEt, pow_zero, Nat.mul_one]
    exact Nat.div_le_of_le_mul (by rw [Nat.mul_comm]; exact hM2)
  -- a negative zero stays zero through the stages
  have hzero : s = true → M2 = 0 := by
    intro hs
    have hm0 : m = 0 := by
      rcases hsm with h | h
      · rw [hs] at h; cases h
      · exact h
    subst hm0
    have hm10 : m1 = 0 := by
      simp only [Nat.zero_mul, roundToFloat32, if_true] at h1
      cases h1; rfl
    subst hm10
    simp only [Nat.mul_zero, Nat.zero_mul, roundToFloat32, if_true] at h2
    cases h2; rfl
  unfold progressBarCount?
  simp only [hc, ofInt_hundred, Float32.div, Bool.xor_false]
  rw [if_neg (by norm_num), h1, hof]
  simp only [Float32.mul, Bool.false_xor, h2, Float32.toInt?]
  rw [if_pos (by norm_num; omega)]
  cases s
  · simp [Float32.signed]
  · rw [hzero rfl]
    simp [Float32.signed]

theorem nat_div_le_of_rat_le (a b c d : Nat) (h : (a : ℚ) / b ≤ (c : ℚ) / d) :
    a / b ≤ c / d := by
  rw [← Nat.floor_div_eq_div (α := ℚ) a b, ← Nat.floor_div_eq_div (α := ℚ) c d]
  exact Nat.floor_mono h

theorem le_ne_nan_left (p q : Float32) (h : Float32.le p q = true) : p ≠ Float32.nan := by
  intro hp
  subst hp
  simp [Float32.le] at h

theorem quotient_fraction (m : Nat) (e : Int) :
    ((m * 2 ^ (e - (-17)).toNat : Nat) : ℚ) / ((13107200 * 2 ^ ((-17) - e).toNat : Nat) : ℚ) =
      (m : ℚ) * 2 ^ e / 100 := by
  have h := frac_scale m 13107200 (e - (-17))
  have hneg : (-(e - (-17))).toNat = ((-17) - e).toNat := by congr 1; ring
  rw [hneg] at h
  rw [h, show e - (-17) = e + 17 by ring, zpow_add₀ (by norm_num : (2 : ℚ) ≠ 0)]
  norm_num
  ring

theorem product_fraction (M m1 : Nat) (E e1 : Int) :
    ((M * m1 * 2 ^ (E + e1).toNat : Nat) : ℚ) / ((2 ^ (-(E + e1)).toNat : Nat) : ℚ) =
      ((M : ℚ) * 2 ^ E) * ((m1 : ℚ) * 2 ^ e1) := by
  have h := frac_scale (M * m1) 1 (E + e1)
  rw [Nat.one_mul] at h
  rw [h, zpow_add₀ (by norm_num : (2 : ℚ) ≠ 0)]
  push_cast
  ring

theorem truncation_fraction (M2 : Nat) (E2 : Int) :
    ((M2 * 2 ^ E2.toNat : Nat) : ℚ) / ((2 ^ (-E2).toNat : Nat) : ℚ) = (M2 : ℚ) * 2 ^ E2 := by
  have h := frac_scale M2 1 E2
  rw [Nat.one_mul] at h
  rw [h]
  push_cast
  ring

/-- The bar count is monotone in the percentage. -/
theorem progressBarCount?_mono (colCount : Nat) (hcol : colCount < 256) (p q : Float32)
    (hpq : Float32.le p q = true) :
    ∃ np nq : Nat, progressBarCount? colCount p = some (np : Int) ∧
      progressBarCount? colCount q = some (nq : Int) ∧ np ≤ nq ∧ nq ≤ colCount * 5 := by
  obtain ⟨s, m, e, m1, e1, M, E, M2, E2, hc, hd, hM, hm, hn⟩ :=
    progressBarCount?_stages colCount hcol p (le_ne_nan_left p q hpq)
  obtain ⟨s', m', e', m1', e1', M', E', M2', E2', hc', hd', hM', hm', hn'⟩ :=
    progressBarCount?_stages colCount hcol q (le_ne_nan p q hpq)
  rw [hM] at hM'
  cases hM'
  obtain ⟨nq, hnq, hnqle⟩ := progressBarCount?_bounds colCount hcol q (le_ne_nan p q hpq)
  have hclamp := clampProgress_mono p q hpq s s' m m' e e' hc hc'
  have hquot : (m1 : ℚ) * 2 ^ e1 ≤ (m1' : ℚ) * 2 ^ e1' := by
    apply roundToFloat32_mono _ _ _ _ _ _ _ _ _ _ _ _ (by positivity) (by positivity) _ hd hd'
    rw [quotient_fraction, quotient_fraction]
    exact div_le_div_of_nonneg_right hclamp (by norm_num)
  have hprod : (M2 : ℚ) * 2 ^ E2 ≤ (M2' : ℚ) * 2 ^ E2' := by
    apply roundToFloat32_mono _ _ _ _ _ _ _ _ _ _ _ _ (by positivity) (by positivity) _ hm hm'
    rw [product_fraction, product_fraction]
    exact mul_le_mul_of_nonneg_left hquot (by positivity)
  have htrunc : M2 * 2 ^ E2.toNat / 2 ^ (-E2).toNat ≤ M2' * 2 ^ E2'.toNat / 2 ^ (-E2').toNat := by
    apply nat_div_le_of_rat_le
    rw [truncation_fraction, truncation_fraction]
    exact hprod
  refine ⟨_, _, hn, hn', htrunc, ?_⟩
  rw [hn'] at hnq
  have : ((M2' * 2 ^ E2'.toNat / 2 ^ (-E2').toNat : Nat) : Int) = (nq : Int) := by
    simpa using hnq
  have : M2' * 2 ^ E2'.toNat / 2 ^ (-E2').toNat = nq := by exact_mod_cast this
  rw [this]; exact hnqle

/-- C20: the rendered bar is monotone in the percentage. On an enabled bar of
fewer than 256 columns and for percentages `p <= q`, both calls return; the
filled-unit count of `setProgress(p)`, five times its full glyphs plus the
level of its partial glyph, is at most that of `setProgress(q)`, and
`setProgress(p)` writes at least as many spaces as `setProgress(q)`. -/
theorem setProgress_monotone (h : Header) (s : LCD) (p q : Float32)
    (hcol : s._colCount < 256) (hen : s._progressBarEnabled = true)
    (hpq : Float32.le p q = true) :
    ∃ (np nq bp bq : Nat) (rp rq : Step),
      progressBarCount? s._colCount p = some (np : Int) ∧
      progressBarCount? s._colCount q = some (nq : Int) ∧
      setProgress h s p = some rp ∧ setProgress h s q = some rq ∧
      transactions rp.events = barCursorTransaction s ::
        (List.replicate (np / 5) [0x40, h.CUSTOM_SYMBOL_8 % 256] ++ partialCell h (np % 5) ++
          List.replicate bp [0x40, 0x20]) ∧
      transactions rq.events = barCursorTransaction s ::
        (List.replicate (nq / 5) [0x40, h.CUSTOM_SYMBOL_8 % 256] ++ partialCell h (nq % 5) ++
          List.replicate bq [0x40, 0x20]) ∧
      np % 5 < 5 ∧ nq % 5 < 5 ∧
      5 * (np / 5) + np % 5 ≤ 5 * (nq / 5) + nq % 5 ∧
      bq ≤ bp := by
  obtain ⟨np, nq, hnp, hnq, hle, hqle⟩ := progressBarCount?_mono s._colCount hcol p q hpq
  have hple : np ≤ s._colCount * 5 := le_trans hle hqle
  obtain ⟨_, htp⟩ := drawProgress_transactions h s np hcol hple
  obtain ⟨_, htq⟩ := drawProgress_transactions h s nq hcol hqle
  refine ⟨np, nq, _, _, drawProgress h s (np : Int), drawProgress h s (nq : Int), hnp, hnq,
    ?_, ?_, htp, htq, Nat.mod_lt _ (by norm_num), Nat.mod_lt _ (by norm_num), ?_, ?_⟩
  · unfold setProgress
    simp [hen, hnp]
  · unfold setProgress
    simp [hen, hnq]
  · omega
  · split <;> split <;> omega

theorem setProgress_monotone_witness :
    (sampleLCD 4 20 3)._colCount < 256 ∧ (sampleLCD 4 20 3)._progressBarEnabled = true ∧
    Float32.le (Float32.ofInt 53) (Float32.ofInt 59) = true ∧
    progressBarCount? 20 (Float32.ofInt 53) = some 52 ∧
    progressBarCount? 20 (Float32.ofInt 59) = some 58 ∧
    ∃ (np nq bp bq : Nat) (rp rq : Step),
      progressBarCount? (sampleLCD 4 20 3)._colCount (Float32.ofInt 53) = some (np : Int) ∧
      progressBarCount? (sampleLCD 4 20 3)._colCount (Float32.ofInt 59) = some (nq : Int) ∧
      setProgress hd44780 (sampleLCD 4 20 3) (Float32.ofInt 53) = some rp ∧
      setProgress hd44780 (sampleLCD 4 20 3) (Float32.ofInt 59) = some rq ∧
      transactions rp.events = barCursorTransaction (sampleLCD 4 20 3) ::
        (List.replicate (np / 5) [0x40, hd44780.CUSTOM_SYMBOL_8 % 256] ++
          partialCell hd44780 (np % 5) ++ List.replicate bp [0x40, 0x20]) ∧
      transactions rq.events = barCursorTransaction (sampleLCD 4 20 3) ::
        (List.replicate (nq / 5) [0x40, hd44780.CUSTOM_SYMBOL_8 % 256] ++
          partialCell hd44780 (nq % 5) ++ List.replicate bq [0x40, 0x20]) ∧
      np % 5 < 5 ∧ nq % 5 < 5 ∧
      5 * (np / 5) + np % 5 ≤ 5 * (nq / 5) + nq % 5 ∧
      bq ≤ bp :=
  ⟨by decide, by decide, by decide, by decide, by decide,
    setProgress_monotone hd44780 (sampleLCD 4 20 3) (Float32.ofInt 53) (Float32.ofInt 59)
      (by decide) (by decide) (by decide)⟩

end LiquidCrystalWired
